import Mathlib

/-!
# AcornOS build pipeline — verification of the declarative build core

This file is a shallow embedding, in Lean 4, of the core of the AcornOS
image builder (the `acornos` crate): the filesystem-operation vocabulary and
its executor (`src/component/executor.rs`, `src/component/mod.rs`,
`src/component/builder.rs`, `src/component/context.rs`), the rebuild-skip
decision (`src/rebuild.rs`), the atomic work/final artifact promotion
(`src/artifact/rootfs.rs`), and the slice of the build command that records
input-hash sidecars (`src/main.rs`).

Modelling conventions, stated once here:

* A filesystem path is a list of components (`Path := List String`);
  `Path::join` on a relative string is concatenation with the split
  components.  A filesystem is a finite association list from paths to
  nodes; a node is a regular file (content and permission mode), a symlink
  (raw target string, never resolved), or a directory (permission mode).
* `exists()` on a path is modelled as "the path has a node".  Real
  `Path::exists` resolves symlinks, so the model identifies a symlink with
  an existing target; dangling symlinks are not modelled.  At every call
  site in the translated code `exists()` is either applied to non-symlink
  paths or paired with `is_symlink()` in a disjunction, where the two
  semantics agree.
* Operations that in Rust would write *through* a symlink (write, copy,
  chmod onto a symlink node) are modelled as errors: no claim under
  verification depends on symlink traversal, and making the case loud keeps
  the model honest.
* A failing operation returns `Except.error`; the partially mutated tree a
  real failed operation may leave behind is not observable in the model.
  The pipeline discards a staging tree wholesale on failure (spec §4.1,
  §4.3), and no claim depends on the partial effects of one failed
  operation.  Where the Rust code itself continues after a failure and the
  intermediate state matters (the batch binary loop, the atomic builder,
  the build command), the model threads the state explicitly as
  `FS × Option error`.
* External collaborators (spec §6) — the `ldd` dependency lister, the
  custom-operation handlers that call into the external `distro_builder`
  crate, the license tracker flush, the external `mkfs.erofs` producer —
  are parameters of the model, constrained only where a theorem needs it.
* `fs::write` creates files with mode `0o644` and `create_dir_all` creates
  directories with mode `0o755` (the process-umask default); an existing
  file keeps its mode when overwritten, as `O_TRUNC` does.
-/

namespace Acorn

/-- A filesystem path, as its list of components. -/
abbrev Path := List String

/-- A filesystem node: regular file (content, mode), symlink (raw target
string), or directory (mode). -/
inductive Node where
  | file (content : String) (mode : Nat)
  | symlink (target : String)
  | dir (mode : Nat)
deriving DecidableEq, Repr

/-- A filesystem: a finite association list from paths to nodes. -/
abbrev FS := List (Path × Node)

/-- `pathLe p q`: `p` is an initial segment of `q` (so `q` is `p` itself or
lies inside the directory `p`). -/
def pathLe : Path → Path → Bool
  | [], _ => true
  | _ :: _, [] => false
  | a :: as, b :: bs => if a = b then pathLe as bs else false

/-- `stripRoot root p`: if `p = root ++ r`, return `some r`. -/
def stripRoot : Path → Path → Option Path
  | [], q => some q
  | _ :: _, [] => none
  | a :: as, b :: bs => if a = b then stripRoot as bs else none

/-- Split a character list on `/`, dropping empty components; `acc` holds
the (reversed) characters of the component being read. -/
def splitPathChars : List Char → List Char → Path
  | [], acc => if acc = [] then [] else [String.mk acc.reverse]
  | c :: cs, acc =>
    if c = '/' then
      if acc = [] then splitPathChars cs []
      else String.mk acc.reverse :: splitPathChars cs []
    else splitPathChars cs (c :: acc)

/-- Split a relative path string on `/`, dropping empty components;
`Path::join` with a string argument appends these components. -/
def splitPath (s : String) : Path := splitPathChars s.data []

namespace FS

/-- Look a path up in the filesystem. -/
def get : FS → Path → Option Node
  | [], _ => none
  | e :: fs, p => if e.1 = p then some e.2 else get fs p

/-- Remove every binding of a path. -/
def eraseKey : FS → Path → FS
  | [], _ => []
  | e :: fs, p => if e.1 = p then eraseKey fs p else e :: eraseKey fs p

/-- Bind a path to a node, replacing any previous binding. -/
def set (fs : FS) (p : Path) (n : Node) : FS := (p, n) :: eraseKey fs p

/-- Drop every entry at or below a path (the core of `remove_dir_all`). -/
def dropUnder : FS → Path → FS
  | [], _ => []
  | e :: fs, p => if pathLe p e.1 then dropUnder fs p else e :: dropUnder fs p

/-- `Path::exists`, under the no-dangling-symlink convention. -/
def pathExists (fs : FS) (p : Path) : Bool := (fs.get p).isSome

/-- `Path::is_symlink`. -/
def isSymlinkAt (fs : FS) (p : Path) : Bool :=
  match fs.get p with
  | some (.symlink _) => true
  | _ => false

end FS

theorem pathLe_refl (p : Path) : pathLe p p = true := by
  induction p with
  | nil => rfl
  | cons a as ih => simp [pathLe, ih]

theorem pathLe_append (p r : Path) : pathLe p (p ++ r) = true := by
  induction p with
  | nil => rfl
  | cons a as ih => simp [pathLe, ih]

theorem eq_append_of_pathLe {p q : Path} (h : pathLe p q = true) :
    ∃ r, q = p ++ r := by
  induction p generalizing q with
  | nil => exact ⟨q, rfl⟩
  | cons a as ih =>
    cases q with
    | nil => simp [pathLe] at h
    | cons b bs =>
      by_cases hab : a = b
      · subst hab
        simp [pathLe] at h
        obtain ⟨r, hr⟩ := ih h
        exact ⟨r, by simp [hr]⟩
      · simp [pathLe, hab] at h

theorem pathLe_iff (p q : Path) : pathLe p q = true ↔ ∃ r, q = p ++ r := by
  constructor
  · exact eq_append_of_pathLe
  · rintro ⟨r, rfl⟩; exact pathLe_append p r

theorem stripRoot_append (p r : Path) : stripRoot p (p ++ r) = some r := by
  induction p with
  | nil => rfl
  | cons a as ih => simp [stripRoot, ih]

theorem stripRoot_eq_some {p q r : Path} (h : stripRoot p q = some r) :
    q = p ++ r := by
  induction p generalizing q with
  | nil => simp [stripRoot] at h; simp [h]
  | cons a as ih =>
    cases q with
    | nil => simp [stripRoot] at h
    | cons b bs =>
      by_cases hab : a = b
      · subst hab
        simp [stripRoot] at h
        have := ih h
        simp [this]
      · simp [stripRoot, hab] at h

theorem stripRoot_of_not_pathLe {p q : Path} (h : pathLe p q = false) :
    stripRoot p q = none := by
  cases hs : stripRoot p q with
  | none => rfl
  | some r =>
    have := stripRoot_eq_some hs
    subst this
    rw [pathLe_append] at h
    exact absurd h (by simp)

theorem pathLe_of_stripRoot {p q r : Path} (h : stripRoot p q = some r) :
    pathLe p q = true := by
  have := stripRoot_eq_some h
  subst this
  exact pathLe_append p r

/-- Two initial segments of the same list are comparable. -/
theorem pathLe_total_of_pathLe {a b q : Path}
    (ha : pathLe a q = true) (hb : pathLe b q = true) :
    pathLe a b = true ∨ pathLe b a = true := by
  induction a generalizing b q with
  | nil => left; rfl
  | cons x as ih =>
    cases b with
    | nil => right; rfl
    | cons y bs =>
      cases q with
      | nil => simp [pathLe] at ha
      | cons z qs =>
        by_cases hxz : x = z
        · subst hxz
          simp [pathLe] at ha
          by_cases hyz : y = x
          · subst hyz
            simp [pathLe] at hb
            rcases ih ha hb with h | h
            · left; simp [pathLe, h]
            · right; simp [pathLe, h]
          · simp [pathLe, hyz] at hb
        · simp [pathLe, hxz] at ha

theorem pathLe_cases_append {x a r : Path} (h : pathLe x (a ++ r) = true) :
    pathLe x a = true ∨ pathLe a x = true :=
  pathLe_total_of_pathLe h (pathLe_append a r)

theorem not_pathLe_long (p : Path) (c : String) (r : Path) :
    pathLe (p ++ c :: r) p = false := by
  cases h : pathLe (p ++ c :: r) p with
  | false => rfl
  | true =>
    obtain ⟨s, hs⟩ := eq_append_of_pathLe h
    have hlen : p.length + (c :: r).length + s.length = p.length := by
      have := congrArg List.length hs
      simpa [List.length_append, Nat.add_assoc] using this.symm
    simp [List.length_cons] at hlen
    omega

/-- Appending distinct final components yields incomparable paths. -/
theorem pathLe_append_singleton_iff (p : Path) (a b : String) :
    pathLe (p ++ [a]) (p ++ [b]) = true ↔ a = b := by
  induction p with
  | nil =>
    constructor
    · intro h
      by_cases hab : a = b
      · exact hab
      · simp [pathLe, hab] at h
    · intro h; subst h; exact pathLe_refl _
  | cons x xs ih => simpa [pathLe] using ih

namespace FS

theorem get_eraseKey (fs : FS) (p q : Path) :
    (fs.eraseKey p).get q = if q = p then none else fs.get q := by
  induction fs with
  | nil => simp [eraseKey, get]
  | cons e fs ih =>
    by_cases h1 : e.1 = p
    · have hL : eraseKey (e :: fs) p = eraseKey fs p := by simp [eraseKey, h1]
      rw [hL, ih]
      by_cases h2 : q = p
      · simp [h2]
      · have h3 : e.1 ≠ q := by rw [h1]; exact fun hh => h2 hh.symm
        simp [get, h2, h3]
    · have hL : eraseKey (e :: fs) p = e :: eraseKey fs p := by
        simp [eraseKey, h1]
      rw [hL]
      by_cases h3 : e.1 = q
      · have h2 : ¬ q = p := fun hh => h1 (by rw [h3, hh])
        simp [get, h3, h2]
      · simp [get, h3, ih]

theorem get_set (fs : FS) (p q : Path) (n : Node) :
    (fs.set p n).get q = if q = p then some n else fs.get q := by
  by_cases h : q = p
  · simp [set, get, h]
  · have h2 : ¬ p = q := fun hh => h hh.symm
    simp [set, get, h, h2, get_eraseKey]

theorem get_dropUnder (fs : FS) (p q : Path) :
    (fs.dropUnder p).get q = if pathLe p q then none else fs.get q := by
  induction fs with
  | nil => simp [dropUnder, get]
  | cons e fs ih =>
    by_cases h1 : pathLe p e.1
    · by_cases h2 : pathLe p q
      · simp [dropUnder, h1, h2, ih]
      · by_cases h3 : e.1 = q
        · exact absurd (h3 ▸ h1) (by simp [h2])
        · simp [dropUnder, get, h1, h2, h3, ih]
    · by_cases h3 : e.1 = q
      · have h2 : ¬ pathLe p q = true := h3 ▸ h1
        simp [dropUnder, get, h1, h3, h2]
      · simp [dropUnder, get, h1, h3, ih]

end FS

/-! ## The `std::fs` layer

Each definition models the Rust standard-library call the executor uses,
under the conventions stated in the header. -/

/-- Mode given to files created by `fs::write` (umask default). -/
def defaultFileMode : Nat := 0o644

/-- Mode given to directories created by `create_dir_all` (umask default). -/
def defaultDirMode : Nat := 0o755

/-- Walk of `fs::create_dir_all`: `done` is the already-ensured prefix,
`rest` the components still to create. -/
def mkdirAllFrom (done : Path) : FS → Path → Except String FS
  | fs, [] => .ok fs
  | fs, c :: rest =>
    let q := done ++ [c]
    match fs.get q with
    | none => mkdirAllFrom q (fs.set q (.dir defaultDirMode)) rest
    | some (.dir _) => mkdirAllFrom q fs rest
    | some _ => .error "create_dir_all: a path component is not a directory"

/-- `fs::create_dir_all`: create a directory and all missing ancestors. -/
def mkdirAll (fs : FS) (p : Path) : Except String FS := mkdirAllFrom [] fs p

/-- `fs::remove_file`: removes a file or symlink, fails on a directory or a
missing path. -/
def removeFile (fs : FS) (p : Path) : Except String FS :=
  match fs.get p with
  | some (.file _ _) => .ok (fs.eraseKey p)
  | some (.symlink _) => .ok (fs.eraseKey p)
  | some (.dir _) => .error "remove_file: is a directory"
  | none => .error "remove_file: no such file"

/-- The executor's overwrite guard, `if p.exists() || p.is_symlink() {
fs::remove_file(&p)? }`: a no-op when nothing occupies `p`, removal of a
file or symlink occupant, an error when a directory occupies `p`. -/
def removeOccupant (fs : FS) (p : Path) : Except String FS :=
  match fs.get p with
  | none => .ok fs
  | some (.dir _) => .error "remove_file: is a directory"
  | some _ => .ok (fs.eraseKey p)

/-- `fs::write`: create or truncate a regular file.  An existing file keeps
its mode; a new file gets the umask default. -/
def fsWrite (fs : FS) (p : Path) (content : String) : Except String FS :=
  match fs.get p with
  | none => .ok (fs.set p (.file content defaultFileMode))
  | some (.file _ m) => .ok (fs.set p (.file content m))
  | some _ => .error "write: destination is not a regular file"

/-- Append to a regular file (`OpenOptions::new().create(true).append(true)`
followed by `writeln!`): creates the file when absent. -/
def appendToFile (fs : FS) (p : Path) (s : String) : Except String FS :=
  match fs.get p with
  | none => .ok (fs.set p (.file s defaultFileMode))
  | some (.file c m) => .ok (fs.set p (.file (c ++ s) m))
  | some _ => .error "append: destination is not a regular file"

/-- `fs::read_to_string` guarded by `exists()`: absent files read as `""`
(the `if path.exists() { read_to_string } else { String::new() }` pattern of
the account upserts). -/
def readFileOrEmpty (fs : FS) (p : Path) : Except String String :=
  match fs.get p with
  | none => .ok ""
  | some (.file c _) => .ok c
  | some _ => .error "read_to_string: not a regular file"

/-- `fs::copy`: copy a regular file's bytes and permission bits. -/
def copyFileNode (fs : FS) (src dst : Path) : Except String FS :=
  match fs.get src with
  | some (.file c m) =>
    match fs.get dst with
    | none => .ok (fs.set dst (.file c m))
    | some (.file _ _) => .ok (fs.set dst (.file c m))
    | some _ => .error "copy: destination is not writable"
  | _ => .error "copy: source is not a regular file"

/-- `fs::set_permissions`. -/
def setPermissions (fs : FS) (p : Path) (mode : Nat) : Except String FS :=
  match fs.get p with
  | some (.file c _) => .ok (fs.set p (.file c mode))
  | some (.dir _) => .ok (fs.set p (.dir mode))
  | _ => .error "set_permissions: no such file"

/-- `make_executable`: or the three execute bits into the current mode. -/
def makeExecutable (fs : FS) (p : Path) : Except String FS :=
  match fs.get p with
  | some (.file c m) => .ok (fs.set p (.file c (m.lor 0o111)))
  | some (.dir m) => .ok (fs.set p (.dir (m.lor 0o111)))
  | _ => .error "metadata: no such file"

/-- `std::os::unix::fs::symlink`: create a fresh symlink, failing if the
link path is occupied. -/
def symlinkNew (fs : FS) (target : String) (link : Path) : Except String FS :=
  match fs.get link with
  | none => .ok (fs.set link (.symlink target))
  | some _ => .error "symlink: file exists"

/-- `fs::remove_dir_all`: remove a directory and everything under it. -/
def removeDirAll (fs : FS) (p : Path) : Except String FS :=
  match fs.get p with
  | some (.dir _) => .ok (fs.dropUnder p)
  | some _ => .error "remove_dir_all: not a directory"
  | none => .error "remove_dir_all: no such directory"

/-- `let _ = fs::remove_dir_all(p)`: errors swallowed. -/
def removeDirAllQuiet (fs : FS) (p : Path) : FS :=
  match removeDirAll fs p with
  | .ok fs1 => fs1
  | .error _ => fs

/-- `let _ = fs::remove_file(p)`: errors swallowed. -/
def removeFileQuiet (fs : FS) (p : Path) : FS :=
  match removeFile fs p with
  | .ok fs1 => fs1
  | .error _ => fs

/-- `fs::rename src dst`: move the subtree rooted at `src` to `dst`.
Modelled for the promotion call sites, where `dst` was just removed:
anything still under `dst` is overwritten. -/
def renameEntry (fs : FS) (src dst : Path) : Except String FS :=
  if fs.pathExists src then
    .ok (fs.filterMap (fun e =>
      match stripRoot src e.1 with
      | some r => some (dst ++ r, e.2)
      | none => if pathLe dst e.1 then none else some e))
  else .error "rename: no such file or directory"

/-- The subtree of the filesystem under `root`, as a map on relative
paths.  This is what an external collaborator working inside a directory
it was handed (a custom-operation handler, the license flush) can observe. -/
def subtreeAt (fs : FS) (root : Path) : Path → Option Node :=
  fun q => fs.get (root ++ q)

/-- Replace the subtree under `root` by the (relative) entries `t`. -/
def graft (fs : FS) (root : Path) (t : FS) : FS :=
  t.map (fun e => (root ++ e.1, e.2)) ++
    fs.filter (fun e => ¬ pathLe root e.1)

/-! ## String helpers

`str::lines` and `str::starts_with` are modelled on the character lists
underlying `String`, so that their algebra (appending a terminated line,
counting matching lines) can be proved by structural induction. -/

/-- `str::lines` on a character list: split on `'\n'`, treating the
newline as a terminator (a trailing newline produces no extra empty
line).  `'\r'` handling is not modelled. -/
def linesList : List Char → List (List Char)
  | [] => []
  | c :: rest =>
    if c = '\n' then [] :: linesList rest
    else
      match linesList rest with
      | [] => [[c]]
      | l :: ls => (c :: l) :: ls

/-- `str::lines`, as strings. -/
def rustLines (s : String) : List String :=
  (linesList s.data).map (fun l => String.mk l)

/-- `listStarts l pre`: `pre` is an initial segment of `l`. -/
def listStarts : List Char → List Char → Bool
  | _, [] => true
  | [], _ :: _ => false
  | a :: as, b :: bs => if a = b then listStarts as bs else false

/-- `str::starts_with`. -/
def strStarts (s pre : String) : Bool := listStarts s.data pre.data

/-- Parse one line of `ldd` output (`extract_library_path` in
`src/component/executor.rs`): everything after the first `" => "` arrow,
trimmed and split on whitespace; the first token is returned when it is an
absolute path. -/
def extract_library_path (line : String) : Option String :=
  match line.splitOn "=>" with
  | _ :: r :: rs =>
    let after := String.intercalate "=>" (r :: rs)
    match (after.trim.split Char.isWhitespace).filter (fun s => s ≠ "") with
    | p :: _ => if strStarts p "/" then some p else none
    | [] => none
  | _ => none

/-! ## The operation vocabulary (`src/component/mod.rs`) -/

/-- Custom operations (`enum CustomOp` in `src/component/mod.rs`): the
closed escape hatch into imperative handlers. -/
inductive CustomOp where
  | CreateFhsSymlinks
  | CreateOsRelease
  | CreateBranding
  | CreateBusyboxApplets
  | SetupDeviceManager
  | CopyModules
  | RunDepmod
  | CopyWifiFirmware
  | CopyAllFirmware
  | CreateEtcFiles
  | CreateSecurityConfig
  | CopyTimezoneData
  | CreateWelcomeMessage
  | CreateLiveOverlay
  | CopyRecstrap
  | CopyAllLibraries
deriving DecidableEq, Repr

/-- The closed operation vocabulary (`enum Op` in `src/component/mod.rs`).
Static string data in Rust becomes `String`, static slices become lists. -/
inductive Op where
  | Dir (path : String)
  | DirMode (path : String) (mode : Nat)
  | Dirs (paths : List String)
  | WriteFile (path content : String)
  | WriteFileMode (path content : String) (mode : Nat)
  | Symlink (link target : String)
  | CopyFile (path : String)
  | CopyTree (path : String)
  | Bin (name : String)
  | Sbin (name : String)
  | Bins (names : List String)
  | Sbins (names : List String)
  | OpenrcEnable (service runlevel : String)
  | OpenrcScripts (scripts : List String)
  | OpenrcConf (service content : String)
  | User (name : String) (uid gid : Nat) (home shell : String)
  | Group (name : String) (gid : Nat)
  | Custom (c : CustomOp)
deriving DecidableEq, Repr

/-- Modelled from the spec: the `Phase` enumeration re-exported from the
external `distro_builder` crate — "a small totally ordered enumeration
(Filesystem < Binaries < Init < Services < Config < Firmware < Final)"
(spec §3). -/
inductive Phase where
  | Filesystem
  | Binaries
  | Init
  | Services
  | Config
  | Firmware
  | Final
deriving DecidableEq, Repr

/-- The position of a phase in the total order. -/
def Phase.idx : Phase → Nat
  | .Filesystem => 0
  | .Binaries => 1
  | .Init => 2
  | .Services => 3
  | .Config => 4
  | .Firmware => 5
  | .Final => 6

/-- The total order on phases. -/
def Phase.before (a b : Phase) : Bool := a.idx < b.idx

/-- A component (`struct Component` in `src/component/mod.rs`): a named,
phase-tagged, ordered list of operations. -/
structure Component where
  name : String
  phase : Phase
  ops : List Op
deriving DecidableEq, Repr

/-- The build context (`struct BuildContext` in
`src/component/context.rs`). -/
structure BuildContext where
  source : Path
  staging : Path
  baseDir : Path
  output : Path
deriving DecidableEq, Repr

/-- `Path::join` with a relative string argument. -/
def joinPath (root : Path) (s : String) : Path := root ++ splitPath s

/-- `Path::display`. -/
def showPath (p : Path) : String := String.intercalate "/" p

/-- The outcome of invoking the external `ldd` dependency lister
(spec §6): the spawn itself can fail, or the child runs and exits with a
success flag and captured stdout. -/
inductive LddOutcome where
  | spawnFail
  | run (success : Bool) (stdout : String)

/-- The external collaborators of the executor (spec §6): the `ldd`
dependency lister, the custom-operation handlers (which live partly in the
external `distro_builder` crate and partly outside the operation
vocabulary), and the license-tracker flush.  A handler observes the source
and staging trees it is handed and produces a replacement staging subtree;
its other inputs (base-directory artifacts, host tools) are fixed for one
build invocation and absorbed into the function. -/
structure Externals where
  ldd : Path → LddOutcome
  custom : CustomOp → (Path → Option Node) → (Path → Option Node) →
    Except String FS
  licenses : (Path → Option Node) → (Path → Option Node) →
    Except String (FS × Nat)

/-! ## The executor (`src/component/executor.rs`) -/

/-- `BuildContext::find_binary`: probe the four conventional source
locations, returning the first relative path that exists. -/
def find_binary (ctx : BuildContext) (fs : FS) (name : String) : Option Path :=
  let candidates := [joinPath ["usr", "bin"] name, joinPath ["bin"] name,
    joinPath ["usr", "sbin"] name, joinPath ["sbin"] name]
  candidates.find? (fun c => fs.pathExists (ctx.source ++ c))

/-- The error text of `copy_binary` when `find_binary` fails. -/
def binaryNotFoundMsg (ctx : BuildContext) (fs : FS) (name : String) : String :=
  let usrBin := ctx.source ++ joinPath ["usr", "bin"] name
  let bin := ctx.source ++ joinPath ["bin"] name
  "binary not found: " ++ name ++ " (checked " ++ showPath usrBin ++
    " [exists=" ++ toString (fs.pathExists usrBin) ++ "] and " ++
    showPath bin ++ " [exists=" ++ toString (fs.pathExists bin) ++ "])"

/-- One line of the `copy_library_deps` loop: parse the line, and when it
names an absolute library path, copy it from the source tree into staging
unless already present. -/
def copyDepLine (ctx : BuildContext) (fs : FS) (line : String) :
    Except String FS :=
  match extract_library_path line with
  | none => .ok fs
  | some pathStr =>
    let rel := splitPath pathStr
    let src := ctx.source ++ rel
    let dst := ctx.staging ++ rel
    if fs.pathExists src && !(fs.pathExists dst) then do
      let fs ← mkdirAll fs dst.dropLast
      copyFileNode fs src dst
    else .ok fs

/-- The `copy_library_deps` line loop. -/
def copyDepsList (ctx : BuildContext) : List String → FS → Except String FS
  | [], fs => .ok fs
  | l :: ls, fs => do
    let fs ← copyDepLine ctx fs l
    copyDepsList ctx ls fs

/-- `copy_library_deps`: run `ldd` (allowed to fail: a non-success exit
means a static binary, not an error) and copy each reported shared
library into staging at its absolute path if not already present. -/
def copy_library_deps (ext : Externals) (ctx : BuildContext) (fs : FS)
    (binary : Path) : Except String FS :=
  match ext.ldd binary with
  | .spawnFail => .error "failed to run ldd"
  | .run false _ => .ok fs
  | .run true out => copyDepsList ctx (rustLines out) fs

/-- `copy_binary`: locate the binary in the source tree, recreate it in
staging (as a symlink when the source is a symlink, else as a copied file
with the execute bits forced on), then pull in its shared-library
dependencies. -/
def copy_binary (ext : Externals) (ctx : BuildContext) (fs : FS)
    (name destDir : String) : Except String FS :=
  match find_binary ctx fs name with
  | none => .error (binaryNotFoundMsg ctx fs name)
  | some srcRel => do
    let src := ctx.source ++ srcRel
    let dst := joinPath (joinPath ctx.staging destDir) name
    let fs ← mkdirAll fs dst.dropLast
    match fs.get src with
    | some (.symlink target) => do
      let fs ← removeOccupant fs dst
      symlinkNew fs target dst
    | _ => do
      let fs ← removeOccupant fs dst
      let fs ← copyFileNode fs src dst
      let fs ← makeExecutable fs dst
      copy_library_deps ext ctx fs src

/-- The `Op::Bins` loop: attempt `copy_binary` for every name, collecting
a `"name: error"` entry per failure; the filesystem effects of successful
copies are kept even when earlier names failed. -/
def runBinsAux (ext : Externals) (ctx : BuildContext) :
    List String → FS → FS × List String
  | [], fs => (fs, [])
  | n :: rest, fs =>
    match copy_binary ext ctx fs n "usr/bin" with
    | .ok fs1 => runBinsAux ext ctx rest fs1
    | .error e =>
      let r := runBinsAux ext ctx rest fs
      (r.1, (n ++ ": " ++ e) :: r.2)

/-- The `Op::Sbins` loop: like `runBinsAux` but collecting bare names. -/
def runSbinsAux (ext : Externals) (ctx : BuildContext) :
    List String → FS → FS × List String
  | [], fs => (fs, [])
  | n :: rest, fs =>
    match copy_binary ext ctx fs n "usr/sbin" with
    | .ok fs1 => runSbinsAux ext ctx rest fs1
    | .error _ =>
      let r := runSbinsAux ext ctx rest fs
      (r.1, n :: r.2)

/-- The entries a recursive tree copy recreates: every entry of the source
subtree, rekeyed under the destination. -/
def copyTreeEntries (fs : FS) (src dst : Path) : FS :=
  fs.filterMap (fun e => (stripRoot src e.1).map (fun q => (dst ++ q, e.2)))

/-- Apply a list of bindings in order. -/
def setMany : FS → FS → FS
  | fs, [] => fs
  | fs, e :: t => setMany (fs.set e.1 e.2) t

/-- `copy_tree`: the one lenient primitive — logs and no-ops when the
source is absent; copies a single file directly; recreates a directory
tree.  The recursive walk of the Rust code is modelled extensionally: for
a well-formed tree it visits exactly the source-subtree entries, copying
file bytes and modes and recreating symlinks by their stored target
without following them. -/
def copy_tree (fs : FS) (src dst : Path) : Except String FS :=
  if fs.pathExists src = false then .ok fs
  else
    match fs.get src with
    | some (.file _ _) => do
      let fs ← mkdirAll fs dst.dropLast
      copyFileNode fs src dst
    | some (.dir _) => .ok (setMany fs (copyTreeEntries fs src dst))
    | _ => .error "copy_tree through a symlink root is not modelled"

/-- `enable_openrc_service`: create the run-level directory, then create
the `etc/runlevels/<runlevel>/<service>` symlink **only when nothing at
all occupies the link path** — a true no-op otherwise. -/
def enable_openrc_service (ctx : BuildContext) (fs : FS)
    (service runlevel : String) : Except String FS := do
  let runlevelDir := joinPath (ctx.staging ++ ["etc", "runlevels"]) runlevel
  let fs ← mkdirAll fs runlevelDir
  let link := joinPath runlevelDir service
  let target := "/etc/init.d/" ++ service
  if !(fs.pathExists link) && !(fs.isSymlinkAt link) then
    symlinkNew fs target link
  else .ok fs

/-- `copy_init_script`: fail fast when the script is missing upstream. -/
def copy_init_script (ctx : BuildContext) (fs : FS) (script : String) :
    Except String FS :=
  let src := joinPath (ctx.source ++ ["etc", "init.d"]) script
  let dst := joinPath (ctx.staging ++ ["etc", "init.d"]) script
  if fs.pathExists src = false then
    .error ("OpenRC init script not found: " ++ showPath src)
  else do
    let fs ← mkdirAll fs dst.dropLast
    let fs ← copyFileNode fs src dst
    makeExecutable fs dst

/-- The `OpenrcScripts` loop. -/
def copyInitScripts (ctx : BuildContext) : List String → FS → Except String FS
  | [], fs => .ok fs
  | s :: ss, fs => do
    let fs ← copy_init_script ctx fs s
    copyInitScripts ctx ss fs

/-- The `passwd` entry `writeln!` formats for a user (without the trailing
newline `writeln!` adds). -/
def userEntry (name : String) (uid gid : Nat) (home shell : String) : String :=
  name ++ ":x:" ++ toString uid ++ ":" ++ toString gid ++ "::" ++ home ++
    ":" ++ shell

/-- The `passwd` line `writeln!` appends for a user. -/
def userLine (name : String) (uid gid : Nat) (home shell : String) : String :=
  userEntry name uid gid home shell ++ "\n"

/-- The `group` entry `writeln!` formats for a group (without the trailing
newline). -/
def groupEntry (name : String) (gid : Nat) : String :=
  name ++ ":x:" ++ toString gid ++ ":"

/-- The `group` line `writeln!` appends for a group. -/
def groupLine (name : String) (gid : Nat) : String :=
  groupEntry name gid ++ "\n"

/-- `ensure_user`: read `etc/passwd` (absent reads as empty), return
unchanged when some line already starts with `name:`, else append exactly
one line. -/
def ensure_user (ctx : BuildContext) (fs : FS) (name : String)
    (uid gid : Nat) (home shell : String) : Except String FS := do
  let passwd := ctx.staging ++ ["etc", "passwd"]
  let content ← readFileOrEmpty fs passwd
  if (rustLines content).any (fun l => strStarts l (name ++ ":")) then
    .ok fs
  else do
    let fs ← mkdirAll fs passwd.dropLast
    appendToFile fs passwd (userLine name uid gid home shell)

/-- `ensure_group`: the same upsert pattern against `etc/group`. -/
def ensure_group (ctx : BuildContext) (fs : FS) (name : String) (gid : Nat) :
    Except String FS := do
  let groupPath := ctx.staging ++ ["etc", "group"]
  let content ← readFileOrEmpty fs groupPath
  if (rustLines content).any (fun l => strStarts l (name ++ ":")) then
    .ok fs
  else do
    let fs ← mkdirAll fs groupPath.dropLast
    appendToFile fs groupPath (groupLine name gid)

/-- The `Op::Dirs` loop. -/
def mkdirList (ctx : BuildContext) : List String → FS → Except String FS
  | [], fs => .ok fs
  | p :: ps, fs => do
    let fs ← mkdirAll fs (joinPath ctx.staging p)
    mkdirList ctx ps fs

/-- `execute_op`: interpret one operation against the build context
(`src/component/executor.rs`). -/
def execute_op (ext : Externals) (ctx : BuildContext) (op : Op) (fs : FS) :
    Except String FS :=
  match op with
  | .Dir path => mkdirAll fs (joinPath ctx.staging path)
  | .DirMode path mode => do
    let full := joinPath ctx.staging path
    let fs ← mkdirAll fs full
    setPermissions fs full mode
  | .Dirs paths => mkdirList ctx paths fs
  | .WriteFile path content => do
    let full := joinPath ctx.staging path
    let fs ← mkdirAll fs full.dropLast
    fsWrite fs full content
  | .WriteFileMode path content mode => do
    let full := joinPath ctx.staging path
    let fs ← mkdirAll fs full.dropLast
    let fs ← fsWrite fs full content
    setPermissions fs full mode
  | .Symlink link target => do
    let linkPath := joinPath ctx.staging link
    let fs ← mkdirAll fs linkPath.dropLast
    let fs ← removeOccupant fs linkPath
    symlinkNew fs target linkPath
  | .CopyFile path =>
    let src := joinPath ctx.source path
    let dst := joinPath ctx.staging path
    if fs.pathExists src = false then
      .error ("file not found: " ++ showPath src)
    else do
      let fs ← mkdirAll fs dst.dropLast
      copyFileNode fs src dst
  | .CopyTree path =>
    copy_tree fs (joinPath ctx.source path) (joinPath ctx.staging path)
  | .Bin name => copy_binary ext ctx fs name "usr/bin"
  | .Sbin name => copy_binary ext ctx fs name "usr/sbin"
  | .Bins names =>
    let r := runBinsAux ext ctx names fs
    if r.2.isEmpty then .ok r.1
    else .error ("Missing binaries:\n  " ++ String.intercalate "\n  " r.2)
  | .Sbins names =>
    let r := runSbinsAux ext ctx names fs
    if r.2.isEmpty then .ok r.1
    else .error ("Missing sbin binaries: " ++ String.intercalate ", " r.2)
  | .OpenrcEnable service runlevel =>
    enable_openrc_service ctx fs service runlevel
  | .OpenrcScripts scripts => copyInitScripts ctx scripts fs
  | .OpenrcConf service content => do
    let confPath := joinPath (ctx.staging ++ ["etc", "conf.d"]) service
    let fs ← mkdirAll fs confPath.dropLast
    fsWrite fs confPath content
  | .User name uid gid home shell => ensure_user ctx fs name uid gid home shell
  | .Group name gid => ensure_group ctx fs name gid
  | .Custom c =>
    match ext.custom c (subtreeAt fs ctx.source) (subtreeAt fs ctx.staging) with
    | .ok t => .ok (graft fs ctx.staging t)
    | .error e => .error e

/-- An `execute` failure: the `with_context` wrapper carries the owning
component's name and the failing operation around the cause. -/
structure CtxError where
  component : String
  op : Op
  cause : String
deriving DecidableEq, Repr

/-- The driving loop of `execute`, with the error state threaded
explicitly: operations run one at a time in list order and the first
error stops the loop. -/
def execOps (ext : Externals) (ctx : BuildContext) (name : String) :
    List Op → FS → FS × Option CtxError
  | [], fs => (fs, none)
  | op :: rest, fs =>
    match execute_op ext ctx op fs with
    | .ok fs1 => execOps ext ctx name rest fs1
    | .error e => (fs, some ⟨name, op, e⟩)

/-- `execute`: run all operations of one component. -/
def execute (ext : Externals) (ctx : BuildContext) (comp : Component)
    (fs : FS) : FS × Option CtxError :=
  execOps ext ctx comp.name comp.ops fs

/-- The registry pass: components execute in registry order, first failure
aborts the pass. -/
def executeComponents (ext : Externals) (ctx : BuildContext) :
    List Component → FS → FS × Option CtxError
  | [], fs => (fs, none)
  | c :: cs, fs =>
    match execute ext ctx c fs with
    | (fs1, none) => executeComponents ext ctx cs fs1
    | r => r

/-! ## `build_system` (`src/component/builder.rs`) -/

/-- A `build_system` failure: either a component failure or a plain
I/O/collaborator failure. -/
inductive BuildError where
  | io (msg : String)
  | opFail (e : CtxError)
deriving DecidableEq, Repr

/-- `prepare_staging`: remove any existing staging directory, then create
a fresh one. -/
def prepare_staging (ctx : BuildContext) (fs : FS) : Except String FS := do
  let fs ← if fs.pathExists ctx.staging then removeDirAll fs ctx.staging
    else .ok fs
  mkdirAll fs ctx.staging

/-- `build_system`: prepare staging, execute the registry, then flush the
license tracker into staging.  The registry is a parameter so that every
theorem below holds for the static `ALL_COMPONENTS` table in particular. -/
def build_system (ext : Externals) (ctx : BuildContext)
    (components : List Component) (fs : FS) : FS × Option BuildError :=
  match prepare_staging ctx fs with
  | .error e => (fs, some (.io e))
  | .ok fs1 =>
    match executeComponents ext ctx components fs1 with
    | (fs2, some e) => (fs2, some (.opFail e))
    | (fs2, none) =>
      match ext.licenses (subtreeAt fs2 ctx.source) (subtreeAt fs2 ctx.staging) with
      | .error e => (fs2, some (.io e))
      | .ok (t, _count) => (graft fs2 ctx.staging t, none)

/-! ## Rebuild detection (`src/rebuild.rs`)

The `cache` module (`src/cache.rs`) is declared in `src/lib.rs` but its
source is not in the corpus; its four functions are modelled from the
spec (§4.2), each marked `Modelled from the spec:`.  The content digest
itself is an external parameter: the claims depend only on it being a
function of the input contents. -/

/-- `ROOTFS_NAME` (external `distro_spec::acorn` constant; its value is
visible in `cmd_status` in `src/main.rs`). -/
def rootfsName : String := "filesystem.erofs"

/-- `INITRAMFS_LIVE_OUTPUT` (external `distro_spec::acorn` constant; its
value is visible in `cmd_status` in `src/main.rs`). -/
def initramfsLiveOutput : String := "initramfs-live.cpio.gz"

/-- Modelled from the spec: `cache::hash_files` — "compute a combined
content digest (e.g., digest-of-digests in a fixed path order)" over a
hand-declared input list; `None` when some input cannot be read (§4.2). -/
def hash_files (digest : List String → String) (fs : FS)
    (paths : List Path) : Option String :=
  (paths.mapM (fun p =>
    match fs.get p with
    | some (.file c _) => some c
    | _ => none)).map digest

/-- Modelled from the spec: reading the sidecar digest recorded by the
last successful build; `None` when the sidecar is missing or unreadable. -/
def read_cached_hash (fs : FS) (p : Path) : Option String :=
  match fs.get p with
  | some (.file c _) => some c
  | _ => none

/-- Modelled from the spec: `cache::needs_rebuild` — "Artifact missing →
rebuild.  Sidecar missing or unreadable → rebuild (fail open toward
correctness).  Digest differs → rebuild.  Digest matches → skip" (§4.2). -/
def cacheNeedsRebuild (fs : FS) (currentHash : String)
    (hashFile artifact : Path) : Bool :=
  if fs.pathExists artifact = false then true
  else
    match read_cached_hash fs hashFile with
    | none => true
    | some recorded => if recorded = currentHash then false else true

/-- Modelled from the spec: `cache::write_cached_hash` — persist the
digest in the sidecar file next to the artifact it protects (§4.2, §3). -/
def write_cached_hash (fs : FS) (p : Path) (h : String) : Except String FS :=
  fsWrite fs p h

/-- The declared input list of the rootfs artifact
(`rootfs_needs_rebuild` / `cache_rootfs_hash` in `src/rebuild.rs`). -/
def rootfsInputs (base : Path) : List Path :=
  [base ++ ["downloads", "rootfs", "bin", "busybox"],
   base ++ ["src", "extract.rs"]]

/-- The sidecar path `output/.rootfs-inputs.hash`. -/
def rootfsHashFile (base : Path) : Path :=
  base ++ ["output", ".rootfs-inputs.hash"]

/-- `rootfs_needs_rebuild`: artifact missing → rebuild; inputs unreadable
→ rebuild; else defer to the sidecar comparison. -/
def rootfs_needs_rebuild (digest : List String → String) (base : Path)
    (fs : FS) : Bool :=
  let rootfs := base ++ ["output", rootfsName]
  let hashFile := rootfsHashFile base
  if fs.pathExists rootfs = false then true
  else
    match hash_files digest fs (rootfsInputs base) with
    | none => true
    | some h => cacheNeedsRebuild fs h hashFile rootfs

/-- The declared input list of the initramfs artifact. -/
def initramfsInputs (base : Path) : List Path :=
  [base ++ ["profile", "init_tiny.template"],
   base ++ ["downloads", "busybox-static"],
   base ++ ["src", "artifact", "initramfs.rs"]]

/-- The sidecar path `output/.initramfs-inputs.hash`. -/
def initramfsHashFile (base : Path) : Path :=
  base ++ ["output", ".initramfs-inputs.hash"]

/-- `initramfs_needs_rebuild`: same shape as `rootfs_needs_rebuild` over
the initramfs input list. -/
def initramfs_needs_rebuild (digest : List String → String) (base : Path)
    (fs : FS) : Bool :=
  let initramfs := base ++ ["output", initramfsLiveOutput]
  let hashFile := initramfsHashFile base
  if fs.pathExists initramfs = false then true
  else
    match hash_files digest fs (initramfsInputs base) with
    | none => true
    | some h => cacheNeedsRebuild fs h hashFile initramfs

/-- `cache_rootfs_hash`: recompute the input digest and record it in the
sidecar; all errors are swallowed (`let _ = ...`). -/
def cache_rootfs_hash (digest : List String → String) (base : Path)
    (fs : FS) : FS :=
  match hash_files digest fs (rootfsInputs base) with
  | some h =>
    match write_cached_hash fs (rootfsHashFile base) h with
    | .ok fs1 => fs1
    | .error _ => fs
  | none => fs

/-- `cache_initramfs_hash`: the initramfs analogue. -/
def cache_initramfs_hash (digest : List String → String) (base : Path)
    (fs : FS) : FS :=
  match hash_files digest fs (initramfsInputs base) with
  | some h =>
    match write_cached_hash fs (initramfsHashFile base) h with
    | .ok fs1 => fs1
    | .error _ => fs
  | none => fs

/-- Step 2 of `cmd_build` (`src/main.rs`): rebuild the rootfs only when
`rootfs_needs_rebuild` says so, and record the sidecar digest only after
`build_rootfs` has returned success (`build_rootfs(&base_dir)?` aborts the
run before `cache_rootfs_hash` on error).  The artifact-store mirroring
that follows is omitted: it reads the sidecar but never writes it. -/
def cmdBuildRootfsStep (digest : List String → String) (base : Path)
    (build : FS → FS × Option String) (fs : FS) : FS × Option String :=
  if rootfs_needs_rebuild digest base fs then
    match build fs with
    | (fs1, some e) => (fs1, some e)
    | (fs1, none) => (cache_rootfs_hash digest base fs1, none)
  else (fs, none)

/-- Step 3 of `cmd_build`: the initramfs analogue of
`cmdBuildRootfsStep`. -/
def cmdBuildInitramfsStep (digest : List String → String) (base : Path)
    (build : FS → FS × Option String) (fs : FS) : FS × Option String :=
  if initramfs_needs_rebuild digest base fs then
    match build fs with
    | (fs1, some e) => (fs1, some e)
    | (fs1, none) => (cache_initramfs_hash digest base fs1, none)
  else (fs, none)

/-! ### The modification-time rule (`iso_needs_rebuild`)

`iso_needs_rebuild` only consults existence and modification times, so it
is modelled over a map from paths to modification times. -/

/-- A filesystem projected to modification times. -/
abbrev MtimeFS := List (Path × Nat)

/-- Look up a modification time. -/
def mtimeOf : MtimeFS → Path → Option Nat
  | [], _ => none
  | e :: m, p => if e.1 = p then some e.2 else mtimeOf m p

/-- Existence in the modification-time projection. -/
def mtExists (m : MtimeFS) (p : Path) : Bool := (mtimeOf m p).isSome

/-- Modelled from the spec: `cache::is_newer` — "compare each upstream
artifact's modification time against the downstream artifact's" (§4.2);
`is_newer a b` holds when `a` was modified strictly later than `b`.  Every
call site has already established that both files exist. -/
def is_newer (m : MtimeFS) (a b : Path) : Bool :=
  match mtimeOf m a, mtimeOf m b with
  | some ta, some tb => tb < ta
  | _, _ => false

/-- `iso_needs_rebuild` (`src/rebuild.rs`): the ISO must be rebuilt when
it is missing, or when any of its three upstream artifacts is missing or
newer than it.  `isoName` stands for the external `ISO_FILENAME`
constant. -/
def iso_needs_rebuild (isoName : String) (base : Path) (m : MtimeFS) : Bool :=
  let iso := base ++ ["output", isoName]
  let rootfs := base ++ ["output", rootfsName]
  let initramfs := base ++ ["output", initramfsLiveOutput]
  let kernel := base ++ ["output", "staging", "boot", "vmlinuz"]
  if mtExists m iso = false then true
  else
    !(mtExists m rootfs) || !(mtExists m initramfs) || !(mtExists m kernel) ||
      is_newer m rootfs iso || is_newer m initramfs iso ||
      is_newer m kernel iso

/-! ## The atomic rootfs builder (`src/artifact/rootfs.rs`) -/

/-- `is_dir()`. -/
def FS.isDirAt (fs : FS) (p : Path) : Bool :=
  match fs.get p with
  | some (.dir _) => true
  | _ => false

/-- `read_dir(p)` yields at least one entry: some entry lies strictly
below `p`. -/
def hasChild (fs : FS) (p : Path) : Bool :=
  fs.any (fun e => pathLe p e.1 && e.1 ≠ p)

/-- The required-entry lists of `verify_staging`, standing for the
external `distro_spec::acorn::verification` constants. -/
structure VerifySpec where
  requiredBinaries : List String
  requiredDirs : List String
  requiredConfigs : List String
  requiredServiceDir : String
  kernelModulesDir : String

/-- `verify_staging`: collect every missing required entry — binaries and
configs must exist, FHS directories may be directories or symlinks, the
service directory and the kernel-modules directory must be non-empty
directories — and fail when anything is missing. -/
def verify_staging (vs : VerifySpec) (staging : Path) (fs : FS) :
    Except String Unit :=
  let missingBins := vs.requiredBinaries.filter
    (fun b => fs.pathExists (joinPath staging b) = false)
  let missingDirs := vs.requiredDirs.filter (fun d =>
    !(fs.pathExists (joinPath staging d) || fs.isSymlinkAt (joinPath staging d)))
  let missingConfigs := vs.requiredConfigs.filter
    (fun c => fs.pathExists (joinPath staging c) = false)
  let initD := joinPath staging vs.requiredServiceDir
  let initDOk := fs.isDirAt initD && hasChild fs initD
  let modulesP := joinPath staging vs.kernelModulesDir
  let modulesOk := fs.isDirAt modulesP && hasChild fs modulesP
  let missing := missingBins ++ missingDirs ++ missingConfigs ++
    (if initDOk then [] else [vs.requiredServiceDir]) ++
    (if modulesOk then [] else [vs.kernelModulesDir])
  if missing.isEmpty then .ok ()
  else .error ("Rootfs verification FAILED: " ++ toString missing.length ++
    " missing files.\nThe staging directory is incomplete and would produce a broken rootfs.")

/-- The four work/final paths of `build_rootfs`, rooted at
`central_output_dir_for_distro(base_dir)`, which resolves to
`base_dir/output` (the directory `src/rebuild.rs` addresses directly). -/
def workStagingPath (base : Path) : Path := base ++ ["output", "rootfs-staging.work"]

/-- `filesystem.erofs.work`. -/
def workOutputPath (base : Path) : Path := base ++ ["output", "filesystem.erofs.work"]

/-- `rootfs-staging`. -/
def finalStagingPath (base : Path) : Path := base ++ ["output", "rootfs-staging"]

/-- `filesystem.erofs`. -/
def finalOutputPath (base : Path) : Path := base ++ ["output", rootfsName]

/-- `build_rootfs` (`src/artifact/rootfs.rs`): check host tools and the
extracted source rootfs, clean the work paths, run the fallible closure —
`BuildContext::new` + `build_system` into the work staging directory
(`buildSys`), then `verify_staging`, then the external EROFS producer
writing the work output file (`createErofs`) — and promote work to final
by rename only if every step succeeded; on closure failure delete the
work paths and propagate the error. -/
def build_rootfs (mkfsErofs : Bool) (vspec : VerifySpec)
    (buildSys : FS → FS × Option String)
    (createErofs : FS → FS × Option String)
    (base : Path) (fs0 : FS) : FS × Option String :=
  if mkfsErofs = false then
    (fs0, some "mkfs.erofs not found. Install erofs-utils.")
  else
    let rootfsP := base ++ ["downloads", "rootfs"]
    if !(fs0.pathExists rootfsP && fs0.pathExists (rootfsP ++ ["bin"])) then
      (fs0, some ("Rootfs not found at " ++ showPath rootfsP ++
        ".\nRun 'acornos extract' first."))
    else
      let ws := workStagingPath base
      let wo := workOutputPath base
      let fsA := removeDirAllQuiet fs0 ws
      let fsB := removeFileQuiet fsA wo
      match mkdirAll fsB ws with
      | .error e => (fsB, some e)
      | .ok fs1 =>
        -- the fallible closure, with its `?` failures collected
        let closure : FS × Option String :=
          match buildSys fs1 with
          | (fs2, some e) => (fs2, some e)
          | (fs2, none) =>
            match verify_staging vspec ws fs2 with
            | .error e => (fs2, some e)
            | .ok () => createErofs fs2
        match closure with
        | (fs2, some e) =>
          (removeFileQuiet (removeDirAllQuiet fs2 ws) wo, some e)
        | (fs2, none) =>
          let fs3 := removeDirAllQuiet fs2 (finalStagingPath base)
          let fs4 := removeFileQuiet fs3 (finalOutputPath base)
          match renameEntry fs4 ws (finalStagingPath base) with
          | .error e =>
            (fs4, some ("Failed to move rootfs-staging.work to rootfs-staging: " ++ e))
          | .ok fs5 =>
            match renameEntry fs5 wo (finalOutputPath base) with
            | .error e =>
              (fs5, some ("Failed to move filesystem.erofs.work to filesystem.erofs: " ++ e))
            | .ok fs6 => (fs6, none)

/-! ## Auxiliary predicates used by theorem statements -/

/-- A slot a directory may be created in: empty, or already a directory. -/
def dirSlot : Option Node → Bool
  | none => true
  | some (.dir _) => true
  | _ => false

/-- The nonempty initial segments of a path. -/
def prefixesOf (p : Path) : List Path :=
  (List.range p.length).map (fun i => p.take (i + 1))

/-- `create_dir_all p` can succeed: every nonempty initial segment of `p`
is empty or already a directory. -/
def dirsOk (fs : FS) (p : Path) : Bool :=
  (prefixesOf p).all (fun q => dirSlot (fs.get q))

/-- The source-subtree entries of a filesystem, in list order: the part of
the state a build run reads but never modifies. -/
def srcEntries (src : Path) (fs : FS) : FS :=
  fs.filter (fun e => pathLe src e.1)

/-- The two-run simulation invariant of the determinism analysis: both
states carry identical source-subtree entry lists, and extensionally equal
staging subtrees under their respective staging roots. -/
def StInv (src S1 S2 : Path) (fsA fsB : FS) : Prop :=
  srcEntries src fsA = srcEntries src fsB ∧
  ∀ q, fsA.get (S1 ++ q) = fsB.get (S2 ++ q)

/-- Every strict nonempty ancestor of `S` is a directory. -/
def ancOk (fs : FS) (S : Path) : Prop :=
  ∀ n, 0 < n → n < S.length → FS.isDirAt fs (S.take n) = true

/-- The separation hypotheses of the determinism analysis: the source tree
and each staging root are incomparable (neither contains the other). -/
structure Sep (src S1 S2 : Path) : Prop where
  a1 : pathLe src S1 = false
  b1 : pathLe S1 src = false
  a2 : pathLe src S2 = false
  b2 : pathLe S2 src = false

/-- Lockstep outcomes of one fallible step of the two runs: both fail with
the same message, or both succeed with the invariant re-established. -/
def ExLock (src S1 S2 : Path) : Except String FS → Except String FS → Prop
  | .ok a, .ok b => StInv src S1 S2 a b ∧ ancOk a S1 ∧ ancOk b S2
  | .error e1, .error e2 => e1 = e2
  | _, _ => False

/-- Lockstep outcomes of a component-level step of the two runs. -/
def PairLock (src S1 S2 : Path) :
    FS × Option CtxError → FS × Option CtxError → Prop
  | (a, none), (b, none) => StInv src S1 S2 a b ∧ ancOk a S1 ∧ ancOk b S2
  | (_, some e1), (_, some e2) => e1 = e2
  | _, _ => False

/-! # Theorems -/

/-! ## Characterization of `create_dir_all` -/

theorem pathLe_take (p : Path) (k : Nat) : pathLe (p.take k) p = true := by
  induction p generalizing k with
  | nil => simp [pathLe]
  | cons a as ih =>
    cases k with
    | zero => simp [pathLe]
    | succ k => simpa [pathLe] using ih k

theorem take_of_pathLe {r p : Path} (h : pathLe r p = true) :
    r = p.take r.length := by
  induction r generalizing p with
  | nil => rfl
  | cons a as ih =>
    cases p with
    | nil => simp [pathLe] at h
    | cons b bs =>
      by_cases hab : a = b
      · subst hab
        simp [pathLe] at h
        simpa using ih h
      · simp [pathLe, hab] at h

theorem length_le_of_pathLe {r p : Path} (h : pathLe r p = true) :
    r.length ≤ p.length := by
  obtain ⟨s, rfl⟩ := eq_append_of_pathLe h
  simp

theorem dirsOk_iff (fs : FS) (p : Path) :
    dirsOk fs p = true ↔
      ∀ r, r ≠ [] → pathLe r p = true → dirSlot (fs.get r) = true := by
  unfold dirsOk prefixesOf
  rw [List.all_eq_true]
  constructor
  · intro h r hne hle
    have hr := take_of_pathLe hle
    have hlen := length_le_of_pathLe hle
    cases hL : r.length with
    | zero => exact absurd (List.length_eq_zero.mp hL) hne
    | succ i =>
      apply h
      refine List.mem_map.mpr ⟨i, ?_, ?_⟩
      · rw [List.mem_range]; omega
      · rw [← hL, ← hr]
  · intro h q hq
    obtain ⟨i, hi, rfl⟩ := List.mem_map.mp hq
    rw [List.mem_range] at hi
    apply h
    · have : (p.take (i + 1)).length = i + 1 := by
        rw [List.length_take]; omega
      intro hnil
      rw [hnil] at this
      simp at this
    · exact pathLe_take p (i + 1)

theorem mkdirAllFrom_get {done : Path} {fs : FS} {rest : Path} {fs1 : FS}
    (h : mkdirAllFrom done fs rest = .ok fs1) (q : Path) :
    fs1.get q = fs.get q ∨
      (fs.get q = none ∧ fs1.get q = some (.dir defaultDirMode) ∧
        ∃ r, r ≠ [] ∧ pathLe r rest = true ∧ q = done ++ r) := by
  induction rest generalizing done fs with
  | nil =>
    simp [mkdirAllFrom] at h
    subst h
    exact Or.inl rfl
  | cons c rest ih =>
    rw [mkdirAllFrom] at h
    cases hg : fs.get (done ++ [c]) with
    | none =>
      rw [hg] at h
      rcases ih h with h1 | ⟨h1, h2, r, hr1, hr2, hr3⟩
      · rw [FS.get_set] at h1
        by_cases hq : q = done ++ [c]
        · subst hq
          simp at h1
          exact Or.inr ⟨hg, h1, [c], by simp, by simp [pathLe, pathLe_refl], rfl⟩
        · rw [if_neg hq] at h1
          exact Or.inl h1
      · rw [FS.get_set] at h1
        by_cases hq : q = done ++ [c]
        · simp [hq] at h1
        · rw [if_neg hq] at h1
          refine Or.inr ⟨h1, h2, c :: r, by simp, ?_, by simp [hr3]⟩
          simp [pathLe, hr2]
    | some n =>
      cases n with
      | dir m =>
        rw [hg] at h
        rcases ih h with h1 | ⟨h1, h2, r, hr1, hr2, hr3⟩
        · exact Or.inl h1
        · refine Or.inr ⟨h1, h2, c :: r, by simp, ?_, by simp [hr3]⟩
          simp [pathLe, hr2]
      | file cc m => rw [hg] at h; exact absurd h (by simp)
      | symlink t => rw [hg] at h; exact absurd h (by simp)

theorem mkdirAll_get {fs : FS} {p : Path} {fs1 : FS}
    (h : mkdirAll fs p = .ok fs1) (q : Path) :
    fs1.get q = fs.get q ∨
      (fs.get q = none ∧ fs1.get q = some (.dir defaultDirMode) ∧
        q ≠ [] ∧ pathLe q p = true) := by
  rcases mkdirAllFrom_get h q with h1 | ⟨h1, h2, r, hr1, hr2, hr3⟩
  · exact Or.inl h1
  · simp at hr3
    subst hr3
    exact Or.inr ⟨h1, h2, hr1, hr2⟩

theorem mkdirAll_get_of_some {fs : FS} {p : Path} {fs1 : FS} {q : Path}
    {n : Node} (h : mkdirAll fs p = .ok fs1) (hq : fs.get q = some n) :
    fs1.get q = some n := by
  rcases mkdirAll_get h q with h1 | ⟨h1, _, _, _⟩
  · rw [h1, hq]
  · rw [hq] at h1; exact absurd h1 (by simp)

theorem mkdirAll_get_of_not_le {fs : FS} {p : Path} {fs1 : FS} {q : Path}
    (h : mkdirAll fs p = .ok fs1) (hq : pathLe q p = false) :
    fs1.get q = fs.get q := by
  rcases mkdirAll_get h q with h1 | ⟨_, _, _, h4⟩
  · exact h1
  · rw [hq] at h4; exact absurd h4 (by simp)

theorem mkdirAllFrom_ok {done : Path} {fs : FS} {rest : Path}
    (h : ∀ r, r ≠ [] → pathLe r rest = true →
      dirSlot (fs.get (done ++ r)) = true) :
    ∃ fs1, mkdirAllFrom done fs rest = .ok fs1 := by
  induction rest generalizing done fs with
  | nil => exact ⟨fs, rfl⟩
  | cons c rest ih =>
    have hc : dirSlot (fs.get (done ++ [c])) = true := by
      apply h [c] (by simp)
      simp [pathLe, pathLe_refl]
    rw [mkdirAllFrom]
    cases hg : fs.get (done ++ [c]) with
    | none =>
      apply ih
      intro r hr hle
      rw [FS.get_set]
      have hne : ¬ (done ++ [c]) ++ r = done ++ [c] := by
        cases r with
        | nil => exact absurd rfl hr
        | cons x xs =>
          intro hh
          have := congrArg List.length hh
          simp at this
      rw [if_neg hne]
      have : (done ++ [c]) ++ r = done ++ (c :: r) := by simp
      rw [this]
      apply h (c :: r) (by simp)
      simp [pathLe, hle]
    | some n =>
      cases n with
      | dir m =>
        apply ih
        intro r hr hle
        have : (done ++ [c]) ++ r = done ++ (c :: r) := by simp
        rw [this]
        apply h (c :: r) (by simp)
        simp [pathLe, hle]
      | file cc m => rw [hg] at hc; simp [dirSlot] at hc
      | symlink t => rw [hg] at hc; simp [dirSlot] at hc

theorem mkdirAll_ok {fs : FS} {p : Path} (h : dirsOk fs p = true) :
    ∃ fs1, mkdirAll fs p = .ok fs1 := by
  apply mkdirAllFrom_ok
  intro r hr hle
  simpa using (dirsOk_iff fs p).mp h r hr hle

theorem mkdirAllFrom_get_last {done : Path} {fs : FS} {rest : Path}
    {fs1 : FS} (h : mkdirAllFrom done fs rest = .ok fs1) (hne : rest ≠ []) :
    ∃ m, fs1.get (done ++ rest) = some (.dir m) := by
  induction rest generalizing done fs with
  | nil => exact absurd rfl hne
  | cons c rest ih =>
    rw [mkdirAllFrom] at h
    by_cases hne2 : rest = []
    · subst hne2
      cases hg : fs.get (done ++ [c]) with
      | none =>
        rw [hg] at h
        simp [mkdirAllFrom] at h
        subst h
        exact ⟨defaultDirMode, by rw [FS.get_set]; simp⟩
      | some n =>
        cases n with
        | dir m =>
          rw [hg] at h
          simp [mkdirAllFrom] at h
          subst h
          exact ⟨m, hg⟩
        | file cc m => rw [hg] at h; exact absurd h (by simp)
        | symlink t => rw [hg] at h; exact absurd h (by simp)
    · cases hg : fs.get (done ++ [c]) with
      | none =>
        rw [hg] at h
        simpa using ih h hne2
      | some n =>
        cases n with
        | dir m =>
          rw [hg] at h
          simpa using ih h hne2
        | file cc m => rw [hg] at h; exact absurd h (by simp)
        | symlink t => rw [hg] at h; exact absurd h (by simp)

theorem mkdirAll_get_last {fs : FS} {p : Path} {fs1 : FS}
    (h : mkdirAll fs p = .ok fs1) (hne : p ≠ []) :
    ∃ m, fs1.get p = some (.dir m) := by
  have := mkdirAllFrom_get_last h hne
  simpa using this

theorem not_pathLe_of_append_ne_nil {p r : Path} (hr : r ≠ []) :
    pathLe (p ++ r) p = false := by
  cases r with
  | nil => exact absurd rfl hr
  | cons c cs => exact not_pathLe_long p c cs

/-! ## C10 — `Op::OpenrcEnable` never overwrites -/

/-- C10: `enable_openrc_service` never overwrites.  Provided the run-level
directory can be created (`dirsOk`) and the service name is nonempty: for
*every* occupant of the link path `etc/runlevels/<runlevel>/<service>` —
file, directory, or symlink with any target — the operation returns
success and leaves the occupant byte-for-byte unchanged; and a new symlink
to `/etc/init.d/<service>` is created exactly when nothing occupies the
link path. -/
theorem C10_openrc_enable_never_overwrites (ctx : BuildContext) (fs : FS)
    (service runlevel : String)
    (hdirs : dirsOk fs (joinPath (ctx.staging ++ ["etc", "runlevels"]) runlevel) = true)
    (hsvc : splitPath service ≠ []) :
    (∀ n, fs.get (joinPath (joinPath (ctx.staging ++ ["etc", "runlevels"]) runlevel) service) = some n →
      ∃ fs1, enable_openrc_service ctx fs service runlevel = .ok fs1 ∧
        fs1.get (joinPath (joinPath (ctx.staging ++ ["etc", "runlevels"]) runlevel) service) = some n) ∧
    (fs.get (joinPath (joinPath (ctx.staging ++ ["etc", "runlevels"]) runlevel) service) = none →
      ∃ fs1, enable_openrc_service ctx fs service runlevel = .ok fs1 ∧
        fs1.get (joinPath (joinPath (ctx.staging ++ ["etc", "runlevels"]) runlevel) service) =
          some (.symlink ("/etc/init.d/" ++ service))) := by
  obtain ⟨fsm, hm⟩ := mkdirAll_ok hdirs
  have hlink : pathLe
      (joinPath (joinPath (ctx.staging ++ ["etc", "runlevels"]) runlevel) service)
      (joinPath (ctx.staging ++ ["etc", "runlevels"]) runlevel) = false := by
    exact not_pathLe_of_append_ne_nil hsvc
  have hpres := mkdirAll_get_of_not_le hm hlink
  constructor
  · intro n hn
    refine ⟨fsm, ?_, ?_⟩
    · have hex : fsm.pathExists
          (joinPath (joinPath (ctx.staging ++ ["etc", "runlevels"]) runlevel) service) = true := by
        unfold FS.pathExists
        rw [hpres, hn]
        rfl
      simp only [enable_openrc_service, bind, Except.bind, hm, hex]
      simp
    · rw [hpres, hn]
  · intro hn
    refine ⟨fsm.set (joinPath (joinPath (ctx.staging ++ ["etc", "runlevels"]) runlevel) service)
      (.symlink ("/etc/init.d/" ++ service)), ?_, ?_⟩
    · have h1 : fsm.pathExists
          (joinPath (joinPath (ctx.staging ++ ["etc", "runlevels"]) runlevel) service) = false := by
        unfold FS.pathExists
        rw [hpres, hn]
        rfl
      have h2 : fsm.isSymlinkAt
          (joinPath (joinPath (ctx.staging ++ ["etc", "runlevels"]) runlevel) service) = false := by
        unfold FS.isSymlinkAt
        rw [hpres, hn]
      simp only [enable_openrc_service, bind, Except.bind, hm, h1, h2]
      have h3 : fsm.get
          (joinPath (joinPath (ctx.staging ++ ["etc", "runlevels"]) runlevel) service) = none := by
        rw [hpres, hn]
      simp [symlinkNew, h3]
    · rw [FS.get_set]
      simp

/-! ## C7 — `Op::Symlink` always overwrites -/

theorem not_pathLe_dropLast {p : Path} (h : p ≠ []) :
    pathLe p p.dropLast = false := by
  obtain ⟨q, a, rfl⟩ : ∃ q a, p = q ++ [a] :=
    ⟨p.dropLast, p.getLast h, (List.dropLast_append_getLast h).symm⟩
  have : (q ++ [a]).dropLast = q := by simp
  rw [this]
  exact not_pathLe_of_append_ne_nil (by simp)

/-- What one `Op::Symlink` does when the link path is not occupied by a
directory: it succeeds and the link path afterwards holds a symlink with
the requested target; moreover the parent is still creatable and the link
path still holds no directory (so the step can be iterated). -/
theorem symlink_exec_ok (ext : Externals) (ctx : BuildContext)
    (link target : String) (fs : FS)
    (hdirs : dirsOk fs (joinPath ctx.staging link).dropLast = true)
    (hne : joinPath ctx.staging link ≠ [])
    (hocc : fs.isDirAt (joinPath ctx.staging link) = false) :
    ∃ fs1, execute_op ext ctx (.Symlink link target) fs = .ok fs1 ∧
      fs1.get (joinPath ctx.staging link) = some (.symlink target) ∧
      dirsOk fs1 (joinPath ctx.staging link).dropLast = true ∧
      fs1.isDirAt (joinPath ctx.staging link) = false := by
  obtain ⟨fsm, hm⟩ := mkdirAll_ok hdirs
  have hLp : pathLe (joinPath ctx.staging link)
      (joinPath ctx.staging link).dropLast = false := not_pathLe_dropLast hne
  have hpres := mkdirAll_get_of_not_le hm hLp
  -- removeOccupant succeeds and leaves the link path empty
  have hro : ∃ fsr, removeOccupant fsm (joinPath ctx.staging link) = .ok fsr ∧
      fsr.get (joinPath ctx.staging link) = none ∧
      (∀ q, q ≠ joinPath ctx.staging link → fsr.get q = fsm.get q) := by
    cases hg : fs.get (joinPath ctx.staging link) with
    | none =>
      refine ⟨fsm, ?_, by rw [hpres, hg], fun q _ => rfl⟩
      unfold removeOccupant
      rw [hpres, hg]
    | some n =>
      cases n with
      | file c m =>
        refine ⟨fsm.eraseKey (joinPath ctx.staging link), ?_, ?_, ?_⟩
        · unfold removeOccupant; rw [hpres, hg]
        · rw [FS.get_eraseKey]; simp
        · intro q hq; rw [FS.get_eraseKey, if_neg hq]
      | symlink t =>
        refine ⟨fsm.eraseKey (joinPath ctx.staging link), ?_, ?_, ?_⟩
        · unfold removeOccupant; rw [hpres, hg]
        · rw [FS.get_eraseKey]; simp
        · intro q hq; rw [FS.get_eraseKey, if_neg hq]
      | dir m =>
        unfold FS.isDirAt at hocc
        rw [hg] at hocc
        simp at hocc
  obtain ⟨fsr, hro, hrget, hrother⟩ := hro
  refine ⟨fsr.set (joinPath ctx.staging link) (.symlink target), ?_, ?_, ?_, ?_⟩
  · simp only [execute_op, bind, Except.bind, hm, hro]
    unfold symlinkNew
    rw [hrget]
  · rw [FS.get_set]; simp
  · rw [dirsOk_iff]
    intro r hr hle
    have hrneq : r ≠ joinPath ctx.staging link := by
      intro hEq
      have h1 := length_le_of_pathLe hle
      rw [hEq] at h1
      have h2 : (joinPath ctx.staging link).dropLast.length =
          (joinPath ctx.staging link).length - 1 := by simp
      rw [h2] at h1
      have h3 : (joinPath ctx.staging link).length ≠ 0 := by
        intro hz
        exact hne (List.length_eq_zero.mp hz)
      omega
    rw [FS.get_set, if_neg hrneq, hrother r hrneq]
    rcases mkdirAll_get hm r with h1 | ⟨_, h2, _, _⟩
    · rw [h1]
      exact (dirsOk_iff fs _).mp hdirs r hr hle
    · rw [h2]; rfl
  · unfold FS.isDirAt
    rw [FS.get_set]
    simp

/-- C7: symlink creation always overwrites.  When the link path is
occupied by a regular file or by a symlink (with any target), `Op::Symlink`
removes the occupant and installs a symlink with the requested target; and
when two components whose phases satisfy `A < B` both create a symlink at
the same path with different targets, a full sequential pass succeeds and
the link afterwards resolves to the later component's target. -/
theorem C7_symlink_overwrites (ext : Externals) (ctx : BuildContext)
    (link : String) (fs : FS)
    (hdirs : dirsOk fs (joinPath ctx.staging link).dropLast = true)
    (hne : joinPath ctx.staging link ≠ []) :
    (∀ target c m, fs.get (joinPath ctx.staging link) = some (.file c m) →
      ∃ fs1, execute_op ext ctx (.Symlink link target) fs = .ok fs1 ∧
        fs1.get (joinPath ctx.staging link) = some (.symlink target)) ∧
    (∀ target t0, fs.get (joinPath ctx.staging link) = some (.symlink t0) →
      ∃ fs1, execute_op ext ctx (.Symlink link target) fs = .ok fs1 ∧
        fs1.get (joinPath ctx.staging link) = some (.symlink target)) ∧
    (∀ nameA nameB phA phB tA tB, Phase.before phA phB = true → tA ≠ tB →
      fs.isDirAt (joinPath ctx.staging link) = false →
      ∃ fs2, executeComponents ext ctx
          [⟨nameA, phA, [.Symlink link tA]⟩, ⟨nameB, phB, [.Symlink link tB]⟩]
          fs = (fs2, none) ∧
        fs2.get (joinPath ctx.staging link) = some (.symlink tB)) := by
  refine ⟨?_, ?_, ?_⟩
  · intro target c m hg
    have hocc : fs.isDirAt (joinPath ctx.staging link) = false := by
      unfold FS.isDirAt; rw [hg]
    obtain ⟨fs1, h1, h2, _, _⟩ := symlink_exec_ok ext ctx link target fs hdirs hne hocc
    exact ⟨fs1, h1, h2⟩
  · intro target t0 hg
    have hocc : fs.isDirAt (joinPath ctx.staging link) = false := by
      unfold FS.isDirAt; rw [hg]
    obtain ⟨fs1, h1, h2, _, _⟩ := symlink_exec_ok ext ctx link target fs hdirs hne hocc
    exact ⟨fs1, h1, h2⟩
  · intro nameA nameB phA phB tA tB _ _ hocc
    obtain ⟨fs1, h1, h2, h3, h4⟩ := symlink_exec_ok ext ctx link tA fs hdirs hne hocc
    obtain ⟨fs2, g1, g2, g3, g4⟩ := symlink_exec_ok ext ctx link tB fs1 h3 hne h4
    refine ⟨fs2, ?_, g2⟩
    simp [executeComponents, execute, execOps, h1, g1]

/-- C7 witness: a staging tree whose `sbin/init` is an ordinary file; two
components in phases Binaries < Init each symlink it, and after the pass
the link carries the later component's target. -/
theorem C7_witness :
    (dirsOk [((["stg", "sbin", "init"] : Path), Node.file "old" 420)]
        (joinPath (["stg"] : Path) "sbin/init").dropLast = true) ∧
    (joinPath (["stg"] : Path) "sbin/init" ≠ []) ∧
    (∃ fs2, executeComponents
        ⟨fun _ => .spawnFail, fun _ _ _ => .error "none", fun _ _ => .error "none"⟩
        ⟨["src"], ["stg"], ["base"], ["out"]⟩
        [⟨"busybox", .Binaries, [.Symlink "sbin/init" "/bin/busybox"]⟩,
         ⟨"openrc", .Init, [.Symlink "sbin/init" "/usr/bin/openrc-init"]⟩]
        [((["stg", "sbin", "init"] : Path), Node.file "old" 420)] = (fs2, none) ∧
      fs2.get (joinPath (["stg"] : Path) "sbin/init") =
        some (.symlink "/usr/bin/openrc-init")) := by
  refine ⟨by decide, by decide, ?_⟩
  exact (C7_symlink_overwrites
    ⟨fun _ => .spawnFail, fun _ _ _ => .error "none", fun _ _ => .error "none"⟩
    ⟨["src"], ["stg"], ["base"], ["out"]⟩ "sbin/init"
    [((["stg", "sbin", "init"] : Path), Node.file "old" 420)]
    (by decide) (by decide)).2.2 "busybox" "openrc" .Binaries .Init
    "/bin/busybox" "/usr/bin/openrc-init" (by decide) (by decide) (by decide)

/-! ## C2 — the sidecar digest is written only after a successful build -/

/-- C2: in `cmd_build`, the sidecar input-hash file is written only after
the artifact build function has returned success.  (1) When the rootfs
build function fails, the step returns that failure unchanged —
`cache_rootfs_hash` is never applied — so if the build function left the
sidecar alone, the step leaves the sidecar exactly as it was before the
run.  (2) The sidecar is (re)computed and written exactly in the success
case, from the post-build state.  (3) The crash direction is safe: with
the sidecar missing or unreadable, `rootfs_needs_rebuild` decides
rebuild, whatever else the filesystem contains.  (4, 5) The initramfs
step behaves identically. -/
theorem C2_sidecar_after_success (digest : List String → String)
    (base : Path) (build : FS → FS × Option String) (fs : FS) :
    (∀ fs1 e, build fs = (fs1, some e) →
      rootfs_needs_rebuild digest base fs = true →
      cmdBuildRootfsStep digest base build fs = (fs1, some e) ∧
        (fs1.get (rootfsHashFile base) = fs.get (rootfsHashFile base) →
          (cmdBuildRootfsStep digest base build fs).1.get (rootfsHashFile base) =
            fs.get (rootfsHashFile base))) ∧
    (∀ fs1, build fs = (fs1, none) →
      rootfs_needs_rebuild digest base fs = true →
      cmdBuildRootfsStep digest base build fs =
        (cache_rootfs_hash digest base fs1, none)) ∧
    (read_cached_hash fs (rootfsHashFile base) = none →
      rootfs_needs_rebuild digest base fs = true) ∧
    (∀ fs1 e, build fs = (fs1, some e) →
      initramfs_needs_rebuild digest base fs = true →
      cmdBuildInitramfsStep digest base build fs = (fs1, some e)) ∧
    (∀ fs1, build fs = (fs1, none) →
      initramfs_needs_rebuild digest base fs = true →
      cmdBuildInitramfsStep digest base build fs =
        (cache_initramfs_hash digest base fs1, none)) := by
  refine ⟨?_, ?_, ?_, ?_, ?_⟩
  · intro fs1 e hb hneeds
    have hstep : cmdBuildRootfsStep digest base build fs = (fs1, some e) := by
      unfold cmdBuildRootfsStep
      rw [hneeds, if_pos rfl, hb]
    exact ⟨hstep, fun hside => by rw [hstep]; exact hside⟩
  · intro fs1 hb hneeds
    unfold cmdBuildRootfsStep
    rw [hneeds, if_pos rfl, hb]
  · intro hr
    unfold rootfs_needs_rebuild
    cases hex : fs.pathExists (base ++ ["output", rootfsName]) with
    | false => simp [hex]
    | true =>
      simp only [hex]
      cases hh : hash_files digest fs (rootfsInputs base) with
      | none => simp
      | some h =>
        unfold cacheNeedsRebuild
        rw [hr, hex]
        simp
  · intro fs1 e hb hneeds
    unfold cmdBuildInitramfsStep
    rw [hneeds, if_pos rfl, hb]
  · intro fs1 hb hneeds
    unfold cmdBuildInitramfsStep
    rw [hneeds, if_pos rfl, hb]

/-- C2 witness: with no artifacts on disk the rebuild decision fires, a
failing build function propagates its error, and the sidecar (absent
before) is still absent after the step. -/
theorem C2_witness :
    ((fun fsx => (fsx, some "mkfs.erofs failed")) ([] : FS) =
      (([] : FS), some "mkfs.erofs failed")) ∧
    (rootfs_needs_rebuild (fun _ => "digest") ["base"] ([] : FS) = true) ∧
    (cmdBuildRootfsStep (fun _ => "digest") ["base"]
        (fun fsx => (fsx, some "mkfs.erofs failed")) ([] : FS) =
      (([] : FS), some "mkfs.erofs failed") ∧
      (FS.get ([] : FS) (rootfsHashFile ["base"]) = FS.get ([] : FS) (rootfsHashFile ["base"]) →
        FS.get (cmdBuildRootfsStep (fun _ => "digest") ["base"]
            (fun fsx => (fsx, some "mkfs.erofs failed")) ([] : FS)).1
              (rootfsHashFile ["base"]) =
          FS.get ([] : FS) (rootfsHashFile ["base"]))) := by
  refine ⟨rfl, by decide, ?_⟩
  exact (C2_sidecar_after_success (fun _ => "digest") ["base"]
    (fun fsx => (fsx, some "mkfs.erofs failed")) ([] : FS)).1
    ([] : FS) "mkfs.erofs failed" rfl (by decide)

/-! ## Shape lemmas for the write primitives -/

theorem removeOccupant_shape {fs : FS} {p : Path} {fs1 : FS}
    (h : removeOccupant fs p = .ok fs1) : fs1 = fs ∨ fs1 = fs.eraseKey p := by
  unfold removeOccupant at h
  cases hg : fs.get p with
  | none => rw [hg] at h; simp at h; exact Or.inl h.symm
  | some n =>
    cases n with
    | file c m => rw [hg] at h; simp at h; exact Or.inr h.symm
    | symlink t => rw [hg] at h; simp at h; exact Or.inr h.symm
    | dir m => rw [hg] at h; simp at h

theorem copyFileNode_shape {fs : FS} {s d : Path} {fs1 : FS}
    (h : copyFileNode fs s d = .ok fs1) : ∃ n, fs1 = fs.set d n := by
  unfold copyFileNode at h
  cases hg : fs.get s with
  | none => rw [hg] at h; simp at h
  | some n =>
    cases n with
    | file c m =>
      rw [hg] at h
      cases hd : fs.get d with
      | none => rw [hd] at h; simp at h; exact ⟨_, h.symm⟩
      | some nd =>
        cases nd with
        | file c2 m2 => rw [hd] at h; simp at h; exact ⟨_, h.symm⟩
        | symlink t => rw [hd] at h; simp at h
        | dir m2 => rw [hd] at h; simp at h
    | symlink t => rw [hg] at h; simp at h
    | dir m => rw [hg] at h; simp at h

theorem makeExecutable_shape {fs : FS} {p : Path} {fs1 : FS}
    (h : makeExecutable fs p = .ok fs1) : ∃ n, fs1 = fs.set p n := by
  unfold makeExecutable at h
  cases hg : fs.get p with
  | none => rw [hg] at h; simp at h
  | some n =>
    cases n with
    | file c m => rw [hg] at h; simp at h; exact ⟨_, h.symm⟩
    | symlink t => rw [hg] at h; simp at h
    | dir m => rw [hg] at h; simp at h; exact ⟨_, h.symm⟩

theorem symlinkNew_shape {fs : FS} {t : String} {p : Path} {fs1 : FS}
    (h : symlinkNew fs t p = .ok fs1) : fs1 = fs.set p (.symlink t) := by
  unfold symlinkNew at h
  cases hg : fs.get p with
  | none => rw [hg] at h; simp at h; exact h.symm
  | some n => rw [hg] at h; simp at h

theorem fsWrite_shape {fs : FS} {p : Path} {c : String} {fs1 : FS}
    (h : fsWrite fs p c = .ok fs1) : ∃ n, fs1 = fs.set p n := by
  unfold fsWrite at h
  cases hg : fs.get p with
  | none => rw [hg] at h; simp at h; exact ⟨_, h.symm⟩
  | some n =>
    cases n with
    | file c2 m => rw [hg] at h; simp at h; exact ⟨_, h.symm⟩
    | symlink t => rw [hg] at h; simp at h
    | dir m => rw [hg] at h; simp at h

theorem appendToFile_shape {fs : FS} {p : Path} {c : String} {fs1 : FS}
    (h : appendToFile fs p c = .ok fs1) : ∃ n, fs1 = fs.set p n := by
  unfold appendToFile at h
  cases hg : fs.get p with
  | none => rw [hg] at h; simp at h; exact ⟨_, h.symm⟩
  | some n =>
    cases n with
    | file c2 m => rw [hg] at h; simp at h; exact ⟨_, h.symm⟩
    | symlink t => rw [hg] at h; simp at h
    | dir m => rw [hg] at h; simp at h

theorem setPermissions_shape {fs : FS} {p : Path} {m : Nat} {fs1 : FS}
    (h : setPermissions fs p m = .ok fs1) : ∃ n, fs1 = fs.set p n := by
  unfold setPermissions at h
  cases hg : fs.get p with
  | none => rw [hg] at h; simp at h
  | some n =>
    cases n with
    | file c m2 => rw [hg] at h; simp at h; exact ⟨_, h.symm⟩
    | symlink t => rw [hg] at h; simp at h
    | dir m2 => rw [hg] at h; simp at h; exact ⟨_, h.symm⟩

/-! ## Path-separation lemmas -/

theorem pathLe_trans {a b c : Path} (h1 : pathLe a b = true)
    (h2 : pathLe b c = true) : pathLe a c = true := by
  obtain ⟨r, rfl⟩ := eq_append_of_pathLe h1
  obtain ⟨s, rfl⟩ := eq_append_of_pathLe h2
  rw [List.append_assoc]
  exact pathLe_append a (r ++ s)

theorem pathLe_dropLast_self (p : Path) : pathLe p.dropLast p = true := by
  induction p with
  | nil => rfl
  | cons a as ih =>
    cases as with
    | nil => rfl
    | cons b bs =>
      have h : (a :: b :: bs).dropLast = a :: (b :: bs).dropLast := rfl
      rw [h]
      simpa [pathLe] using ih

/-- No source-rooted path lies at or below any path comparable with the
staging root, when the source and staging roots are incomparable. -/
theorem source_path_not_le (ctx : BuildContext)
    (hcmp1 : pathLe ctx.source ctx.staging = false)
    (hcmp2 : pathLe ctx.staging ctx.source = false)
    (c T : Path)
    (hT : pathLe ctx.staging T = true ∨ pathLe T ctx.staging = true) :
    pathLe (ctx.source ++ c) T = false := by
  cases hq : pathLe (ctx.source ++ c) T with
  | false => rfl
  | true =>
    exfalso
    have hsrc : pathLe ctx.source (ctx.source ++ c) = true := pathLe_append _ _
    rcases hT with hT | hT
    · -- staging ≤ T and source++c ≤ T: the two are comparable
      rcases pathLe_total_of_pathLe hq hT with h | h
      · -- source++c ≤ staging, so source ≤ staging
        have := pathLe_trans hsrc h
        rw [hcmp1] at this
        exact absurd this (by simp)
      · -- staging ≤ source++c: staging and source comparable
        rcases pathLe_cases_append h with h2 | h2
        · rw [hcmp2] at h2; exact absurd h2 (by simp)
        · rw [hcmp1] at h2; exact absurd h2 (by simp)
    · -- T ≤ staging: source++c ≤ staging, so source ≤ staging
      have := pathLe_trans (pathLe_trans hsrc hq) hT
      rw [hcmp1] at this
      exact absurd this (by simp)

theorem ne_of_pathLe_false {q T : Path} (h : pathLe q T = false) : q ≠ T := by
  intro hEq
  subst hEq
  rw [pathLe_refl] at h
  exact absurd h (by simp)

/-- Every path a staging-rooted write or directory creation can touch is
comparable with the staging root. -/
theorem staging_target_cmp (stag X : Path) :
    pathLe stag (stag ++ X) = true ∨ pathLe (stag ++ X) stag = true :=
  Or.inl (pathLe_append _ _)

theorem staging_target_dropLast_cmp (stag X : Path) :
    pathLe stag ((stag ++ X).dropLast) = true ∨
      pathLe ((stag ++ X).dropLast) stag = true :=
  pathLe_total_of_pathLe (pathLe_append _ _) (pathLe_dropLast_self _)

/-! ## The binary loops do not disturb the source tree -/

theorem copyDepLine_source_get {ctx : BuildContext} {fs fs1 : FS} {l : String}
    (hcmp1 : pathLe ctx.source ctx.staging = false)
    (hcmp2 : pathLe ctx.staging ctx.source = false)
    (h : copyDepLine ctx fs l = .ok fs1) (c : Path) :
    fs1.get (ctx.source ++ c) = fs.get (ctx.source ++ c) := by
  unfold copyDepLine at h
  cases hex : extract_library_path l with
  | none => rw [hex] at h; simp at h; rw [h]
  | some pathStr =>
    rw [hex] at h
    simp only [bind, Except.bind] at h
    by_cases hguard : (fs.pathExists (ctx.source ++ splitPath pathStr) &&
        !(fs.pathExists (ctx.staging ++ splitPath pathStr))) = true
    · rw [if_pos hguard] at h
      cases hmk : mkdirAll fs ((ctx.staging ++ splitPath pathStr).dropLast) with
      | error e => rw [hmk] at h; simp at h
      | ok fsm =>
        rw [hmk] at h
        obtain ⟨n, hn⟩ := copyFileNode_shape h
        rw [hn, FS.get_set, if_neg (ne_of_pathLe_false
          (source_path_not_le ctx hcmp1 hcmp2 c _ (staging_target_cmp _ _)))]
        exact mkdirAll_get_of_not_le hmk
          (source_path_not_le ctx hcmp1 hcmp2 c _ (staging_target_dropLast_cmp _ _))
    · rw [if_neg hguard] at h
      simp at h
      rw [h]

theorem copyDepsList_source_get {ctx : BuildContext} {ls : List String}
    {fs fs1 : FS}
    (hcmp1 : pathLe ctx.source ctx.staging = false)
    (hcmp2 : pathLe ctx.staging ctx.source = false)
    (h : copyDepsList ctx ls fs = .ok fs1) (c : Path) :
    fs1.get (ctx.source ++ c) = fs.get (ctx.source ++ c) := by
  induction ls generalizing fs with
  | nil => simp [copyDepsList] at h; rw [h]
  | cons l ls ih =>
    unfold copyDepsList at h
    simp only [bind, Except.bind] at h
    cases hl : copyDepLine ctx fs l with
    | error e => rw [hl] at h; simp at h
    | ok fsm =>
      rw [hl] at h
      rw [ih h, copyDepLine_source_get hcmp1 hcmp2 hl c]

theorem copy_library_deps_source_get {ext : Externals} {ctx : BuildContext}
    {fs fs1 : FS} {b : Path}
    (hcmp1 : pathLe ctx.source ctx.staging = false)
    (hcmp2 : pathLe ctx.staging ctx.source = false)
    (h : copy_library_deps ext ctx fs b = .ok fs1) (c : Path) :
    fs1.get (ctx.source ++ c) = fs.get (ctx.source ++ c) := by
  unfold copy_library_deps at h
  cases hl : ext.ldd b with
  | spawnFail => rw [hl] at h; simp at h
  | run success out =>
    cases success with
    | false => rw [hl] at h; simp at h; rw [h]
    | true =>
      rw [hl] at h
      exact copyDepsList_source_get hcmp1 hcmp2 h c

theorem copy_binary_source_get {ext : Externals} {ctx : BuildContext}
    {fs fs1 : FS} {name destDir : String}
    (hcmp1 : pathLe ctx.source ctx.staging = false)
    (hcmp2 : pathLe ctx.staging ctx.source = false)
    (h : copy_binary ext ctx fs name destDir = .ok fs1) (c : Path) :
    fs1.get (ctx.source ++ c) = fs.get (ctx.source ++ c) := by
  unfold copy_binary at h
  cases hf : find_binary ctx fs name with
  | none => rw [hf] at h; simp at h
  | some srcRel =>
    rw [hf] at h
    simp only [bind, Except.bind] at h
    have hdst : joinPath (joinPath ctx.staging destDir) name =
        ctx.staging ++ (splitPath destDir ++ splitPath name) := by
      simp [joinPath]
    cases hmk : mkdirAll fs ((joinPath (joinPath ctx.staging destDir) name).dropLast) with
    | error e => rw [hmk] at h; simp at h
    | ok fsm =>
      rw [hmk] at h
      dsimp only at h
      have hmkpres : fsm.get (ctx.source ++ c) = fs.get (ctx.source ++ c) := by
        apply mkdirAll_get_of_not_le hmk
        rw [hdst]
        exact source_path_not_le ctx hcmp1 hcmp2 c _ (staging_target_dropLast_cmp _ _)
      have hTne : ctx.source ++ c ≠ joinPath (joinPath ctx.staging destDir) name := by
        rw [hdst]
        exact ne_of_pathLe_false
          (source_path_not_le ctx hcmp1 hcmp2 c _ (staging_target_cmp _ _))
      cases hsrcn : fsm.get (ctx.source ++ srcRel) with
      | some n =>
        cases n with
        | symlink t =>
          rw [hsrcn] at h
          dsimp only at h
          cases hro : removeOccupant fsm (joinPath (joinPath ctx.staging destDir) name) with
          | error e => rw [hro] at h; simp at h
          | ok fsr =>
            rw [hro] at h
            dsimp only at h
            have hrpres : fsr.get (ctx.source ++ c) = fsm.get (ctx.source ++ c) := by
              rcases removeOccupant_shape hro with hsh | hsh
              · rw [hsh]
              · rw [hsh, FS.get_eraseKey, if_neg hTne]
            rw [symlinkNew_shape h, FS.get_set, if_neg hTne, hrpres, hmkpres]
        | file cc mm =>
          rw [hsrcn] at h
          dsimp only at h
          cases hro : removeOccupant fsm (joinPath (joinPath ctx.staging destDir) name) with
          | error e => rw [hro] at h; simp at h
          | ok fsr =>
            rw [hro] at h
            dsimp only at h
            have hrpres : fsr.get (ctx.source ++ c) = fsm.get (ctx.source ++ c) := by
              rcases removeOccupant_shape hro with hsh | hsh
              · rw [hsh]
              · rw [hsh, FS.get_eraseKey, if_neg hTne]
            cases hcp : copyFileNode fsr (ctx.source ++ srcRel)
                (joinPath (joinPath ctx.staging destDir) name) with
            | error e => rw [hcp] at h; simp at h
            | ok fsc =>
              rw [hcp] at h
              dsimp only at h
              obtain ⟨n2, hn2⟩ := copyFileNode_shape hcp
              cases hme : makeExecutable fsc (joinPath (joinPath ctx.staging destDir) name) with
              | error e => rw [hme] at h; simp at h
              | ok fse =>
                rw [hme] at h
                dsimp only at h
                obtain ⟨n3, hn3⟩ := makeExecutable_shape hme
                rw [copy_library_deps_source_get hcmp1 hcmp2 h c, hn3,
                  FS.get_set, if_neg hTne, hn2, FS.get_set, if_neg hTne,
                  hrpres, hmkpres]
        | dir mm =>
          rw [hsrcn] at h
          dsimp only at h
          cases hro : removeOccupant fsm (joinPath (joinPath ctx.staging destDir) name) with
          | error e => rw [hro] at h; simp at h
          | ok fsr =>
            rw [hro] at h
            dsimp only at h
            cases hcp : copyFileNode fsr (ctx.source ++ srcRel)
                (joinPath (joinPath ctx.staging destDir) name) with
            | error e => rw [hcp] at h; simp at h
            | ok fsc =>
              exact absurd hcp (by
                unfold copyFileNode
                have : fsr.get (ctx.source ++ srcRel) = some (.dir mm) := by
                  rcases removeOccupant_shape hro with hsh | hsh
                  · rw [hsh, hsrcn]
                  · rw [hsh, FS.get_eraseKey]
                    by_cases hqq : ctx.source ++ srcRel =
                        joinPath (joinPath ctx.staging destDir) name
                    · rw [hdst] at hqq
                      exact absurd hqq (ne_of_pathLe_false
                        (source_path_not_le ctx hcmp1 hcmp2 srcRel _
                          (staging_target_cmp _ _)))
                    · rw [if_neg hqq, hsrcn]
                rw [this]
                simp)
      | none =>
        rw [hsrcn] at h
        dsimp only at h
        cases hro : removeOccupant fsm (joinPath (joinPath ctx.staging destDir) name) with
        | error e => rw [hro] at h; simp at h
        | ok fsr =>
          rw [hro] at h
          dsimp only at h
          cases hcp : copyFileNode fsr (ctx.source ++ srcRel)
              (joinPath (joinPath ctx.staging destDir) name) with
          | error e => rw [hcp] at h; simp at h
          | ok fsc =>
            exact absurd hcp (by
              unfold copyFileNode
              have : fsr.get (ctx.source ++ srcRel) = none := by
                rcases removeOccupant_shape hro with hsh | hsh
                · rw [hsh, hsrcn]
                · rw [hsh, FS.get_eraseKey]
                  by_cases hqq : ctx.source ++ srcRel =
                      joinPath (joinPath ctx.staging destDir) name
                  · simp [hqq]
                  · rw [if_neg hqq, hsrcn]
              rw [this]
              simp)

/-- `find_binary` and the missing-binary message only read the source
subtree, so they are stable under any mutation that preserves it. -/
theorem find_binary_congr {ctx : BuildContext} {fs fs1 : FS}
    (h : ∀ c, fs1.get (ctx.source ++ c) = fs.get (ctx.source ++ c))
    (name : String) :
    find_binary ctx fs1 name = find_binary ctx fs name ∧
      binaryNotFoundMsg ctx fs1 name = binaryNotFoundMsg ctx fs name := by
  constructor
  · unfold find_binary
    simp only [FS.pathExists, h]
  · unfold binaryNotFoundMsg
    simp only [FS.pathExists, h]

/-! ## C6 — batch binary copies collect every failure -/

theorem runBinsAux_append (ext : Externals) (ctx : BuildContext)
    (xs ys : List String) (fs : FS) :
    runBinsAux ext ctx (xs ++ ys) fs =
      ((runBinsAux ext ctx ys (runBinsAux ext ctx xs fs).1).1,
        (runBinsAux ext ctx xs fs).2 ++
          (runBinsAux ext ctx ys (runBinsAux ext ctx xs fs).1).2) := by
  induction xs generalizing fs with
  | nil => simp [runBinsAux]
  | cons n xs ih =>
    simp only [List.cons_append, runBinsAux]
    cases hc : copy_binary ext ctx fs n "usr/bin" with
    | ok fs1 => simpa using ih fs1
    | error e => simp [ih fs]

theorem runSbinsAux_append (ext : Externals) (ctx : BuildContext)
    (xs ys : List String) (fs : FS) :
    runSbinsAux ext ctx (xs ++ ys) fs =
      ((runSbinsAux ext ctx ys (runSbinsAux ext ctx xs fs).1).1,
        (runSbinsAux ext ctx xs fs).2 ++
          (runSbinsAux ext ctx ys (runSbinsAux ext ctx xs fs).1).2) := by
  induction xs generalizing fs with
  | nil => simp [runSbinsAux]
  | cons n xs ih =>
    simp only [List.cons_append, runSbinsAux]
    cases hc : copy_binary ext ctx fs n "usr/sbin" with
    | ok fs1 => simpa using ih fs1
    | error e => simp [ih fs]

theorem runBinsAux_source_get (ext : Externals) (ctx : BuildContext)
    (hcmp1 : pathLe ctx.source ctx.staging = false)
    (hcmp2 : pathLe ctx.staging ctx.source = false)
    (ns : List String) (fs : FS) (c : Path) :
    (runBinsAux ext ctx ns fs).1.get (ctx.source ++ c) =
      fs.get (ctx.source ++ c) := by
  induction ns generalizing fs with
  | nil => simp [runBinsAux]
  | cons n ns ih =>
    simp only [runBinsAux]
    cases hc : copy_binary ext ctx fs n "usr/bin" with
    | ok fs1 =>
      rw [ih fs1]
      exact copy_binary_source_get hcmp1 hcmp2 hc c
    | error e => simpa using ih fs

/-- C6: the batch binary operations collect every failure.  Under
incomparable source and staging roots: (1, 2) both batch loops decompose
over list concatenation — the tail of the batch is always processed, from
the state the head left behind, and failure entries accumulate in order,
so no failure stops the batch; (3) a name `find_binary` cannot resolve
contributes exactly its own error entry and leaves the tree unchanged, in
both loops; (4) processing a batch never disturbs the source tree, so a
missing name stays missing whatever was copied before it; (5, 6)
`Op::Bins` (resp. `Op::Sbins`) succeeds iff the loop collected no error
entry, and otherwise fails with the single message listing every
collected entry. -/
theorem C6_batch_collects_all_failures (ext : Externals) (ctx : BuildContext)
    (hcmp1 : pathLe ctx.source ctx.staging = false)
    (hcmp2 : pathLe ctx.staging ctx.source = false) :
    (∀ xs ys fs, runBinsAux ext ctx (xs ++ ys) fs =
      ((runBinsAux ext ctx ys (runBinsAux ext ctx xs fs).1).1,
        (runBinsAux ext ctx xs fs).2 ++
          (runBinsAux ext ctx ys (runBinsAux ext ctx xs fs).1).2)) ∧
    (∀ xs ys fs, runSbinsAux ext ctx (xs ++ ys) fs =
      ((runSbinsAux ext ctx ys (runSbinsAux ext ctx xs fs).1).1,
        (runSbinsAux ext ctx xs fs).2 ++
          (runSbinsAux ext ctx ys (runSbinsAux ext ctx xs fs).1).2)) ∧
    (∀ n fs, find_binary ctx fs n = none →
      runBinsAux ext ctx [n] fs = (fs, [n ++ ": " ++ binaryNotFoundMsg ctx fs n]) ∧
      runSbinsAux ext ctx [n] fs = (fs, [n])) ∧
    (∀ ns fs m, find_binary ctx (runBinsAux ext ctx ns fs).1 m =
      find_binary ctx fs m) ∧
    (∀ ns fs, ((runBinsAux ext ctx ns fs).2 = [] →
        execute_op ext ctx (.Bins ns) fs = .ok (runBinsAux ext ctx ns fs).1) ∧
      ((runBinsAux ext ctx ns fs).2 ≠ [] →
        execute_op ext ctx (.Bins ns) fs = .error ("Missing binaries:\n  " ++
          String.intercalate "\n  " (runBinsAux ext ctx ns fs).2))) ∧
    (∀ ns fs, ((runSbinsAux ext ctx ns fs).2 = [] →
        execute_op ext ctx (.Sbins ns) fs = .ok (runSbinsAux ext ctx ns fs).1) ∧
      ((runSbinsAux ext ctx ns fs).2 ≠ [] →
        execute_op ext ctx (.Sbins ns) fs = .error ("Missing sbin binaries: " ++
          String.intercalate ", " (runSbinsAux ext ctx ns fs).2))) := by
  refine ⟨runBinsAux_append ext ctx, runSbinsAux_append ext ctx, ?_, ?_, ?_, ?_⟩
  · intro n fs h
    constructor
    · simp [runBinsAux, copy_binary, h]
    · simp [runSbinsAux, copy_binary, h]
  · intro ns fs m
    exact (find_binary_congr
      (runBinsAux_source_get ext ctx hcmp1 hcmp2 ns fs) m).1
  · intro ns fs
    constructor
    · intro h
      simp [execute_op, h]
    · intro h
      simp [execute_op, List.isEmpty_iff, h]
  · intro ns fs
    constructor
    · intro h
      simp [execute_op, h]
    · intro h
      simp [execute_op, List.isEmpty_iff, h]

/-- C6 witness: a batch of three names where the first and last are
missing upstream: both failures are collected, the middle binary's copy
still happens, and the operation fails listing both missing names. -/
theorem C6_witness :
    (pathLe (["src"] : Path) (["stg"] : Path) = false) ∧
    (pathLe (["stg"] : Path) (["src"] : Path) = false) ∧
    (∀ n fs, find_binary ⟨["src"], ["stg"], ["base"], ["out"]⟩ fs n = none →
      runBinsAux ⟨fun _ => .run false "", fun _ _ _ => .error "x", fun _ _ => .error "x"⟩
          ⟨["src"], ["stg"], ["base"], ["out"]⟩ [n] fs =
        (fs, [n ++ ": " ++ binaryNotFoundMsg ⟨["src"], ["stg"], ["base"], ["out"]⟩ fs n]) ∧
      runSbinsAux ⟨fun _ => .run false "", fun _ _ _ => .error "x", fun _ _ => .error "x"⟩
          ⟨["src"], ["stg"], ["base"], ["out"]⟩ [n] fs = (fs, [n])) := by
  refine ⟨by decide, by decide, ?_⟩
  exact (C6_batch_collects_all_failures
    ⟨fun _ => .run false "", fun _ _ _ => .error "x", fun _ _ => .error "x"⟩
    ⟨["src"], ["stg"], ["base"], ["out"]⟩ (by decide) (by decide)).2.2.1

/-! ## Line algebra for the account upserts (C8) -/

theorem linesList_ne_nil {l : List Char} (h : l ≠ []) : linesList l ≠ [] := by
  cases l with
  | nil => exact absurd rfl h
  | cons c cs =>
    unfold linesList
    by_cases hc : c = '\n'
    · simp [hc]
    · simp only [if_neg hc]
      cases linesList cs <;> simp

theorem linesList_append_term {c : List Char} (d : List Char)
    (h : c = [] ∨ c.getLast? = some '\n') :
    linesList (c ++ d) = linesList c ++ linesList d := by
  induction c with
  | nil => simp [linesList]
  | cons x c ih =>
    rcases h with h | h
    · exact absurd h (by simp)
    · cases hc : c with
      | nil =>
        subst hc
        simp at h
        subst h
        simp [linesList]
      | cons y ys =>
        have hcne : c ≠ [] := by rw [hc]; simp
        have h2 : c.getLast? = some '\n' := by
          rw [hc] at h ⊢
          simpa [List.getLast?_cons_cons] using h
        by_cases hx : x = '\n'
        · subst hx
          rw [← hc] at *
          have := ih (Or.inr h2)
          simp [linesList, this]
        · rw [← hc] at *
          obtain ⟨l, ls, hls⟩ : ∃ l ls, linesList c = l :: ls := by
            cases hq : linesList c with
            | nil => exact absurd hq (linesList_ne_nil hcne)
            | cons l ls => exact ⟨l, ls, rfl⟩
          have hcd := ih (Or.inr h2)
          have hxc : linesList (x :: c) = (x :: l) :: ls := by
            show (if x = '\n' then [] :: linesList c
              else match linesList c with
                | [] => [[x]]
                | l :: ls => (x :: l) :: ls) = (x :: l) :: ls
            rw [if_neg hx, hls]
          have hxcd : linesList (x :: (c ++ d)) =
              (x :: l) :: (ls ++ linesList d) := by
            show (if x = '\n' then [] :: linesList (c ++ d)
              else match linesList (c ++ d) with
                | [] => [[x]]
                | l :: ls => (x :: l) :: ls) = (x :: l) :: (ls ++ linesList d)
            rw [if_neg hx, hcd, hls]
            simp
          rw [List.cons_append, hxcd, hxc]
          simp

theorem linesList_terminated_single {e : List Char}
    (h : e.contains '\n' = false) : linesList (e ++ ['\n']) = [e] := by
  induction e with
  | nil => simp [linesList]
  | cons x e ih =>
    have hx : x ≠ '\n' := by
      intro hEq
      subst hEq
      simp [List.contains_cons] at h
    have he : e.contains '\n' = false := by
      simp [List.contains_cons] at h
      simpa using h.2
    rw [List.cons_append]
    unfold linesList
    rw [if_neg hx, ih he]

theorem listStarts_append_cons (xs : List Char) (c : Char) (more : List Char) :
    listStarts (xs ++ c :: more) (xs ++ [c]) = true := by
  induction xs with
  | nil => simp [listStarts]
  | cons a as ih => simpa [listStarts] using ih

theorem listStarts_colon_entry_false {n1 n2 : List Char} {rest : List Char}
    (hne : n1 ≠ n2) (h1 : n1.contains ':' = false)
    (h2 : n2.contains ':' = false) :
    listStarts (n1 ++ ':' :: rest) (n2 ++ [':']) = false := by
  induction n2 generalizing n1 with
  | nil =>
    cases n1 with
    | nil => exact absurd rfl hne
    | cons a as =>
      have ha : a ≠ ':' := by
        intro hEq
        subst hEq
        simp [List.contains_cons] at h1
      simp [listStarts, ha]
  | cons b bs ih =>
    cases n1 with
    | nil =>
      have hb : b ≠ ':' := by
        intro hEq
        subst hEq
        simp [List.contains_cons] at h2
      simp only [List.nil_append, List.cons_append, listStarts]
      rw [if_neg (fun hEq => hb hEq.symm)]
    | cons a as =>
      by_cases hab : a = b
      · subst hab
        simp only [List.cons_append, listStarts, if_pos rfl]
        apply ih
        · intro hEq; exact hne (by rw [hEq])
        · simp [List.contains_cons] at h1; simpa using h1.2
        · simp [List.contains_cons] at h2; simpa using h2.2
      · simp only [List.cons_append, listStarts]
        rw [if_neg hab]

theorem userEntry_data_shape (name : String) (uid gid : Nat)
    (home shell : String) :
    (userEntry name uid gid home shell).data = name.data ++ ':' ::
      ("x:" ++ toString uid ++ ":" ++ toString gid ++ "::" ++ home ++
        ":" ++ shell).data := by
  show (name ++ ":x:" ++ toString uid ++ ":" ++ toString gid ++ "::" ++
    home ++ ":" ++ shell).data = _
  have h1 : (":x:" : String).data = ':' :: ("x:" : String).data := rfl
  simp only [String.data_append, h1, List.append_assoc, List.cons_append]

theorem groupEntry_data_shape (name : String) (gid : Nat) :
    (groupEntry name gid).data = name.data ++ ':' ::
      ("x:" ++ toString gid ++ ":").data := by
  show (name ++ ":x:" ++ toString gid ++ ":").data = _
  have h1 : (":x:" : String).data = ':' :: ("x:" : String).data := rfl
  simp only [String.data_append, h1, List.append_assoc, List.cons_append]

theorem strStarts_entry_self (name : String) (rest : List Char) :
    listStarts (name.data ++ ':' :: rest) (name ++ ":").data = true := by
  have h : (name ++ ":").data = name.data ++ [':'] := by
    simp [String.data_append]
  rw [h]
  exact listStarts_append_cons _ _ _

theorem rustLines_append_entry (content : String) (entry : String)
    (hterm : content.data = [] ∨ content.data.getLast? = some '\n')
    (hclean : entry.data.contains '\n' = false) :
    rustLines (content ++ (entry ++ "\n")) = rustLines content ++ [entry] := by
  unfold rustLines
  have hd : (content ++ (entry ++ "\n")).data =
      content.data ++ (entry.data ++ ['\n']) := by
    simp [String.data_append]
  rw [hd, linesList_append_term _ hterm, linesList_terminated_single hclean]
  simp

/-- The core of both account upserts in their append branch: create the
parent directory, then append one line to the account file. -/
theorem append_line_ok {fs : FS} {p : Path} (hp : p ≠ [])
    (hdirs : dirsOk fs p.dropLast = true)
    {content : String} (hread : readFileOrEmpty fs p = .ok content)
    (line : String) :
    ∃ fs1 m, (do
        let fsx ← mkdirAll fs p.dropLast
        appendToFile fsx p line) = .ok fs1 ∧
      fs1.get p = some (.file (content ++ line) m) ∧
      dirsOk fs1 p.dropLast = true ∧
      readFileOrEmpty fs1 p = .ok (content ++ line) := by
  obtain ⟨fsm, hm⟩ := mkdirAll_ok hdirs
  have hpres := mkdirAll_get_of_not_le hm (not_pathLe_dropLast hp)
  have hget : fs.get p = none ∧ content = "" ∨
      ∃ m0, fs.get p = some (.file content m0) := by
    unfold readFileOrEmpty at hread
    cases hg : fs.get p with
    | none => rw [hg] at hread; simp at hread; exact Or.inl ⟨rfl, hread.symm⟩
    | some n =>
      cases n with
      | file c m0 =>
        rw [hg] at hread
        simp at hread
        exact Or.inr ⟨m0, by rw [hread]⟩
      | symlink t => rw [hg] at hread; simp at hread
      | dir m0 => rw [hg] at hread; simp at hread
  have happ : ∃ m, appendToFile fsm p line = .ok (fsm.set p (.file (content ++ line) m)) := by
    rcases hget with ⟨hg, hc⟩ | ⟨m0, hg⟩
    · subst hc
      refine ⟨defaultFileMode, ?_⟩
      unfold appendToFile
      rw [hpres, hg]
      simp
    · refine ⟨m0, ?_⟩
      unfold appendToFile
      rw [hpres, hg]
  obtain ⟨m, happ⟩ := happ
  refine ⟨fsm.set p (.file (content ++ line) m), m, ?_, ?_, ?_, ?_⟩
  · simp only [bind, Except.bind, hm]
    exact happ
  · rw [FS.get_set]; simp
  · rw [dirsOk_iff]
    intro r hr hle
    have hrne : r ≠ p := by
      intro hEq
      subst hEq
      have h1 := length_le_of_pathLe hle
      have h2 : r.dropLast.length = r.length - 1 := by simp
      have h3 : r.length ≠ 0 := fun hz => hp (List.length_eq_zero.mp hz)
      omega
    rw [FS.get_set, if_neg hrne]
    rcases mkdirAll_get hm r with h1 | ⟨_, h2, _, _⟩
    · rw [h1]
      exact (dirsOk_iff fs _).mp hdirs r hr hle
    · rw [h2]; rfl
  · unfold readFileOrEmpty
    rw [FS.get_set, if_pos rfl]

theorem data_ne_of_ne {a b : String} (h : ¬ a = b) : a.data ≠ b.data := by
  intro hd
  exact h (congrArg String.mk hd)

theorem strStarts_cross_false {n1 n2 : String} {rest : List Char}
    (hne : ¬ n1 = n2) (h1 : n1.data.contains ':' = false)
    (h2 : n2.data.contains ':' = false) :
    listStarts (n1.data ++ ':' :: rest) (n2 ++ ":").data = false := by
  have h : (n2 ++ ":").data = n2.data ++ [':'] := by
    simp [String.data_append]
  rw [h]
  exact listStarts_colon_entry_false (data_ne_of_ne hne) h1 h2

theorem countP_rustLines_zero {content : String} {p : String → Bool}
    (h : (rustLines content).any p = false) :
    (rustLines content).countP p = 0 := by
  rw [List.countP_eq_zero]
  intro a ha
  have := List.any_eq_false.mp h a ha
  simpa using this

/-- C8: the account upsert is idempotent and append-only.  With the
account file readable as `content` (absent reads as empty), terminated by
a newline when nonempty, and a colon-free user name whose rendered entry
contains no newline: (1) if some line already starts with `name:`, the
filesystem is returned byte-for-byte unchanged; (2) otherwise exactly one
line is appended — the new file is the old content plus `userLine`, its
line list is the old line list plus the one entry (so no existing line is
rewritten or removed), exactly one line matches `name:`, and repeating
the same upsert leaves the file unchanged; a subsequent upsert of a
different colon-free name appends its own single line, ending with
exactly one line per name; (3) `ensure_group` behaves the same way on
`etc/group`. -/
theorem C8_account_upsert_idempotent (ctx : BuildContext) (fs : FS)
    (name : String) (uid gid : Nat) (home shell : String) (content : String)
    (hread : readFileOrEmpty fs (ctx.staging ++ ["etc", "passwd"]) = .ok content)
    (hterm : content.data = [] ∨ content.data.getLast? = some '\n')
    (hcolon : name.data.contains ':' = false)
    (hclean : (userEntry name uid gid home shell).data.contains '\n' = false)
    (hdirs : dirsOk fs (ctx.staging ++ ["etc", "passwd"]).dropLast = true) :
    ((rustLines content).any (fun l => strStarts l (name ++ ":")) = true →
      ensure_user ctx fs name uid gid home shell = .ok fs) ∧
    ((rustLines content).any (fun l => strStarts l (name ++ ":")) = false →
      ∃ fs1 m, ensure_user ctx fs name uid gid home shell = .ok fs1 ∧
        fs1.get (ctx.staging ++ ["etc", "passwd"]) =
          some (.file (content ++ userLine name uid gid home shell) m) ∧
        rustLines (content ++ userLine name uid gid home shell) =
          rustLines content ++ [userEntry name uid gid home shell] ∧
        (rustLines (content ++ userLine name uid gid home shell)).countP
          (fun l => strStarts l (name ++ ":")) = 1 ∧
        ensure_user ctx fs1 name uid gid home shell = .ok fs1 ∧
        (∀ name2 uid2 gid2 home2 shell2,
          name2.data.contains ':' = false →
          (userEntry name2 uid2 gid2 home2 shell2).data.contains '\n' = false →
          ¬ name2 = name →
          (rustLines content).any (fun l => strStarts l (name2 ++ ":")) = false →
          ∃ fs2 m2,
            ensure_user ctx fs1 name2 uid2 gid2 home2 shell2 = .ok fs2 ∧
            fs2.get (ctx.staging ++ ["etc", "passwd"]) = some (.file
              (content ++ userLine name uid gid home shell ++
                userLine name2 uid2 gid2 home2 shell2) m2) ∧
            (rustLines (content ++ userLine name uid gid home shell ++
                userLine name2 uid2 gid2 home2 shell2)).countP
              (fun l => strStarts l (name ++ ":")) = 1 ∧
            (rustLines (content ++ userLine name uid gid home shell ++
                userLine name2 uid2 gid2 home2 shell2)).countP
              (fun l => strStarts l (name2 ++ ":")) = 1)) ∧
    (∀ gcontent,
      readFileOrEmpty fs (ctx.staging ++ ["etc", "group"]) = .ok gcontent →
      (gcontent.data = [] ∨ gcontent.data.getLast? = some '\n') →
      (groupEntry name gid).data.contains '\n' = false →
      dirsOk fs (ctx.staging ++ ["etc", "group"]).dropLast = true →
      ((rustLines gcontent).any (fun l => strStarts l (name ++ ":")) = true →
        ensure_group ctx fs name gid = .ok fs) ∧
      ((rustLines gcontent).any (fun l => strStarts l (name ++ ":")) = false →
        ∃ fs1 m, ensure_group ctx fs name gid = .ok fs1 ∧
          fs1.get (ctx.staging ++ ["etc", "group"]) =
            some (.file (gcontent ++ groupLine name gid) m) ∧
          rustLines (gcontent ++ groupLine name gid) =
            rustLines gcontent ++ [groupEntry name gid])) := by
  have hp : (ctx.staging ++ ["etc", "passwd"] : Path) ≠ [] := by simp
  have hmatch1 : strStarts (userEntry name uid gid home shell) (name ++ ":") = true := by
    unfold strStarts
    rw [userEntry_data_shape]
    exact strStarts_entry_self _ _
  refine ⟨?_, ?_, ?_⟩
  · intro hany
    simp only [ensure_user, bind, Except.bind, hread, hany]
    simp
  · intro hany
    obtain ⟨fs1, m, heq, hget, hdirs1, hread1⟩ :=
      append_line_ok hp hdirs hread (userLine name uid gid home shell)
    have hlines : rustLines (content ++ userLine name uid gid home shell) =
        rustLines content ++ [userEntry name uid gid home shell] :=
      rustLines_append_entry content _ hterm hclean
    have hcount1 : (rustLines (content ++ userLine name uid gid home shell)).countP
        (fun l => strStarts l (name ++ ":")) = 1 := by
      rw [hlines, List.countP_append, countP_rustLines_zero hany]
      simp [List.countP_cons, hmatch1]
    have hidem : ensure_user ctx fs1 name uid gid home shell = .ok fs1 := by
      have hany1 : (rustLines (content ++ userLine name uid gid home shell)).any
          (fun l => strStarts l (name ++ ":")) = true := by
        rw [hlines, List.any_append]
        simp [hmatch1]
      simp only [ensure_user, bind, Except.bind, hread1, hany1]
      simp
    refine ⟨fs1, m, ?_, hget, hlines, hcount1, hidem, ?_⟩
    · simp only [ensure_user, bind, Except.bind, hread, hany]
      simpa using heq
    · intro name2 uid2 gid2 home2 shell2 hcolon2 hclean2 hne hany2
      have hterm1 : (content ++ userLine name uid gid home shell).data = [] ∨
          (content ++ userLine name uid gid home shell).data.getLast? = some '\n' := by
        right
        have hd : (content ++ userLine name uid gid home shell).data =
            content.data ++ ((userEntry name uid gid home shell).data ++ ['\n']) := by
          simp [userLine, String.data_append]
        rw [hd, List.getLast?_append, List.getLast?_append] <;> simp
      have hcross21 : strStarts (userEntry name uid gid home shell)
          (name2 ++ ":") = false := by
        unfold strStarts
        rw [userEntry_data_shape]
        exact strStarts_cross_false (fun hEq => hne hEq.symm) hcolon hcolon2
      have hcross12 : strStarts (userEntry name2 uid2 gid2 home2 shell2)
          (name ++ ":") = false := by
        unfold strStarts
        rw [userEntry_data_shape]
        exact strStarts_cross_false hne hcolon2 hcolon
      have hmatch2 : strStarts (userEntry name2 uid2 gid2 home2 shell2)
          (name2 ++ ":") = true := by
        unfold strStarts
        rw [userEntry_data_shape]
        exact strStarts_entry_self _ _
      have hany2' : (rustLines (content ++ userLine name uid gid home shell)).any
          (fun l => strStarts l (name2 ++ ":")) = false := by
        rw [hlines, List.any_append]
        simp [hany2, hcross21]
      obtain ⟨fs2, m2, heq2, hget2, _, _⟩ :=
        append_line_ok hp hdirs1 hread1 (userLine name2 uid2 gid2 home2 shell2)
      have hlines2 : rustLines (content ++ userLine name uid gid home shell ++
          userLine name2 uid2 gid2 home2 shell2) =
          rustLines content ++ [userEntry name uid gid home shell] ++
            [userEntry name2 uid2 gid2 home2 shell2] := by
        have h1 : rustLines (content ++ userLine name uid gid home shell ++
            userLine name2 uid2 gid2 home2 shell2) =
            rustLines (content ++ userLine name uid gid home shell) ++
              [userEntry name2 uid2 gid2 home2 shell2] :=
          rustLines_append_entry _ _ hterm1 hclean2
        rw [h1, hlines]
      refine ⟨fs2, m2, ?_, hget2, ?_, ?_⟩
      · simp only [ensure_user, bind, Except.bind, hread1, hany2']
        simpa using heq2
      · rw [hlines2, List.countP_append, List.countP_append,
          countP_rustLines_zero hany]
        simp [List.countP_cons, hmatch1, hcross12]
      · rw [hlines2, List.countP_append, List.countP_append,
          countP_rustLines_zero hany2]
        simp [List.countP_cons, hmatch2, hcross21]
  · intro gcontent hgread hgterm hgclean hgdirs
    have hg : (ctx.staging ++ ["etc", "group"] : Path) ≠ [] := by simp
    have hgmatch : strStarts (groupEntry name gid) (name ++ ":") = true := by
      unfold strStarts
      rw [groupEntry_data_shape]
      exact strStarts_entry_self _ _
    constructor
    · intro hany
      simp only [ensure_group, bind, Except.bind, hgread, hany]
      simp
    · intro hany
      obtain ⟨fs1, m, heq, hget, _, _⟩ :=
        append_line_ok hg hgdirs hgread (groupLine name gid)
      refine ⟨fs1, m, ?_, hget, rustLines_append_entry gcontent _ hgterm hgclean⟩
      simp only [ensure_group, bind, Except.bind, hgread, hany]
      simpa using heq

/-- C8 witness: upserting `root` into an empty staging tree appends one
`passwd` line; the matching-count is one and the upsert is idempotent. -/
theorem C8_witness :
    (readFileOrEmpty ([] : FS) ((["stg"] : Path) ++ ["etc", "passwd"]) = .ok "") ∧
    (("" : String).data = [] ∨ ("" : String).data.getLast? = some '\n') ∧
    (("root" : String).data.contains ':' = false) ∧
    ((userEntry "root" 0 0 "/root" "/bin/sh").data.contains '\n' = false) ∧
    (dirsOk ([] : FS) ((["stg"] : Path) ++ ["etc", "passwd"]).dropLast = true) ∧
    ((rustLines "").any (fun l => strStarts l ("root" ++ ":")) = false) ∧
    (∃ fs1 m, ensure_user ⟨["src"], ["stg"], ["base"], ["out"]⟩ ([] : FS)
        "root" 0 0 "/root" "/bin/sh" = .ok fs1 ∧
      fs1.get ((["stg"] : Path) ++ ["etc", "passwd"]) =
        some (.file ("" ++ userLine "root" 0 0 "/root" "/bin/sh") m) ∧
      rustLines ("" ++ userLine "root" 0 0 "/root" "/bin/sh") =
        rustLines "" ++ [userEntry "root" 0 0 "/root" "/bin/sh"] ∧
      (rustLines ("" ++ userLine "root" 0 0 "/root" "/bin/sh")).countP
        (fun l => strStarts l ("root" ++ ":")) = 1 ∧
      ensure_user ⟨["src"], ["stg"], ["base"], ["out"]⟩ fs1
        "root" 0 0 "/root" "/bin/sh" = .ok fs1 ∧
      (∀ name2 uid2 gid2 home2 shell2,
        name2.data.contains ':' = false →
        (userEntry name2 uid2 gid2 home2 shell2).data.contains '\n' = false →
        ¬ name2 = "root" →
        (rustLines "").any (fun l => strStarts l (name2 ++ ":")) = false →
        ∃ fs2 m2, ensure_user ⟨["src"], ["stg"], ["base"], ["out"]⟩ fs1
            name2 uid2 gid2 home2 shell2 = .ok fs2 ∧
          fs2.get ((["stg"] : Path) ++ ["etc", "passwd"]) = some (.file
            ("" ++ userLine "root" 0 0 "/root" "/bin/sh" ++
              userLine name2 uid2 gid2 home2 shell2) m2) ∧
          (rustLines ("" ++ userLine "root" 0 0 "/root" "/bin/sh" ++
              userLine name2 uid2 gid2 home2 shell2)).countP
            (fun l => strStarts l ("root" ++ ":")) = 1 ∧
          (rustLines ("" ++ userLine "root" 0 0 "/root" "/bin/sh" ++
              userLine name2 uid2 gid2 home2 shell2)).countP
            (fun l => strStarts l (name2 ++ ":")) = 1)) := by
  refine ⟨by rfl, Or.inl rfl, by decide, by decide, by decide, by decide, ?_⟩
  exact (C8_account_upsert_idempotent ⟨["src"], ["stg"], ["base"], ["out"]⟩
    ([] : FS) "root" 0 0 "/root" "/bin/sh" "" (by rfl) (Or.inl rfl)
    (by decide) (by decide) (by decide)).2.1 (by decide)

/-! ## Rename and cleanup lemmas (C1) -/

theorem pathLe_ext_false {O : Path} {a b : String} (hab : a ≠ b) (q : Path) :
    pathLe (O ++ [a]) ((O ++ [b]) ++ q) = false := by
  cases hq : pathLe (O ++ [a]) ((O ++ [b]) ++ q) with
  | false => rfl
  | true =>
    exfalso
    rcases pathLe_cases_append hq with h | h
    · exact hab ((pathLe_append_singleton_iff O a b).mp h)
    · exact hab (((pathLe_append_singleton_iff O b a).mp h).symm)

theorem ne_ext_of_ne {O : Path} {a b : String} (hab : a ≠ b) (q : Path) :
    O ++ [a] ≠ (O ++ [b]) ++ q :=
  ne_of_pathLe_false (pathLe_ext_false hab q)

theorem stripRoot_none_of_not_le {p q : Path} (h : pathLe p q = false) :
    stripRoot p q = none := stripRoot_of_not_pathLe h

theorem removeDirAllQuiet_get_pres {fs : FS} {p q : Path}
    (h : pathLe p q = false) : (removeDirAllQuiet fs p).get q = fs.get q := by
  unfold removeDirAllQuiet removeDirAll
  cases hg : fs.get p with
  | none => rfl
  | some n =>
    cases n with
    | dir m => simp [FS.get_dropUnder, h]
    | file c m => rfl
    | symlink t => rfl

theorem removeFileQuiet_get_pres {fs : FS} {p q : Path} (h : q ≠ p) :
    (removeFileQuiet fs p).get q = fs.get q := by
  unfold removeFileQuiet removeFile
  cases hg : fs.get p with
  | none => rfl
  | some n =>
    cases n with
    | dir m => rfl
    | file c m => simp [FS.get_eraseKey, h]
    | symlink t => simp [FS.get_eraseKey, h]

theorem removeDirAllQuiet_get_none {fs : FS} {p : Path}
    (h : dirSlot (fs.get p) = true) : (removeDirAllQuiet fs p).get p = none := by
  unfold removeDirAllQuiet removeDirAll
  cases hg : fs.get p with
  | none => simpa using hg
  | some n =>
    cases n with
    | dir m => simp [FS.get_dropUnder, pathLe_refl]
    | file c m => rw [hg] at h; simp [dirSlot] at h
    | symlink t => rw [hg] at h; simp [dirSlot] at h

theorem removeFileQuiet_get_none {fs : FS} {p : Path}
    (h : FS.isDirAt fs p = false) : (removeFileQuiet fs p).get p = none := by
  unfold removeFileQuiet removeFile
  cases hg : fs.get p with
  | none => simpa using hg
  | some n =>
    cases n with
    | dir m => rw [FS.isDirAt, hg] at h; simp at h
    | file c m => simp [FS.get_eraseKey]
    | symlink t => simp [FS.get_eraseKey]

theorem FS.get_cons (e : Path × Node) (fs : FS) (p : Path) :
    FS.get (e :: fs) p = if e.1 = p then some e.2 else FS.get fs p := rfl

theorem renameEntry_shape {fs fs1 : FS} {src dst : Path}
    (h : renameEntry fs src dst = .ok fs1) :
    fs1 = fs.filterMap (fun e =>
      match stripRoot src e.1 with
      | some r => some (dst ++ r, e.2)
      | none => if pathLe dst e.1 then none else some e) := by
  unfold renameEntry at h
  by_cases hex : fs.pathExists src = true
  · rw [if_pos hex] at h
    simpa using h.symm
  · rw [if_neg hex] at h
    simp at h

theorem renameEntry_get_moved {fs : FS} {src dst : Path}
    (hsd : pathLe src dst = false) (hds : pathLe dst src = false) (q : Path) :
    FS.get (fs.filterMap (fun e =>
      match stripRoot src e.1 with
      | some r => some (dst ++ r, e.2)
      | none => if pathLe dst e.1 then none else some e)) (dst ++ q) =
      fs.get (src ++ q) := by
  induction fs with
  | nil => simp [FS.get]
  | cons e fs ih =>
    cases hsr : stripRoot src e.1 with
    | some r =>
      have he1 : e.1 = src ++ r := stripRoot_eq_some hsr
      rw [List.filterMap_cons]
      simp only [hsr]
      show FS.get ((dst ++ r, e.2) :: _) (dst ++ q) = FS.get (e :: fs) (src ++ q)
      simp only [FS.get_cons]
      by_cases hrq : r = q
      · subst hrq
        simp [he1]
      · have h1 : ¬ dst ++ r = dst ++ q := by
          intro hh; exact hrq (List.append_cancel_left hh)
        have h2 : ¬ e.1 = src ++ q := by
          rw [he1]; intro hh; exact hrq (List.append_cancel_left hh)
        simp only [if_neg h1, if_neg h2]
        exact ih
    | none =>
      have hnle : pathLe src e.1 = false := by
        cases hc : pathLe src e.1 with
        | false => rfl
        | true =>
          obtain ⟨r, hr⟩ := eq_append_of_pathLe hc
          rw [hr, stripRoot_append] at hsr
          exact absurd hsr (by simp)
      by_cases hdl : pathLe dst e.1 = true
      · rw [List.filterMap_cons]
        simp only [hsr, if_pos hdl]
        have h2 : ¬ e.1 = src ++ q := by
          intro hh
          rw [hh, pathLe_append] at hnle
          exact absurd hnle (by simp)
        show _ = FS.get (e :: fs) (src ++ q)
        simp only [FS.get_cons]
        rw [if_neg h2]
        exact ih
      · rw [List.filterMap_cons]
        simp only [hsr, if_neg hdl]
        show FS.get (e :: _) (dst ++ q) = FS.get (e :: fs) (src ++ q)
        simp only [FS.get_cons]
        have h1 : ¬ e.1 = dst ++ q := by
          intro hh
          rw [hh, pathLe_append] at hdl
          exact hdl rfl
        have h2 : ¬ e.1 = src ++ q := by
          intro hh
          rw [hh, pathLe_append] at hnle
          exact absurd hnle (by simp)
        rw [if_neg h1, if_neg h2]
        exact ih

theorem renameEntry_get_kept {fs : FS} {src dst : Path} (q : Path)
    (hq1 : pathLe src q = false) (hq2 : pathLe dst q = false) :
    FS.get (fs.filterMap (fun e =>
      match stripRoot src e.1 with
      | some r => some (dst ++ r, e.2)
      | none => if pathLe dst e.1 then none else some e)) q =
      fs.get q := by
  induction fs with
  | nil => simp [FS.get]
  | cons e fs ih =>
    cases hsr : stripRoot src e.1 with
    | some r =>
      have he1 : e.1 = src ++ r := stripRoot_eq_some hsr
      rw [List.filterMap_cons]
      simp only [hsr]
      show FS.get ((dst ++ r, e.2) :: _) q = FS.get (e :: fs) q
      simp only [FS.get_cons]
      have h1 : ¬ dst ++ r = q := by
        intro hh
        rw [← hh, pathLe_append] at hq2
        exact absurd hq2 (by simp)
      have h2 : ¬ e.1 = q := by
        rw [he1]
        intro hh
        rw [← hh, pathLe_append] at hq1
        exact absurd hq1 (by simp)
      rw [if_neg h1, if_neg h2]
      exact ih
    | none =>
      by_cases hdl : pathLe dst e.1 = true
      · rw [List.filterMap_cons]
        simp only [hsr, if_pos hdl]
        have h2 : ¬ e.1 = q := by
          intro hh
          rw [hh] at hdl
          rw [hdl] at hq2
          exact absurd hq2 (by simp)
        show _ = FS.get (e :: fs) q
        simp only [FS.get_cons]
        rw [if_neg h2]
        exact ih
      · rw [List.filterMap_cons]
        simp only [hsr, if_neg hdl]
        show FS.get (e :: _) q = FS.get (e :: fs) q
        simp only [FS.get_cons]
        by_cases he : e.1 = q
        · rw [if_pos he, if_pos he]
        · rw [if_neg he, if_neg he]
          exact ih

theorem renameEntry_get_gone {fs : FS} {src dst : Path}
    (hsd : pathLe src dst = false) (hds : pathLe dst src = false) (q : Path) :
    FS.get (fs.filterMap (fun e =>
      match stripRoot src e.1 with
      | some r => some (dst ++ r, e.2)
      | none => if pathLe dst e.1 then none else some e)) (src ++ q) =
      none := by
  induction fs with
  | nil => simp [FS.get]
  | cons e fs ih =>
    cases hsr : stripRoot src e.1 with
    | some r =>
      rw [List.filterMap_cons]
      simp only [hsr]
      show FS.get ((dst ++ r, e.2) :: _) (src ++ q) = none
      simp only [FS.get_cons]
      have h1 : ¬ dst ++ r = src ++ q := by
        intro hh
        have hc := pathLe_cases_append (hh ▸ pathLe_append dst r)
        rcases hc with hc | hc
        · rw [hc] at hds; exact absurd hds (by simp)
        · have := pathLe_total_of_pathLe (pathLe_append src q)
            (by rw [← hh]; exact pathLe_append dst r)
          rcases this with h3 | h3
          · rw [h3] at hsd; exact absurd hsd (by simp)
          · rw [h3] at hds; exact absurd hds (by simp)
      rw [if_neg h1]
      exact ih
    | none =>
      have hnle : pathLe src e.1 = false := by
        cases hc : pathLe src e.1 with
        | false => rfl
        | true =>
          obtain ⟨r, hr⟩ := eq_append_of_pathLe hc
          rw [hr, stripRoot_append] at hsr
          exact absurd hsr (by simp)
      by_cases hdl : pathLe dst e.1 = true
      · rw [List.filterMap_cons]
        simp only [hsr, if_pos hdl]
        exact ih
      · rw [List.filterMap_cons]
        simp only [hsr, if_neg hdl]
        show FS.get (e :: _) (src ++ q) = none
        simp only [FS.get_cons]
        have h2 : ¬ e.1 = src ++ q := by
          intro hh
          rw [hh, pathLe_append] at hnle
          exact absurd hnle (by simp)
        rw [if_neg h2]
        exact ih

/-! ## C1 — the atomic work/final promotion of `build_rootfs` -/

theorem pathLe_root_pair_false {base : Path} {a b : String} (hab : a ≠ b)
    (q : Path) :
    pathLe (base ++ ["output", a]) ((base ++ ["output", b]) ++ q) = false := by
  have h1 : base ++ ["output", a] = (base ++ ["output"]) ++ [a] := by simp
  have h2 : base ++ ["output", b] = (base ++ ["output"]) ++ [b] := by simp
  rw [h1, h2]
  exact pathLe_ext_false hab q

theorem pathLe_root_pair_false0 {base : Path} {a b : String} (hab : a ≠ b) :
    pathLe (base ++ ["output", a]) (base ++ ["output", b]) = false := by
  have := @pathLe_root_pair_false base a b hab []
  simpa using this

theorem pathLe_sub_root_false {base : Path} {a b : String} (hab : a ≠ b)
    (q : Path) :
    pathLe ((base ++ ["output", a]) ++ q) (base ++ ["output", b]) = false := by
  cases h : pathLe ((base ++ ["output", a]) ++ q) (base ++ ["output", b]) with
  | false => rfl
  | true =>
    have h2 := pathLe_trans (pathLe_append (base ++ ["output", a]) q) h
    rw [pathLe_root_pair_false0 hab] at h2
    exact absurd h2 (by simp)

theorem sub_root_ne {base : Path} {a b : String} (hab : a ≠ b) (q : Path) :
    (base ++ ["output", a]) ++ q ≠ base ++ ["output", b] :=
  ne_of_pathLe_false (pathLe_sub_root_false hab q)

theorem root_sub_ne {base : Path} {a b : String} (hab : a ≠ b) (q : Path) :
    base ++ ["output", a] ≠ (base ++ ["output", b]) ++ q :=
  ne_of_pathLe_false (pathLe_root_pair_false hab q)

theorem root_ne {base : Path} {a b : String} (hab : a ≠ b) :
    base ++ ["output", a] ≠ base ++ ["output", b] :=
  ne_of_pathLe_false (pathLe_root_pair_false0 hab)

/-- The state after `build_rootfs`'s on-failure cleanup: the final
artifacts keep their pre-attempt contents and both work paths are gone. -/
theorem cleanup_branch_facts {base : Path} {fs0 fsP : FS}
    (hfss : ∀ q, fsP.get (finalStagingPath base ++ q) =
      fs0.get (finalStagingPath base ++ q))
    (hfo : fsP.get (finalOutputPath base) = fs0.get (finalOutputPath base))
    (hws : dirSlot (fsP.get (workStagingPath base)) = true)
    (hwo : FS.isDirAt fsP (workOutputPath base) = false) :
    (∀ q, (removeFileQuiet (removeDirAllQuiet fsP (workStagingPath base))
        (workOutputPath base)).get (finalStagingPath base ++ q) =
      fs0.get (finalStagingPath base ++ q)) ∧
    (removeFileQuiet (removeDirAllQuiet fsP (workStagingPath base))
        (workOutputPath base)).get (finalOutputPath base) =
      fs0.get (finalOutputPath base) ∧
    (removeFileQuiet (removeDirAllQuiet fsP (workStagingPath base))
        (workOutputPath base)).get (workStagingPath base) = none ∧
    (removeFileQuiet (removeDirAllQuiet fsP (workStagingPath base))
        (workOutputPath base)).get (workOutputPath base) = none := by
  unfold workStagingPath workOutputPath finalStagingPath finalOutputPath rootfsName
  unfold workStagingPath at hws
  unfold workOutputPath at hwo
  refine ⟨?_, ?_, ?_, ?_⟩
  · intro q
    rw [removeFileQuiet_get_pres
        (sub_root_ne (by decide : "rootfs-staging" ≠ "filesystem.erofs.work") q),
      removeDirAllQuiet_get_pres
        (pathLe_root_pair_false (by decide : "rootfs-staging.work" ≠ "rootfs-staging") q)]
    exact hfss q
  · rw [removeFileQuiet_get_pres
        (root_ne (by decide : "filesystem.erofs" ≠ "filesystem.erofs.work")),
      removeDirAllQuiet_get_pres
        (pathLe_root_pair_false0
          (by decide : "rootfs-staging.work" ≠ "filesystem.erofs"))]
    exact hfo
  · rw [removeFileQuiet_get_pres
        (root_ne (by decide : "rootfs-staging.work" ≠ "filesystem.erofs.work"))]
    exact removeDirAllQuiet_get_none hws
  · apply removeFileQuiet_get_none
    unfold FS.isDirAt
    rw [removeDirAllQuiet_get_pres
      (pathLe_root_pair_false0
        (by decide : "rootfs-staging.work" ≠ "filesystem.erofs.work"))]
    unfold FS.isDirAt at hwo
    exact hwo

theorem isEmpty_false_of_mem {α : Type} {a : α} {l : List α} (h : a ∈ l) :
    l.isEmpty = false := by
  cases l with
  | nil => exact absurd h (List.not_mem_nil a)
  | cons x xs => rfl

theorem ite_isEmpty_error {m : String} {L : List String}
    (hL : L.isEmpty = false) :
    ∃ e, (if L.isEmpty = true then Except.ok () else Except.error m :
      Except String Unit) = .error e := by
  rw [hL]
  exact ⟨m, by simp⟩

/-- The work-path cleaning and creation at the start of an attempt leaves
the final artifacts untouched. -/
theorem prepare_pres_final {base : Path} {fs0 fs1 : FS}
    (hmk : mkdirAll (removeFileQuiet (removeDirAllQuiet fs0 (workStagingPath base))
      (workOutputPath base)) (workStagingPath base) = .ok fs1) :
    (∀ q, fs1.get (finalStagingPath base ++ q) =
      fs0.get (finalStagingPath base ++ q)) ∧
    fs1.get (finalOutputPath base) = fs0.get (finalOutputPath base) := by
  constructor
  · intro q
    have h1 : fs1.get (finalStagingPath base ++ q) =
        (removeFileQuiet (removeDirAllQuiet fs0 (workStagingPath base))
          (workOutputPath base)).get (finalStagingPath base ++ q) :=
      mkdirAll_get_of_not_le hmk
        (pathLe_sub_root_false (by decide : "rootfs-staging" ≠ "rootfs-staging.work") q)
    have hne1 : finalStagingPath base ++ q ≠ workOutputPath base :=
      sub_root_ne (by decide : "rootfs-staging" ≠ "filesystem.erofs.work") q
    have hle1 : pathLe (workStagingPath base) (finalStagingPath base ++ q) = false :=
      pathLe_root_pair_false (by decide : "rootfs-staging.work" ≠ "rootfs-staging") q
    rw [h1, removeFileQuiet_get_pres hne1, removeDirAllQuiet_get_pres hle1]
  · have h1 : fs1.get (finalOutputPath base) =
        (removeFileQuiet (removeDirAllQuiet fs0 (workStagingPath base))
          (workOutputPath base)).get (finalOutputPath base) :=
      mkdirAll_get_of_not_le hmk
        (pathLe_root_pair_false0 (by decide : "filesystem.erofs" ≠ "rootfs-staging.work"))
    have hne1 : finalOutputPath base ≠ workOutputPath base :=
      root_ne (by decide : "filesystem.erofs" ≠ "filesystem.erofs.work")
    have hle1 : pathLe (workStagingPath base) (finalOutputPath base) = false :=
      pathLe_root_pair_false0 (by decide : "rootfs-staging.work" ≠ "filesystem.erofs")
    rw [h1, removeFileQuiet_get_pres hne1, removeDirAllQuiet_get_pres hle1]

/-- C1: the atomic work/final promotion of `build_rootfs`.  With the host
tool present, the extracted source rootfs in place, the work paths
creatable, and the two producers (`build_system` into the work staging
tree; the external EROFS producer into the work output file) writing only
under the two work paths: (1) if the component pass fails, (2) if staging
verification fails, or (3) if EROFS production fails, then `build_rootfs`
returns that error, the pre-existing final artifacts (`rootfs-staging`
subtree and `filesystem.erofs`) are exactly as before the attempt, and
neither work path exists any more; (4) only when every step including
verification succeeded are the final paths replaced, by rename, with the
produced work staging tree and work output file, and the work paths are
gone; (5) `verify_staging` rejects a staging tree missing any required
binary. -/
theorem C1_atomic_rootfs_build (vspec : VerifySpec) (base : Path)
    (buildSys createErofs : FS → FS × Option String)
    (fs0 fs1 : FS) (mkfsErofs : Bool)
    (hmkfs : mkfsErofs = true)
    (hroot1 : fs0.pathExists (base ++ ["downloads", "rootfs"]) = true)
    (hroot2 : fs0.pathExists (base ++ ["downloads", "rootfs", "bin"]) = true)
    (hmk : mkdirAll (removeFileQuiet (removeDirAllQuiet fs0 (workStagingPath base))
      (workOutputPath base)) (workStagingPath base) = .ok fs1)
    (hbsLoc : ∀ fsx q, pathLe (workStagingPath base) q = false →
      pathLe (workOutputPath base) q = false →
      ((buildSys fsx).1).get q = fsx.get q)
    (hceLoc : ∀ fsx q, pathLe (workStagingPath base) q = false →
      pathLe (workOutputPath base) q = false →
      ((createErofs fsx).1).get q = fsx.get q)
    (hbsWs : ∀ fsx, dirSlot ((buildSys fsx).1.get (workStagingPath base)) = true)
    (hbsWo : ∀ fsx, FS.isDirAt ((buildSys fsx).1) (workOutputPath base) = false)
    (hceWs : ∀ fsx, dirSlot ((createErofs fsx).1.get (workStagingPath base)) = true)
    (hceWo : ∀ fsx, FS.isDirAt ((createErofs fsx).1) (workOutputPath base) = false) :
    (∀ fs2 e, buildSys fs1 = (fs2, some e) →
      ∃ r, build_rootfs mkfsErofs vspec buildSys createErofs base fs0 = (r, some e) ∧
        (∀ q, r.get (finalStagingPath base ++ q) =
          fs0.get (finalStagingPath base ++ q)) ∧
        r.get (finalOutputPath base) = fs0.get (finalOutputPath base) ∧
        r.get (workStagingPath base) = none ∧
        r.get (workOutputPath base) = none) ∧
    (∀ fs2 e, buildSys fs1 = (fs2, none) →
      verify_staging vspec (workStagingPath base) fs2 = .error e →
      ∃ r, build_rootfs mkfsErofs vspec buildSys createErofs base fs0 = (r, some e) ∧
        (∀ q, r.get (finalStagingPath base ++ q) =
          fs0.get (finalStagingPath base ++ q)) ∧
        r.get (finalOutputPath base) = fs0.get (finalOutputPath base) ∧
        r.get (workStagingPath base) = none ∧
        r.get (workOutputPath base) = none) ∧
    (∀ fs2 fs3 e, buildSys fs1 = (fs2, none) →
      verify_staging vspec (workStagingPath base) fs2 = .ok () →
      createErofs fs2 = (fs3, some e) →
      ∃ r, build_rootfs mkfsErofs vspec buildSys createErofs base fs0 = (r, some e) ∧
        (∀ q, r.get (finalStagingPath base ++ q) =
          fs0.get (finalStagingPath base ++ q)) ∧
        r.get (finalOutputPath base) = fs0.get (finalOutputPath base) ∧
        r.get (workStagingPath base) = none ∧
        r.get (workOutputPath base) = none) ∧
    (∀ fs2 fs3, buildSys fs1 = (fs2, none) →
      verify_staging vspec (workStagingPath base) fs2 = .ok () →
      createErofs fs2 = (fs3, none) →
      fs3.pathExists (workStagingPath base) = true →
      fs3.pathExists (workOutputPath base) = true →
      ∃ r, build_rootfs mkfsErofs vspec buildSys createErofs base fs0 = (r, none) ∧
        (∀ q, r.get (finalStagingPath base ++ q) =
          fs3.get (workStagingPath base ++ q)) ∧
        r.get (finalOutputPath base) = fs3.get (workOutputPath base) ∧
        r.get (workStagingPath base) = none ∧
        r.get (workOutputPath base) = none) ∧
    (∀ fsx b, b ∈ vspec.requiredBinaries →
      fsx.pathExists (joinPath (workStagingPath base) b) = false →
      ∃ e, verify_staging vspec (workStagingPath base) fsx = .error e) := by
  subst hmkfs
  have hP := prepare_pres_final hmk
  refine ⟨?_, ?_, ?_, ?_, ?_⟩
  · -- (1) component-pass failure
    intro fs2 e hb
    have hfss2 : ∀ q, fs2.get (finalStagingPath base ++ q) =
        fs0.get (finalStagingPath base ++ q) := by
      intro q
      have hloc := hbsLoc fs1 (finalStagingPath base ++ q)
        (pathLe_root_pair_false (by decide : "rootfs-staging.work" ≠ "rootfs-staging") q)
        (pathLe_root_pair_false (by decide : "filesystem.erofs.work" ≠ "rootfs-staging") q)
      rw [hb] at hloc
      simpa [hP.1 q] using hloc
    have hfo2 : fs2.get (finalOutputPath base) = fs0.get (finalOutputPath base) := by
      have hloc := hbsLoc fs1 (finalOutputPath base)
        (pathLe_root_pair_false0 (by decide : "rootfs-staging.work" ≠ "filesystem.erofs"))
        (pathLe_root_pair_false0 (by decide : "filesystem.erofs.work" ≠ "filesystem.erofs"))
      rw [hb] at hloc
      simpa [hP.2] using hloc
    have hwsd : dirSlot (fs2.get (workStagingPath base)) = true := by
      have := hbsWs fs1
      rw [hb] at this
      simpa using this
    have hwod : FS.isDirAt fs2 (workOutputPath base) = false := by
      have := hbsWo fs1
      rw [hb] at this
      simpa using this
    obtain ⟨c1, c2, c3, c4⟩ := cleanup_branch_facts hfss2 hfo2 hwsd hwod
    refine ⟨removeFileQuiet (removeDirAllQuiet fs2 (workStagingPath base))
      (workOutputPath base), ?_, c1, c2, c3, c4⟩
    simp [build_rootfs, hroot1, hroot2, hmk, hb]
  · -- (2) verification failure
    intro fs2 e hb hv
    have hfss2 : ∀ q, fs2.get (finalStagingPath base ++ q) =
        fs0.get (finalStagingPath base ++ q) := by
      intro q
      have hloc := hbsLoc fs1 (finalStagingPath base ++ q)
        (pathLe_root_pair_false (by decide : "rootfs-staging.work" ≠ "rootfs-staging") q)
        (pathLe_root_pair_false (by decide : "filesystem.erofs.work" ≠ "rootfs-staging") q)
      rw [hb] at hloc
      simpa [hP.1 q] using hloc
    have hfo2 : fs2.get (finalOutputPath base) = fs0.get (finalOutputPath base) := by
      have hloc := hbsLoc fs1 (finalOutputPath base)
        (pathLe_root_pair_false0 (by decide : "rootfs-staging.work" ≠ "filesystem.erofs"))
        (pathLe_root_pair_false0 (by decide : "filesystem.erofs.work" ≠ "filesystem.erofs"))
      rw [hb] at hloc
      simpa [hP.2] using hloc
    have hwsd : dirSlot (fs2.get (workStagingPath base)) = true := by
      have := hbsWs fs1
      rw [hb] at this
      simpa using this
    have hwod : FS.isDirAt fs2 (workOutputPath base) = false := by
      have := hbsWo fs1
      rw [hb] at this
      simpa using this
    obtain ⟨c1, c2, c3, c4⟩ := cleanup_branch_facts hfss2 hfo2 hwsd hwod
    refine ⟨removeFileQuiet (removeDirAllQuiet fs2 (workStagingPath base))
      (workOutputPath base), ?_, c1, c2, c3, c4⟩
    simp [build_rootfs, hroot1, hroot2, hmk, hb, hv]
  · -- (3) EROFS-production failure
    intro fs2 fs3 e hb hv hce
    have hfss2 : ∀ q, fs2.get (finalStagingPath base ++ q) =
        fs0.get (finalStagingPath base ++ q) := by
      intro q
      have hloc := hbsLoc fs1 (finalStagingPath base ++ q)
        (pathLe_root_pair_false (by decide : "rootfs-staging.work" ≠ "rootfs-staging") q)
        (pathLe_root_pair_false (by decide : "filesystem.erofs.work" ≠ "rootfs-staging") q)
      rw [hb] at hloc
      simpa [hP.1 q] using hloc
    have hfo2 : fs2.get (finalOutputPath base) = fs0.get (finalOutputPath base) := by
      have hloc := hbsLoc fs1 (finalOutputPath base)
        (pathLe_root_pair_false0 (by decide : "rootfs-staging.work" ≠ "filesystem.erofs"))
        (pathLe_root_pair_false0 (by decide : "filesystem.erofs.work" ≠ "filesystem.erofs"))
      rw [hb] at hloc
      simpa [hP.2] using hloc
    have hfss3 : ∀ q, fs3.get (finalStagingPath base ++ q) =
        fs0.get (finalStagingPath base ++ q) := by
      intro q
      have hloc := hceLoc fs2 (finalStagingPath base ++ q)
        (pathLe_root_pair_false (by decide : "rootfs-staging.work" ≠ "rootfs-staging") q)
        (pathLe_root_pair_false (by decide : "filesystem.erofs.work" ≠ "rootfs-staging") q)
      rw [hce] at hloc
      simpa [hfss2 q] using hloc
    have hfo3 : fs3.get (finalOutputPath base) = fs0.get (finalOutputPath base) := by
      have hloc := hceLoc fs2 (finalOutputPath base)
        (pathLe_root_pair_false0 (by decide : "rootfs-staging.work" ≠ "filesystem.erofs"))
        (pathLe_root_pair_false0 (by decide : "filesystem.erofs.work" ≠ "filesystem.erofs"))
      rw [hce] at hloc
      simpa [hfo2] using hloc
    have hwsd : dirSlot (fs3.get (workStagingPath base)) = true := by
      have := hceWs fs2
      rw [hce] at this
      simpa using this
    have hwod : FS.isDirAt fs3 (workOutputPath base) = false := by
      have := hceWo fs2
      rw [hce] at this
      simpa using this
    obtain ⟨c1, c2, c3, c4⟩ := cleanup_branch_facts hfss3 hfo3 hwsd hwod
    refine ⟨removeFileQuiet (removeDirAllQuiet fs3 (workStagingPath base))
      (workOutputPath base), ?_, c1, c2, c3, c4⟩
    simp [build_rootfs, hroot1, hroot2, hmk, hb, hv, hce]
  · -- (4) full success: promotion by rename
    intro fs2 fs3 hb hv hce hws3 hwo3
    have hget4ws : (removeFileQuiet (removeDirAllQuiet fs3 (finalStagingPath base))
        (finalOutputPath base)).get (workStagingPath base) =
        fs3.get (workStagingPath base) := by
      have hne1 : workStagingPath base ≠ finalOutputPath base :=
        root_ne (by decide : "rootfs-staging.work" ≠ "filesystem.erofs")
      have hle1 : pathLe (finalStagingPath base) (workStagingPath base) = false :=
        pathLe_root_pair_false0 (by decide : "rootfs-staging" ≠ "rootfs-staging.work")
      rw [removeFileQuiet_get_pres hne1, removeDirAllQuiet_get_pres hle1]
    have hget4wsq : ∀ q, (removeFileQuiet (removeDirAllQuiet fs3 (finalStagingPath base))
        (finalOutputPath base)).get (workStagingPath base ++ q) =
        fs3.get (workStagingPath base ++ q) := by
      intro q
      have hne1 : workStagingPath base ++ q ≠ finalOutputPath base :=
        sub_root_ne (by decide : "rootfs-staging.work" ≠ "filesystem.erofs") q
      have hle1 : pathLe (finalStagingPath base) (workStagingPath base ++ q) = false :=
        pathLe_root_pair_false (by decide : "rootfs-staging" ≠ "rootfs-staging.work") q
      rw [removeFileQuiet_get_pres hne1, removeDirAllQuiet_get_pres hle1]
    have hget4wo : (removeFileQuiet (removeDirAllQuiet fs3 (finalStagingPath base))
        (finalOutputPath base)).get (workOutputPath base) =
        fs3.get (workOutputPath base) := by
      have hne1 : workOutputPath base ≠ finalOutputPath base :=
        root_ne (by decide : "filesystem.erofs.work" ≠ "filesystem.erofs")
      have hle1 : pathLe (finalStagingPath base) (workOutputPath base) = false :=
        pathLe_root_pair_false0 (by decide : "rootfs-staging" ≠ "filesystem.erofs.work")
      rw [removeFileQuiet_get_pres hne1, removeDirAllQuiet_get_pres hle1]
    have hex4 : (removeFileQuiet (removeDirAllQuiet fs3 (finalStagingPath base))
        (finalOutputPath base)).pathExists (workStagingPath base) = true := by
      unfold FS.pathExists at hws3 ⊢
      rw [hget4ws]
      exact hws3
    obtain ⟨fs5, hren1⟩ : ∃ fs5,
        renameEntry (removeFileQuiet (removeDirAllQuiet fs3 (finalStagingPath base))
          (finalOutputPath base)) (workStagingPath base) (finalStagingPath base) =
          .ok fs5 := by
      unfold renameEntry
      rw [if_pos hex4]
      exact ⟨_, rfl⟩
    have hsh1 := renameEntry_shape hren1
    have hsd1 : pathLe (workStagingPath base) (finalStagingPath base) = false :=
      pathLe_root_pair_false0 (by decide : "rootfs-staging.work" ≠ "rootfs-staging")
    have hds1 : pathLe (finalStagingPath base) (workStagingPath base) = false :=
      pathLe_root_pair_false0 (by decide : "rootfs-staging" ≠ "rootfs-staging.work")
    have hget5wo : fs5.get (workOutputPath base) = fs3.get (workOutputPath base) := by
      rw [hsh1]
      have hq1 : pathLe (workStagingPath base) (workOutputPath base) = false :=
        pathLe_root_pair_false0 (by decide : "rootfs-staging.work" ≠ "filesystem.erofs.work")
      have hq2 : pathLe (finalStagingPath base) (workOutputPath base) = false :=
        pathLe_root_pair_false0 (by decide : "rootfs-staging" ≠ "filesystem.erofs.work")
      rw [renameEntry_get_kept (workOutputPath base) hq1 hq2, hget4wo]
    have hex5 : fs5.pathExists (workOutputPath base) = true := by
      unfold FS.pathExists at hwo3 ⊢
      rw [hget5wo]
      exact hwo3
    obtain ⟨fs6, hren2⟩ : ∃ fs6,
        renameEntry fs5 (workOutputPath base) (finalOutputPath base) = .ok fs6 := by
      unfold renameEntry
      rw [if_pos hex5]
      exact ⟨_, rfl⟩
    have hsh2 := renameEntry_shape hren2
    have hsd2 : pathLe (workOutputPath base) (finalOutputPath base) = false :=
      pathLe_root_pair_false0 (by decide : "filesystem.erofs.work" ≠ "filesystem.erofs")
    have hds2 : pathLe (finalOutputPath base) (workOutputPath base) = false :=
      pathLe_root_pair_false0 (by decide : "filesystem.erofs" ≠ "filesystem.erofs.work")
    refine ⟨fs6, ?_, ?_, ?_, ?_, ?_⟩
    · simp [build_rootfs, hroot1, hroot2, hmk, hb, hv, hce, hren1, hren2]
    · intro q
      rw [hsh2]
      have hq1 : pathLe (workOutputPath base) (finalStagingPath base ++ q) = false :=
        pathLe_root_pair_false (by decide : "filesystem.erofs.work" ≠ "rootfs-staging") q
      have hq2 : pathLe (finalOutputPath base) (finalStagingPath base ++ q) = false :=
        pathLe_root_pair_false (by decide : "filesystem.erofs" ≠ "rootfs-staging") q
      rw [renameEntry_get_kept (finalStagingPath base ++ q) hq1 hq2, hsh1,
        renameEntry_get_moved hsd1 hds1 q]
      exact hget4wsq q
    · have hm2 := @renameEntry_get_moved fs5 (workOutputPath base)
        (finalOutputPath base) hsd2 hds2 []
      rw [hsh2]
      have h1 : (finalOutputPath base) ++ ([] : Path) = finalOutputPath base := by simp
      have h2 : (workOutputPath base) ++ ([] : Path) = workOutputPath base := by simp
      rw [h1, h2] at hm2
      rw [hm2, hget5wo]
    · rw [hsh2]
      have hq1 : pathLe (workOutputPath base) (workStagingPath base) = false :=
        pathLe_root_pair_false0 (by decide : "filesystem.erofs.work" ≠ "rootfs-staging.work")
      have hq2 : pathLe (finalOutputPath base) (workStagingPath base) = false :=
        pathLe_root_pair_false0 (by decide : "filesystem.erofs" ≠ "rootfs-staging.work")
      rw [renameEntry_get_kept (workStagingPath base) hq1 hq2, hsh1]
      have hg := @renameEntry_get_gone
        (removeFileQuiet (removeDirAllQuiet fs3 (finalStagingPath base))
          (finalOutputPath base)) (workStagingPath base) (finalStagingPath base)
        hsd1 hds1 []
      have h2 : (workStagingPath base) ++ ([] : Path) = workStagingPath base := by simp
      rw [h2] at hg
      exact hg
    · rw [hsh2]
      have hg := @renameEntry_get_gone fs5 (workOutputPath base)
        (finalOutputPath base) hsd2 hds2 []
      have h2 : (workOutputPath base) ++ ([] : Path) = workOutputPath base := by simp
      rw [h2] at hg
      exact hg
  · -- (5) verification rejects a missing required binary
    intro fsx b hbmem hmiss
    unfold verify_staging
    dsimp only
    have hmem2 : b ∈ vspec.requiredBinaries.filter
        (fun bb => fsx.pathExists (joinPath (workStagingPath base) bb) = false) := by
      rw [List.mem_filter]
      exact ⟨hbmem, by simp [hmiss]⟩
    exact ite_isEmpty_error (isEmpty_false_of_mem (List.mem_append_left _
      (List.mem_append_left _ (List.mem_append_left _
        (List.mem_append_left _ hmem2)))))

/-- Witness for C1: at a concrete filesystem whose component pass fails
with "boom", the run returns that error, the pre-existing final artifacts
are untouched, and both work paths are gone. -/
theorem C1_witness :
    ∃ r, build_rootfs true ⟨["bin/sh"], [], [], "etc/runlevels", "lib/modules"⟩
      (fun fsx => (FS.set (FS.set fsx ["output", "filesystem.erofs.work"]
          (Node.file "" 420)) ["output", "rootfs-staging.work"]
          (Node.dir 493), some "boom"))
      (fun fsx => (FS.set (FS.set fsx ["output", "filesystem.erofs.work"]
          (Node.file "" 420)) ["output", "rootfs-staging.work"]
          (Node.dir 493), none))
      []
      [(["downloads"], Node.dir 493), (["downloads", "rootfs"], Node.dir 493),
        (["downloads", "rootfs", "bin"], Node.dir 493)] = (r, some "boom") ∧
      (∀ q, r.get (finalStagingPath [] ++ q) =
        FS.get [(["downloads"], Node.dir 493),
          (["downloads", "rootfs"], Node.dir 493),
          (["downloads", "rootfs", "bin"], Node.dir 493)]
          (finalStagingPath [] ++ q)) ∧
      r.get (finalOutputPath []) =
        FS.get [(["downloads"], Node.dir 493),
          (["downloads", "rootfs"], Node.dir 493),
          (["downloads", "rootfs", "bin"], Node.dir 493)]
          (finalOutputPath []) ∧
      r.get (workStagingPath []) = none ∧
      r.get (workOutputPath []) = none := by
  have hLoc : ∀ (fsx : FS) (q : Path),
      pathLe (workStagingPath []) q = false →
      pathLe (workOutputPath []) q = false →
      (FS.set (FS.set fsx ["output", "filesystem.erofs.work"]
        (Node.file "" 420)) ["output", "rootfs-staging.work"]
        (Node.dir 493)).get q = fsx.get q := by
    intro fsx q h1 h2
    have hne1 : ¬ (q = ["output", "rootfs-staging.work"]) :=
      Ne.symm (ne_of_pathLe_false h1)
    have hne2 : ¬ (q = ["output", "filesystem.erofs.work"]) :=
      Ne.symm (ne_of_pathLe_false h2)
    rw [FS.get_set, if_neg hne1, FS.get_set, if_neg hne2]
  have hWs : ∀ fsx : FS,
      dirSlot ((FS.set (FS.set fsx ["output", "filesystem.erofs.work"]
        (Node.file "" 420)) ["output", "rootfs-staging.work"]
        (Node.dir 493)).get (workStagingPath [])) = true := by
    intro fsx
    have hps : workStagingPath ([] : Path) = ["output", "rootfs-staging.work"] := rfl
    rw [FS.get_set, if_pos hps]
    rfl
  have hWo : ∀ fsx : FS,
      FS.isDirAt (FS.set (FS.set fsx ["output", "filesystem.erofs.work"]
        (Node.file "" 420)) ["output", "rootfs-staging.work"]
        (Node.dir 493)) (workOutputPath []) = false := by
    intro fsx
    have hpo : workOutputPath ([] : Path) = ["output", "filesystem.erofs.work"] := rfl
    unfold FS.isDirAt
    rw [FS.get_set,
      if_neg (by decide :
        ¬ (workOutputPath [] = ["output", "rootfs-staging.work"])),
      FS.get_set, if_pos hpo]
  have h := C1_atomic_rootfs_build
    ⟨["bin/sh"], [], [], "etc/runlevels", "lib/modules"⟩ []
    (fun fsx => (FS.set (FS.set fsx ["output", "filesystem.erofs.work"]
        (Node.file "" 420)) ["output", "rootfs-staging.work"]
        (Node.dir 493), some "boom"))
    (fun fsx => (FS.set (FS.set fsx ["output", "filesystem.erofs.work"]
        (Node.file "" 420)) ["output", "rootfs-staging.work"]
        (Node.dir 493), none))
    [(["downloads"], Node.dir 493), (["downloads", "rootfs"], Node.dir 493),
      (["downloads", "rootfs", "bin"], Node.dir 493)]
    [(["output", "rootfs-staging.work"], Node.dir 493),
      (["output"], Node.dir 493),
      (["downloads"], Node.dir 493), (["downloads", "rootfs"], Node.dir 493),
      (["downloads", "rootfs", "bin"], Node.dir 493)]
    true rfl (by rfl) (by rfl) (by rfl)
    hLoc hLoc hWs hWo hWs hWo
  exact h.1 _ "boom" rfl

/-! ## C5 — the executor is fail-fast -/

/-- C5: the executor is fail-fast.  (1) The operation loop processes a
list strictly sequentially: running `xs ++ ys` runs `xs` first and
continues into `ys` exactly when `xs` produced no error, from the state
`xs` left behind.  (2) A single succeeding operation contributes its new
state and no error.  (3) If every operation of `pre` succeeded and `op`
then fails with cause `e`, the whole component run returns immediately —
the operations of `post` contribute nothing, whatever they are — with an
error carrying the component's name, the failing operation, and the
cause. -/
theorem C5_executor_fail_fast (ext : Externals) (ctx : BuildContext)
    (name : String) :
    (∀ xs ys fs, execOps ext ctx name (xs ++ ys) fs =
      (match execOps ext ctx name xs fs with
        | (fs1, none) => execOps ext ctx name ys fs1
        | r => r)) ∧
    (∀ op fs fs1, execute_op ext ctx op fs = .ok fs1 →
      execOps ext ctx name [op] fs = (fs1, none)) ∧
    (∀ pre op post fs e ph,
      (execOps ext ctx name pre fs).2 = none →
      execute_op ext ctx op (execOps ext ctx name pre fs).1 = .error e →
      execute ext ctx ⟨name, ph, pre ++ op :: post⟩ fs =
        ((execOps ext ctx name pre fs).1, some ⟨name, op, e⟩)) := by
  have comp : ∀ xs ys fs, execOps ext ctx name (xs ++ ys) fs =
      (match execOps ext ctx name xs fs with
        | (fs1, none) => execOps ext ctx name ys fs1
        | r => r) := by
    intro xs
    induction xs with
    | nil => intro ys fs; simp [execOps]
    | cons op xs ih =>
      intro ys fs
      simp only [List.cons_append, execOps]
      cases he : execute_op ext ctx op fs with
      | ok fs1 => exact ih ys fs1
      | error e => rfl
  refine ⟨comp, ?_, ?_⟩
  · intro op fs fs1 h
    simp [execOps, h]
  · intro pre op post fs e ph hpre hop
    unfold execute
    simp only []
    rw [comp pre (op :: post) fs]
    cases hr : execOps ext ctx name pre fs with
    | mk fs1 err =>
      rw [hr] at hpre hop
      simp at hpre
      subst hpre
      simp only []
      rw [execOps, hop]

/-- C5 witness: a two-operation prefix succeeds, a `CopyFile` whose source
is missing fails, and the run stops there with the component name and the
failing operation in the error — the trailing operation is never
reflected in the outcome. -/
theorem C5_witness :
    ((execOps ⟨fun _ => .spawnFail, fun _ _ _ => .error "x", fun _ _ => .error "x"⟩
        ⟨["src"], ["stg"], ["base"], ["out"]⟩ "network" [.Dir "etc"] []).2 = none) ∧
    (execute_op ⟨fun _ => .spawnFail, fun _ _ _ => .error "x", fun _ _ => .error "x"⟩
        ⟨["src"], ["stg"], ["base"], ["out"]⟩ (.CopyFile "missing.txt")
        (execOps ⟨fun _ => .spawnFail, fun _ _ _ => .error "x", fun _ _ => .error "x"⟩
          ⟨["src"], ["stg"], ["base"], ["out"]⟩ "network" [.Dir "etc"] []).1 =
      .error "file not found: src/missing.txt") ∧
    (execute ⟨fun _ => .spawnFail, fun _ _ _ => .error "x", fun _ _ => .error "x"⟩
        ⟨["src"], ["stg"], ["base"], ["out"]⟩
        ⟨"network", .Services, [.Dir "etc", .CopyFile "missing.txt", .Dir "never"]⟩ [] =
      ((execOps ⟨fun _ => .spawnFail, fun _ _ _ => .error "x", fun _ _ => .error "x"⟩
          ⟨["src"], ["stg"], ["base"], ["out"]⟩ "network" [.Dir "etc"] []).1,
        some ⟨"network", .CopyFile "missing.txt", "file not found: src/missing.txt"⟩)) := by
  refine ⟨by decide, by rfl, ?_⟩
  exact (C5_executor_fail_fast
    ⟨fun _ => .spawnFail, fun _ _ _ => .error "x", fun _ _ => .error "x"⟩
    ⟨["src"], ["stg"], ["base"], ["out"]⟩ "network").2.2
    [.Dir "etc"] (.CopyFile "missing.txt") [.Dir "never"] [] "file not found: src/missing.txt"
    .Services (by decide) (by rfl)

/-- C10 witness: a concrete staging tree where the link path is occupied
by a symlink with a *wrong* target; the operation succeeds and leaves it
untouched. -/
theorem C10_witness :
    (dirsOk [(["stg", "etc", "runlevels", "default", "sshd"], Node.symlink "/etc/init.d/old")]
        (joinPath ((["stg"] : Path) ++ ["etc", "runlevels"]) "default") = true) ∧
    (splitPath "sshd" ≠ []) ∧
    (∃ fs1, enable_openrc_service ⟨["src"], ["stg"], ["base"], ["out"]⟩
        [(["stg", "etc", "runlevels", "default", "sshd"], Node.symlink "/etc/init.d/old")]
        "sshd" "default" = .ok fs1 ∧
      fs1.get (joinPath (joinPath ((["stg"] : Path) ++ ["etc", "runlevels"]) "default") "sshd") =
        some (.symlink "/etc/init.d/old")) := by
  refine ⟨by decide, by decide, ?_⟩
  exact (C10_openrc_enable_never_overwrites ⟨["src"], ["stg"], ["base"], ["out"]⟩
    [(["stg", "etc", "runlevels", "default", "sshd"], Node.symlink "/etc/init.d/old")]
    "sshd" "default" (by decide) (by decide)).1 (.symlink "/etc/init.d/old") (by decide)

/-- C3: the rebuild decision fails open — `rootfs_needs_rebuild` (and
likewise `initramfs_needs_rebuild`) returns `true` whenever the protected
artifact is absent, the current input hash cannot be computed, or the
recorded sidecar hash is missing or unreadable; it returns `false` (skip)
exactly when the artifact exists and the recorded digest equals the
freshly computed digest over the declared input list. -/
theorem C3_needs_rebuild_fails_open (digest : List String → String)
    (base : Path) (fs : FS) :
    (rootfs_needs_rebuild digest base fs = false ↔
      (fs.pathExists (base ++ ["output", rootfsName]) = true ∧
        ∃ h, hash_files digest fs (rootfsInputs base) = some h ∧
          read_cached_hash fs (rootfsHashFile base) = some h)) ∧
    (initramfs_needs_rebuild digest base fs = false ↔
      (fs.pathExists (base ++ ["output", initramfsLiveOutput]) = true ∧
        ∃ h, hash_files digest fs (initramfsInputs base) = some h ∧
          read_cached_hash fs (initramfsHashFile base) = some h)) := by
  constructor
  · unfold rootfs_needs_rebuild
    by_cases hex : fs.pathExists (base ++ ["output", rootfsName]) = true
    · cases hh : hash_files digest fs (rootfsInputs base) with
      | none => simp [hex, hh]
      | some h =>
        unfold cacheNeedsRebuild
        cases hr : read_cached_hash fs (rootfsHashFile base) with
        | none => simp [hex, hh, hr]
        | some rec' =>
          by_cases heq : rec' = h
          · subst heq; simp [hex, hh, hr]
          · simp [hex, hh, hr, heq]
    · simp at hex
      simp [hex]
  · unfold initramfs_needs_rebuild
    by_cases hex : fs.pathExists (base ++ ["output", initramfsLiveOutput]) = true
    · cases hh : hash_files digest fs (initramfsInputs base) with
      | none => simp [hex, hh]
      | some h =>
        unfold cacheNeedsRebuild
        cases hr : read_cached_hash fs (initramfsHashFile base) with
        | none => simp [hex, hh, hr]
        | some rec' =>
          by_cases heq : rec' = h
          · subst heq; simp [hex, hh, hr]
          · simp [hex, hh, hr, heq]
    · simp at hex
      simp [hex]

/-- C4: `iso_needs_rebuild` implements the secondary modification-time
rule — it returns `true` iff the ISO is missing, or one of its three
upstream artifacts (rootfs image, live initramfs, kernel vmlinuz) is
missing, or one of them has a modification time newer than the ISO's; in
every other case it returns `false`. -/
theorem C4_iso_mtime_rule (isoName : String) (base : Path) (m : MtimeFS) :
    iso_needs_rebuild isoName base m = true ↔
      (mtExists m (base ++ ["output", isoName]) = false ∨
        mtExists m (base ++ ["output", rootfsName]) = false ∨
        mtExists m (base ++ ["output", initramfsLiveOutput]) = false ∨
        mtExists m (base ++ ["output", "staging", "boot", "vmlinuz"]) = false ∨
        is_newer m (base ++ ["output", rootfsName])
          (base ++ ["output", isoName]) = true ∨
        is_newer m (base ++ ["output", initramfsLiveOutput])
          (base ++ ["output", isoName]) = true ∨
        is_newer m (base ++ ["output", "staging", "boot", "vmlinuz"])
          (base ++ ["output", isoName]) = true) := by
  unfold iso_needs_rebuild
  by_cases hiso : mtExists m (base ++ ["output", isoName]) = false
  · simp [hiso]
  · simp only [Bool.not_eq_false] at hiso
    by_cases h1 : mtExists m (base ++ ["output", rootfsName]) <;>
    by_cases h2 : mtExists m (base ++ ["output", initramfsLiveOutput]) <;>
    by_cases h3 : mtExists m (base ++ ["output", "staging", "boot", "vmlinuz"]) <;>
    by_cases h4 : is_newer m (base ++ ["output", rootfsName]) (base ++ ["output", isoName]) <;>
    by_cases h5 : is_newer m (base ++ ["output", initramfsLiveOutput]) (base ++ ["output", isoName]) <;>
    by_cases h6 : is_newer m (base ++ ["output", "staging", "boot", "vmlinuz"]) (base ++ ["output", isoName]) <;>
    simp [hiso, h1, h2, h3, h4, h5, h6]

/-! ## C9 — determinism of the registry pass across staging locations -/

theorem pathLe_append_cancel (s a b : Path) :
    pathLe (s ++ a) (s ++ b) = pathLe a b := by
  induction s with
  | nil => rfl
  | cons c cs ih => simp [pathLe, ih]

/-- An incomparable pair stays incomparable below the right root. -/
theorem pathLe_incomp_ext {u S : Path} (h1 : pathLe u S = false)
    (h2 : pathLe S u = false) (x : Path) :
    pathLe u (S ++ x) = false := by
  cases h : pathLe u (S ++ x) with
  | false => rfl
  | true =>
    rcases pathLe_cases_append h with hc | hc
    · rw [h1] at hc; exact absurd hc (by simp)
    · rw [h2] at hc; exact absurd hc (by simp)

/-- A path inside the source tree never coincides with a staging path. -/
theorem src_ne_staging {u S : Path} (h1 : pathLe u S = false)
    (h2 : pathLe S u = false) {p : Path} (x : Path) (hp : pathLe u p = true) :
    p ≠ S ++ x := by
  intro hEq
  subst hEq
  have hfalse := pathLe_incomp_ext h1 h2 x
  rw [hp] at hfalse
  exact absurd hfalse (by simp)

/-- A strict ancestor of the staging root is not a staging path. -/
theorem anc_ne_staging {S : Path} {n : Nat} (hn : n < S.length) (x : Path) :
    S.take n ≠ S ++ x := by
  intro h
  have hl := congrArg List.length h
  simp [List.length_take] at hl
  omega

theorem Sep.ne1 {src S1 S2 : Path} (sep : Sep src S1 S2) : S1 ≠ [] := by
  intro h
  subst h
  have := sep.b1
  simp [pathLe] at this

theorem Sep.ne2 {src S1 S2 : Path} (sep : Sep src S1 S2) : S2 ≠ [] := by
  intro h
  subst h
  have := sep.b2
  simp [pathLe] at this

theorem srcEntries_cons (src : Path) (e : Path × Node) (fs : FS) :
    srcEntries src (e :: fs) =
      if pathLe src e.1 then e :: srcEntries src fs else srcEntries src fs := by
  unfold srcEntries
  rw [List.filter_cons]

/-- `get` at a key satisfying the filter predicate reads only the filtered
entries. -/
theorem get_filter_key {pr : Path → Bool} {p : Path} (hp : pr p = true) :
    ∀ fs : FS, FS.get (fs.filter (fun e => pr e.1)) p = fs.get p := by
  intro fs
  induction fs with
  | nil => rfl
  | cons e fs ih =>
    rw [List.filter_cons]
    by_cases he : pr e.1 = true
    · rw [if_pos (by simp [he]), FS.get_cons, FS.get_cons]
      by_cases hq : e.1 = p <;> simp [hq, ih]
    · have hne : e.1 ≠ p := by
        intro hh
        rw [hh, hp] at he
        exact he rfl
      rw [if_neg (by simpa using he), FS.get_cons, if_neg hne]
      exact ih

/-- `get` at a source path reads only the source entries. -/
theorem get_srcEntries {src p : Path} (hp : pathLe src p = true) (fs : FS) :
    fs.get p = FS.get (srcEntries src fs) p :=
  (get_filter_key hp fs).symm

theorem StInv_src_get {src S1 S2 : Path} {fsA fsB : FS}
    (h : StInv src S1 S2 fsA fsB) (s : Path) :
    fsA.get (src ++ s) = fsB.get (src ++ s) := by
  rw [get_srcEntries (pathLe_append src s), h.1,
    ← get_srcEntries (pathLe_append src s)]

theorem srcEntries_eraseKey {src k : Path} (hk : pathLe src k = false)
    (fs : FS) : srcEntries src (fs.eraseKey k) = srcEntries src fs := by
  induction fs with
  | nil => rfl
  | cons e fs ih =>
    rw [show FS.eraseKey (e :: fs) k =
      if e.1 = k then FS.eraseKey fs k else e :: FS.eraseKey fs k from rfl]
    by_cases he : e.1 = k
    · rw [if_pos he, ih, srcEntries_cons, if_neg (by simp [he, hk])]
    · rw [if_neg he, srcEntries_cons, srcEntries_cons]
      by_cases hp : pathLe src e.1 = true
      · rw [if_pos (by simp [hp]), if_pos (by simp [hp]), ih]
      · rw [if_neg (by simpa using hp), if_neg (by simpa using hp)]
        exact ih

theorem srcEntries_set {src k : Path} (hk : pathLe src k = false)
    (fs : FS) (n : Node) :
    srcEntries src (fs.set k n) = srcEntries src fs := by
  unfold FS.set
  rw [srcEntries_cons, if_neg (by simp [hk]), srcEntries_eraseKey hk]

theorem srcEntries_dropUnder {src k : Path} (h1 : pathLe src k = false)
    (h2 : pathLe k src = false) (fs : FS) :
    srcEntries src (fs.dropUnder k) = srcEntries src fs := by
  induction fs with
  | nil => rfl
  | cons e fs ih =>
    rw [show FS.dropUnder (e :: fs) k =
      if pathLe k e.1 then FS.dropUnder fs k else e :: FS.dropUnder fs k from rfl]
    by_cases he : pathLe k e.1 = true
    · have hf : ¬ (pathLe src e.1 = true) := by
        intro hsrc
        rcases pathLe_total_of_pathLe hsrc he with hc | hc
        · rw [h1] at hc; exact absurd hc (by simp)
        · rw [h2] at hc; exact absurd hc (by simp)
      rw [if_pos (by simp [he]), ih, srcEntries_cons, if_neg hf]
    · rw [if_neg (by simpa using he), srcEntries_cons, srcEntries_cons]
      by_cases hp : pathLe src e.1 = true
      · rw [if_pos (by simp [hp]), if_pos (by simp [hp]), ih]
      · rw [if_neg (by simpa using hp), if_neg (by simpa using hp)]
        exact ih

theorem StInv_set {src S1 S2 : Path} {fsA fsB : FS} (sep : Sep src S1 S2)
    (h : StInv src S1 S2 fsA fsB) (x : Path) (n : Node) :
    StInv src S1 S2 (fsA.set (S1 ++ x) n) (fsB.set (S2 ++ x) n) := by
  obtain ⟨h1, h2⟩ := h
  constructor
  · rw [srcEntries_set (pathLe_incomp_ext sep.a1 sep.b1 x),
      srcEntries_set (pathLe_incomp_ext sep.a2 sep.b2 x), h1]
  · intro q
    rw [FS.get_set, FS.get_set]
    by_cases hq : q = x
    · subst hq
      rw [if_pos rfl, if_pos rfl]
    · have hne1 : ¬ (S1 ++ q = S1 ++ x) := fun hh => hq (List.append_cancel_left hh)
      have hne2 : ¬ (S2 ++ q = S2 ++ x) := fun hh => hq (List.append_cancel_left hh)
      rw [if_neg hne1, if_neg hne2]
      exact h2 q

theorem StInv_erase {src S1 S2 : Path} {fsA fsB : FS} (sep : Sep src S1 S2)
    (h : StInv src S1 S2 fsA fsB) (x : Path) :
    StInv src S1 S2 (fsA.eraseKey (S1 ++ x)) (fsB.eraseKey (S2 ++ x)) := by
  obtain ⟨h1, h2⟩ := h
  constructor
  · rw [srcEntries_eraseKey (pathLe_incomp_ext sep.a1 sep.b1 x),
      srcEntries_eraseKey (pathLe_incomp_ext sep.a2 sep.b2 x), h1]
  · intro q
    rw [FS.get_eraseKey, FS.get_eraseKey]
    by_cases hq : q = x
    · subst hq
      rw [if_pos rfl, if_pos rfl]
    · have hne1 : ¬ (S1 ++ q = S1 ++ x) := fun hh => hq (List.append_cancel_left hh)
      have hne2 : ¬ (S2 ++ q = S2 ++ x) := fun hh => hq (List.append_cancel_left hh)
      rw [if_neg hne1, if_neg hne2]
      exact h2 q

theorem isDirAt_congr {fs1 fs2 : FS} {p : Path}
    (h : fs1.get p = fs2.get p) : FS.isDirAt fs1 p = FS.isDirAt fs2 p := by
  unfold FS.isDirAt
  rw [h]

theorem ancOk_of_get_eq {fsN fs : FS} {S : Path}
    (hg : ∀ n, 0 < n → n < S.length → fsN.get (S.take n) = fs.get (S.take n))
    (h : ancOk fs S) : ancOk fsN S := by
  intro n hn0 hn1
  rw [isDirAt_congr (hg n hn0 hn1)]
  exact h n hn0 hn1

theorem ancOk_set {fs : FS} {S : Path} (h : ancOk fs S) (x : Path) (n : Node) :
    ancOk (fs.set (S ++ x) n) S := by
  refine ancOk_of_get_eq (fun k hk0 hk1 => ?_) h
  rw [FS.get_set, if_neg (anc_ne_staging hk1 x)]

theorem ancOk_erase {fs : FS} {S : Path} (h : ancOk fs S) (x : Path) :
    ancOk (fs.eraseKey (S ++ x)) S := by
  refine ancOk_of_get_eq (fun k hk0 hk1 => ?_) h
  rw [FS.get_eraseKey, if_neg (anc_ne_staging hk1 x)]

theorem lock_fsWrite {src S1 S2 : Path} {fsA fsB : FS} (sep : Sep src S1 S2)
    (h : StInv src S1 S2 fsA fsB) (hA : ancOk fsA S1) (hB : ancOk fsB S2)
    (x : Path) (content : String) :
    ExLock src S1 S2 (fsWrite fsA (S1 ++ x) content)
      (fsWrite fsB (S2 ++ x) content) := by
  unfold fsWrite
  rw [← h.2 x]
  cases hg : fsA.get (S1 ++ x) with
  | none => exact ⟨StInv_set sep h x _, ancOk_set hA x _, ancOk_set hB x _⟩
  | some n =>
    cases n with
    | file c m => exact ⟨StInv_set sep h x _, ancOk_set hA x _, ancOk_set hB x _⟩
    | symlink t => exact rfl
    | dir m => exact rfl

theorem lock_appendToFile {src S1 S2 : Path} {fsA fsB : FS}
    (sep : Sep src S1 S2) (h : StInv src S1 S2 fsA fsB)
    (hA : ancOk fsA S1) (hB : ancOk fsB S2) (x : Path) (s : String) :
    ExLock src S1 S2 (appendToFile fsA (S1 ++ x) s)
      (appendToFile fsB (S2 ++ x) s) := by
  unfold appendToFile
  rw [← h.2 x]
  cases hg : fsA.get (S1 ++ x) with
  | none => exact ⟨StInv_set sep h x _, ancOk_set hA x _, ancOk_set hB x _⟩
  | some n =>
    cases n with
    | file c m => exact ⟨StInv_set sep h x _, ancOk_set hA x _, ancOk_set hB x _⟩
    | symlink t => exact rfl
    | dir m => exact rfl

theorem lock_setPermissions {src S1 S2 : Path} {fsA fsB : FS}
    (sep : Sep src S1 S2) (h : StInv src S1 S2 fsA fsB)
    (hA : ancOk fsA S1) (hB : ancOk fsB S2) (x : Path) (mode : Nat) :
    ExLock src S1 S2 (setPermissions fsA (S1 ++ x) mode)
      (setPermissions fsB (S2 ++ x) mode) := by
  unfold setPermissions
  rw [← h.2 x]
  cases hg : fsA.get (S1 ++ x) with
  | none => exact rfl
  | some n =>
    cases n with
    | file c m => exact ⟨StInv_set sep h x _, ancOk_set hA x _, ancOk_set hB x _⟩
    | symlink t => exact rfl
    | dir m => exact ⟨StInv_set sep h x _, ancOk_set hA x _, ancOk_set hB x _⟩

theorem lock_makeExecutable {src S1 S2 : Path} {fsA fsB : FS}
    (sep : Sep src S1 S2) (h : StInv src S1 S2 fsA fsB)
    (hA : ancOk fsA S1) (hB : ancOk fsB S2) (x : Path) :
    ExLock src S1 S2 (makeExecutable fsA (S1 ++ x))
      (makeExecutable fsB (S2 ++ x)) := by
  unfold makeExecutable
  rw [← h.2 x]
  cases hg : fsA.get (S1 ++ x) with
  | none => exact rfl
  | some n =>
    cases n with
    | file c m => exact ⟨StInv_set sep h x _, ancOk_set hA x _, ancOk_set hB x _⟩
    | symlink t => exact rfl
    | dir m => exact ⟨StInv_set sep h x _, ancOk_set hA x _, ancOk_set hB x _⟩

theorem lock_symlinkNew {src S1 S2 : Path} {fsA fsB : FS}
    (sep : Sep src S1 S2) (h : StInv src S1 S2 fsA fsB)
    (hA : ancOk fsA S1) (hB : ancOk fsB S2) (target : String) (x : Path) :
    ExLock src S1 S2 (symlinkNew fsA target (S1 ++ x))
      (symlinkNew fsB target (S2 ++ x)) := by
  unfold symlinkNew
  rw [← h.2 x]
  cases hg : fsA.get (S1 ++ x) with
  | none => exact ⟨StInv_set sep h x _, ancOk_set hA x _, ancOk_set hB x _⟩
  | some n => exact rfl

theorem lock_removeOccupant {src S1 S2 : Path} {fsA fsB : FS}
    (sep : Sep src S1 S2) (h : StInv src S1 S2 fsA fsB)
    (hA : ancOk fsA S1) (hB : ancOk fsB S2) (x : Path) :
    ExLock src S1 S2 (removeOccupant fsA (S1 ++ x))
      (removeOccupant fsB (S2 ++ x)) := by
  unfold removeOccupant
  rw [← h.2 x]
  cases hg : fsA.get (S1 ++ x) with
  | none => exact ⟨h, hA, hB⟩
  | some n =>
    cases n with
    | file c m => exact ⟨StInv_erase sep h x, ancOk_erase hA x, ancOk_erase hB x⟩
    | symlink t => exact ⟨StInv_erase sep h x, ancOk_erase hA x, ancOk_erase hB x⟩
    | dir m => exact rfl

theorem lock_readFileOrEmpty {src S1 S2 : Path} {fsA fsB : FS}
    (h : StInv src S1 S2 fsA fsB) (x : Path) :
    readFileOrEmpty fsA (S1 ++ x) = readFileOrEmpty fsB (S2 ++ x) := by
  unfold readFileOrEmpty
  rw [h.2 x]

theorem lock_pathExists_staging {src S1 S2 : Path} {fsA fsB : FS}
    (h : StInv src S1 S2 fsA fsB) (x : Path) :
    fsA.pathExists (S1 ++ x) = fsB.pathExists (S2 ++ x) := by
  unfold FS.pathExists
  rw [h.2 x]

theorem lock_pathExists_src {src S1 S2 : Path} {fsA fsB : FS}
    (h : StInv src S1 S2 fsA fsB) (s : Path) :
    fsA.pathExists (src ++ s) = fsB.pathExists (src ++ s) := by
  unfold FS.pathExists
  rw [StInv_src_get h s]

theorem lock_isSymlinkAt_staging {src S1 S2 : Path} {fsA fsB : FS}
    (h : StInv src S1 S2 fsA fsB) (x : Path) :
    fsA.isSymlinkAt (S1 ++ x) = fsB.isSymlinkAt (S2 ++ x) := by
  unfold FS.isSymlinkAt
  rw [h.2 x]

theorem lock_copyFileNode_src {src S1 S2 : Path} {fsA fsB : FS}
    (sep : Sep src S1 S2) (h : StInv src S1 S2 fsA fsB)
    (hA : ancOk fsA S1) (hB : ancOk fsB S2) (s x : Path) :
    ExLock src S1 S2 (copyFileNode fsA (src ++ s) (S1 ++ x))
      (copyFileNode fsB (src ++ s) (S2 ++ x)) := by
  unfold copyFileNode
  rw [← StInv_src_get h s, ← h.2 x]
  cases hg : fsA.get (src ++ s) with
  | none => exact rfl
  | some n =>
    cases n with
    | file c m =>
      cases hd : fsA.get (S1 ++ x) with
      | none => exact ⟨StInv_set sep h x _, ancOk_set hA x _, ancOk_set hB x _⟩
      | some n2 =>
        cases n2 with
        | file c2 m2 =>
          exact ⟨StInv_set sep h x _, ancOk_set hA x _, ancOk_set hB x _⟩
        | symlink t => exact rfl
        | dir m2 => exact rfl
    | symlink t => exact rfl
    | dir m => exact rfl

theorem mkdirAllFrom_cons (done : Path) (fs : FS) (c : String) (rest : Path) :
    mkdirAllFrom done fs (c :: rest) =
      match fs.get (done ++ [c]) with
      | none => mkdirAllFrom (done ++ [c])
          (fs.set (done ++ [c]) (.dir defaultDirMode)) rest
      | some (.dir _) => mkdirAllFrom (done ++ [c]) fs rest
      | some _ =>
        .error "create_dir_all: a path component is not a directory" := rfl

theorem lock_mkdirAllFrom_inside {src S1 S2 : Path} (sep : Sep src S1 S2) :
    ∀ (rest dA dB x : Path), dA = S1 ++ x → dB = S2 ++ x →
      ∀ (fsA fsB : FS), StInv src S1 S2 fsA fsB → ancOk fsA S1 → ancOk fsB S2 →
      ExLock src S1 S2 (mkdirAllFrom dA fsA rest) (mkdirAllFrom dB fsB rest) := by
  intro rest
  induction rest with
  | nil =>
    intro dA dB x hdA hdB fsA fsB h hA hB
    exact ⟨h, hA, hB⟩
  | cons c rest ih =>
    intro dA dB x hdA hdB fsA fsB h hA hB
    subst hdA
    subst hdB
    rw [mkdirAllFrom_cons, mkdirAllFrom_cons,
      List.append_assoc S1 x [c], List.append_assoc S2 x [c],
      ← h.2 (x ++ [c])]
    cases hg : fsA.get (S1 ++ (x ++ [c])) with
    | none =>
      exact ih _ _ (x ++ [c]) rfl rfl _ _ (StInv_set sep h (x ++ [c]) _)
        (ancOk_set hA (x ++ [c]) _) (ancOk_set hB (x ++ [c]) _)
    | some n =>
      cases n with
      | dir m => exact ih _ _ (x ++ [c]) rfl rfl _ _ h hA hB
      | file c2 m => exact rfl
      | symlink t => exact rfl

theorem isDirAt_some_dir {fs : FS} {p : Path} (h : FS.isDirAt fs p = true) :
    ∃ m, fs.get p = some (.dir m) := by
  unfold FS.isDirAt at h
  cases hg : fs.get p with
  | none => rw [hg] at h; simp at h
  | some n =>
    cases n with
    | dir m => exact ⟨m, rfl⟩
    | file c m => rw [hg] at h; simp at h
    | symlink t => rw [hg] at h; simp at h

theorem mkdirAllFrom_spine {S : Path} (rest : Path) :
    ∀ (suf done : Path), done ++ suf = S → suf ≠ [] →
      ∀ fs : FS, ancOk fs S →
      mkdirAllFrom done fs (suf ++ rest) =
        (match fs.get S with
         | none => mkdirAllFrom S (fs.set S (.dir defaultDirMode)) rest
         | some (.dir _) => mkdirAllFrom S fs rest
         | some _ =>
           .error "create_dir_all: a path component is not a directory") := by
  intro suf
  induction suf with
  | nil => intro done hS hne; exact absurd rfl hne
  | cons c suf ih =>
    intro done hS hne fs hanc
    rw [show (c :: suf) ++ rest = c :: (suf ++ rest) from rfl, mkdirAllFrom_cons]
    by_cases hsuf : suf = []
    · subst hsuf
      rw [hS]
      rfl
    · have hle : pathLe (done ++ [c]) S = true := by
        rw [← hS, show done ++ c :: suf = (done ++ [c]) ++ suf by simp]
        exact pathLe_append _ _
      have hlen : (done ++ [c]).length < S.length := by
        rw [← hS]
        cases suf with
        | nil => exact absurd rfl hsuf
        | cons a t => simp
      have htake : S.take (done ++ [c]).length = done ++ [c] :=
        (take_of_pathLe hle).symm
      have hdir := hanc (done ++ [c]).length (by simp) hlen
      rw [htake] at hdir
      obtain ⟨m, hm⟩ := isDirAt_some_dir hdir
      rw [hm]
      exact ih (done ++ [c]) (by simpa using hS) hsuf fs hanc

theorem lock_mkdirAll {src S1 S2 : Path} {fsA fsB : FS} (sep : Sep src S1 S2)
    (h : StInv src S1 S2 fsA fsB) (hA : ancOk fsA S1) (hB : ancOk fsB S2)
    (x : Path) :
    ExLock src S1 S2 (mkdirAll fsA (S1 ++ x)) (mkdirAll fsB (S2 ++ x)) := by
  unfold mkdirAll
  rw [@mkdirAllFrom_spine S1 x S1 [] rfl sep.ne1 fsA hA,
    @mkdirAllFrom_spine S2 x S2 [] rfl sep.ne2 fsB hB]
  have hroot : fsA.get S1 = fsB.get S2 := by
    have := h.2 []
    simpa using this
  rw [← hroot]
  cases hg : fsA.get S1 with
  | none =>
    have h2 := StInv_set sep h [] (Node.dir defaultDirMode)
    have hA2 := ancOk_set hA [] (Node.dir defaultDirMode)
    have hB2 := ancOk_set hB [] (Node.dir defaultDirMode)
    simp only [List.append_nil] at h2 hA2 hB2
    exact lock_mkdirAllFrom_inside sep x S1 S2 [] (by simp) (by simp) _ _
      h2 hA2 hB2
  | some n =>
    cases n with
    | dir m =>
      exact lock_mkdirAllFrom_inside sep x S1 S2 [] (by simp) (by simp) _ _
        h hA hB
    | file c m => exact rfl
    | symlink t => exact rfl

theorem mkdirAllFrom_noop : ∀ (rest done : Path) (fs : FS),
    (∀ r, r ≠ [] → pathLe r rest = true →
      ∃ m, fs.get (done ++ r) = some (.dir m)) →
    mkdirAllFrom done fs rest = .ok fs := by
  intro rest
  induction rest with
  | nil => intro done fs h; rfl
  | cons c rest ih =>
    intro done fs h
    rw [mkdirAllFrom_cons]
    obtain ⟨m, hm⟩ := h [c] (by simp) (by simp [pathLe, pathLe_refl])
    rw [hm]
    apply ih
    intro r hr hle
    have := h (c :: r) (by simp) (by simp [pathLe, hle])
    simpa [List.append_assoc] using this

theorem mkdirAll_prefixdirs_noop {fs : FS} {p : Path}
    (h : ∀ r, r ≠ [] → pathLe r p = true → ∃ m, fs.get r = some (.dir m)) :
    mkdirAll fs p = .ok fs := by
  unfold mkdirAll
  apply mkdirAllFrom_noop
  intro r hr hle
  exact h r hr hle

theorem ancOk_dropLast_dirs {fs : FS} {S : Path} (hanc : ancOk fs S) :
    ∀ r, r ≠ [] → pathLe r S.dropLast = true →
      ∃ m, fs.get r = some (.dir m) := by
  intro r hr hle
  have hle2 : pathLe r S = true := pathLe_trans hle (pathLe_dropLast_self S)
  have htake := take_of_pathLe hle2
  have hlen : r.length < S.length := by
    cases S with
    | nil =>
      cases r with
      | nil => exact absurd rfl hr
      | cons a t => simp [pathLe] at hle
    | cons s ss =>
      have h1 := length_le_of_pathLe hle
      have h2 : (s :: ss).dropLast.length = ss.length := by
        simp [List.length_dropLast]
      rw [h2] at h1
      simp
      omega
  have h0 : 0 < r.length := by
    cases r with
    | nil => exact absurd rfl hr
    | cons a t => simp
  have hd := hanc r.length h0 hlen
  rw [← htake] at hd
  exact isDirAt_some_dir hd

theorem dropLast_append_ne {l2 : Path} (h : l2 ≠ []) :
    ∀ l1 : Path, (l1 ++ l2).dropLast = l1 ++ l2.dropLast := by
  intro l1
  induction l1 with
  | nil => rfl
  | cons a t ih =>
    show (a :: (t ++ l2)).dropLast = a :: (t ++ l2.dropLast)
    cases hc : t ++ l2 with
    | nil => exact absurd (List.append_eq_nil.mp hc).2 h
    | cons b bs =>
      rw [hc] at ih
      rw [List.dropLast_cons₂, ih]

theorem lock_mkdirAll_dropLast {src S1 S2 : Path} {fsA fsB : FS}
    (sep : Sep src S1 S2) (h : StInv src S1 S2 fsA fsB)
    (hA : ancOk fsA S1) (hB : ancOk fsB S2) (x : Path) :
    ExLock src S1 S2 (mkdirAll fsA ((S1 ++ x).dropLast))
      (mkdirAll fsB ((S2 ++ x).dropLast)) := by
  by_cases hx : x = []
  · subst hx
    simp only [List.append_nil]
    rw [mkdirAll_prefixdirs_noop (ancOk_dropLast_dirs hA),
      mkdirAll_prefixdirs_noop (ancOk_dropLast_dirs hB)]
    exact ⟨h, hA, hB⟩
  · rw [dropLast_append_ne hx S1, dropLast_append_ne hx S2]
    exact lock_mkdirAll sep h hA hB x.dropLast

theorem ExLock_bind {src S1 S2 : Path} {ea eb : Except String FS}
    {f g : FS → Except String FS} (h : ExLock src S1 S2 ea eb)
    (hf : ∀ fsA fsB, StInv src S1 S2 fsA fsB → ancOk fsA S1 → ancOk fsB S2 →
      ExLock src S1 S2 (f fsA) (g fsB)) :
    ExLock src S1 S2 (ea >>= f) (eb >>= g) := by
  cases ea with
  | error e1 =>
    cases eb with
    | error e2 => exact h
    | ok b => exact h.elim
  | ok a =>
    cases eb with
    | error e2 => exact h.elim
    | ok b =>
      obtain ⟨hi, hA, hB⟩ := h
      exact hf a b hi hA hB

theorem FS.get_append (l1 l2 : FS) (p : Path) :
    FS.get (l1 ++ l2) p =
      match FS.get l1 p with
      | some n => some n
      | none => FS.get l2 p := by
  induction l1 with
  | nil => rfl
  | cons e t ih =>
    rw [List.cons_append, FS.get_cons, FS.get_cons]
    by_cases he : e.1 = p
    · rw [if_pos he, if_pos he]
    · rw [if_neg he, if_neg he, ih]

theorem get_filter_false {pr : Path → Bool} {p : Path} (hp : pr p = false) :
    ∀ fs : FS, FS.get (fs.filter (fun e => pr e.1)) p = none := by
  intro fs
  induction fs with
  | nil => rfl
  | cons e fs ih =>
    rw [List.filter_cons]
    by_cases he : pr e.1 = true
    · have hne : e.1 ≠ p := by
        intro hh
        rw [hh, hp] at he
        exact absurd he (by simp)
      rw [if_pos (by simp [he]), FS.get_cons, if_neg hne]
      exact ih
    · rw [if_neg (by simpa using he)]
      exact ih

theorem get_map_rekey (S q : Path) : ∀ t : FS,
    FS.get (t.map (fun e => (S ++ e.1, e.2))) (S ++ q) = FS.get t q := by
  intro t
  induction t with
  | nil => rfl
  | cons e t ih =>
    rw [List.map_cons, FS.get_cons, FS.get_cons]
    by_cases he : e.1 = q
    · rw [if_pos (by rw [he]), if_pos he]
    · have hne : ¬ (S ++ e.1 = S ++ q) := fun hh => he (List.append_cancel_left hh)
      rw [if_neg hne, if_neg he, ih]

theorem get_map_rekey_out {S p : Path} (hp : pathLe S p = false) : ∀ t : FS,
    FS.get (t.map (fun e => (S ++ e.1, e.2))) p = none := by
  intro t
  induction t with
  | nil => rfl
  | cons e t ih =>
    rw [List.map_cons, FS.get_cons]
    have hne : ¬ ((S ++ e.1, e.2).1 = p) := by
      intro hh
      have : pathLe S p = true := by
        rw [← hh]
        exact pathLe_append S e.1
      rw [hp] at this
      exact absurd this (by simp)
    rw [if_neg hne]
    exact ih

theorem srcEntries_map_rekey_nil {src S : Path} (h1 : pathLe src S = false)
    (h2 : pathLe S src = false) : ∀ t : FS,
    srcEntries src (t.map (fun e => (S ++ e.1, e.2))) = [] := by
  intro t
  induction t with
  | nil => rfl
  | cons e t ih =>
    rw [List.map_cons, srcEntries_cons,
      if_neg (by simp [pathLe_incomp_ext h1 h2 e.1])]
    exact ih

theorem srcEntries_filter_not_staging {src S : Path} (h1 : pathLe src S = false)
    (h2 : pathLe S src = false) : ∀ fs : FS,
    srcEntries src (fs.filter (fun e => ¬ pathLe S e.1)) = srcEntries src fs := by
  intro fs
  induction fs with
  | nil => rfl
  | cons e fs ih =>
    rw [List.filter_cons]
    by_cases hsrc : pathLe src e.1 = true
    · have hst : pathLe S e.1 = false := by
        cases hq : pathLe S e.1 with
        | false => rfl
        | true =>
          rcases pathLe_total_of_pathLe hsrc hq with hc | hc
          · rw [h1] at hc; exact absurd hc (by simp)
          · rw [h2] at hc; exact absurd hc (by simp)
      rw [if_pos (by simp [hst]), srcEntries_cons, srcEntries_cons,
        if_pos (by simp [hsrc]), if_pos (by simp [hsrc]), ih]
    · by_cases hst : pathLe S e.1 = true
      · rw [if_neg (by simp [hst]), ih, srcEntries_cons,
          if_neg (by simpa using hsrc)]
      · rw [if_pos (by simp [hst]), srcEntries_cons, srcEntries_cons,
          if_neg (by simpa using hsrc), if_neg (by simpa using hsrc), ih]

theorem get_graft_inside {S : Path} (fs : FS) (t : FS) (q : Path) :
    FS.get (graft fs S t) (S ++ q) = FS.get t q := by
  unfold graft
  rw [FS.get_append, get_map_rekey]
  cases hg : FS.get t q with
  | some n => rfl
  | none =>
    have hpr : decide (¬ pathLe S (S ++ q) = true) = false := by
      simp [pathLe_append]
    exact @get_filter_false (fun k => decide (¬ pathLe S k = true)) (S ++ q)
      hpr fs

theorem get_graft_outside {S p : Path} (hp : pathLe S p = false)
    (fs : FS) (t : FS) :
    FS.get (graft fs S t) p = fs.get p := by
  unfold graft
  rw [FS.get_append, get_map_rekey_out hp]
  have hpr : decide (¬ pathLe S p = true) = true := by
    simp [hp]
  exact @get_filter_key (fun k => decide (¬ pathLe S k = true)) p hpr fs

theorem StInv_graft {src S1 S2 : Path} {fsA fsB : FS} (sep : Sep src S1 S2)
    (h : StInv src S1 S2 fsA fsB) (t : FS) :
    StInv src S1 S2 (graft fsA S1 t) (graft fsB S2 t) := by
  constructor
  · unfold graft
    rw [show srcEntries src (t.map (fun e => (S1 ++ e.1, e.2)) ++
        fsA.filter (fun e => ¬ pathLe S1 e.1)) =
      srcEntries src (t.map (fun e => (S1 ++ e.1, e.2))) ++
        srcEntries src (fsA.filter (fun e => ¬ pathLe S1 e.1)) from
      List.filter_append _ _]
    rw [show srcEntries src (t.map (fun e => (S2 ++ e.1, e.2)) ++
        fsB.filter (fun e => ¬ pathLe S2 e.1)) =
      srcEntries src (t.map (fun e => (S2 ++ e.1, e.2))) ++
        srcEntries src (fsB.filter (fun e => ¬ pathLe S2 e.1)) from
      List.filter_append _ _]
    rw [srcEntries_map_rekey_nil sep.a1 sep.b1,
      srcEntries_map_rekey_nil sep.a2 sep.b2,
      srcEntries_filter_not_staging sep.a1 sep.b1,
      srcEntries_filter_not_staging sep.a2 sep.b2, h.1]
  · intro q
    rw [get_graft_inside, get_graft_inside]

theorem pathLe_take_self_false {S : Path} {n : Nat} (hn : n < S.length) :
    pathLe S (S.take n) = false := by
  cases hq : pathLe S (S.take n) with
  | false => rfl
  | true =>
    have := length_le_of_pathLe hq
    rw [List.length_take] at this
    omega

theorem ancOk_graft {fs : FS} {S : Path} (h : ancOk fs S) (t : FS) :
    ancOk (graft fs S t) S := by
  refine ancOk_of_get_eq (fun k hk0 hk1 => ?_) h
  exact get_graft_outside (pathLe_take_self_false hk1) fs t

theorem lock_subtree_src {src S1 S2 : Path} {fsA fsB : FS}
    (h : StInv src S1 S2 fsA fsB) :
    subtreeAt fsA src = subtreeAt fsB src :=
  funext (fun q => StInv_src_get h q)

theorem lock_subtree_staging {src S1 S2 : Path} {fsA fsB : FS}
    (h : StInv src S1 S2 fsA fsB) :
    subtreeAt fsA S1 = subtreeAt fsB S2 :=
  funext h.2

section DetPass

variable {src S1 S2 b1 o1 b2 o2 : Path}

theorem lock_ensure_user {fsA fsB : FS} (sep : Sep src S1 S2)
    (h : StInv src S1 S2 fsA fsB) (hA : ancOk fsA S1) (hB : ancOk fsB S2)
    (name : String) (uid gid : Nat) (home shell : String) :
    ExLock src S1 S2
      (ensure_user ⟨src, S1, b1, o1⟩ fsA name uid gid home shell)
      (ensure_user ⟨src, S2, b2, o2⟩ fsB name uid gid home shell) := by
  unfold ensure_user
  dsimp only
  rw [show readFileOrEmpty fsA (S1 ++ ["etc", "passwd"]) =
      readFileOrEmpty fsB (S2 ++ ["etc", "passwd"]) from
    lock_readFileOrEmpty h ["etc", "passwd"]]
  cases hr : readFileOrEmpty fsB (S2 ++ ["etc", "passwd"]) with
  | error e => exact rfl
  | ok content =>
    simp only [bind, Except.bind]
    by_cases hc : (rustLines content).any
        (fun l => strStarts l (name ++ ":")) = true
    · rw [if_pos hc, if_pos hc]
      exact ⟨h, hA, hB⟩
    · rw [if_neg hc, if_neg hc]
      refine ExLock_bind (lock_mkdirAll_dropLast sep h hA hB ["etc", "passwd"])
        (fun a b hi hA2 hB2 => ?_)
      exact lock_appendToFile sep hi hA2 hB2 ["etc", "passwd"] _

theorem lock_ensure_group {fsA fsB : FS} (sep : Sep src S1 S2)
    (h : StInv src S1 S2 fsA fsB) (hA : ancOk fsA S1) (hB : ancOk fsB S2)
    (name : String) (gid : Nat) :
    ExLock src S1 S2 (ensure_group ⟨src, S1, b1, o1⟩ fsA name gid)
      (ensure_group ⟨src, S2, b2, o2⟩ fsB name gid) := by
  unfold ensure_group
  dsimp only
  rw [show readFileOrEmpty fsA (S1 ++ ["etc", "group"]) =
      readFileOrEmpty fsB (S2 ++ ["etc", "group"]) from
    lock_readFileOrEmpty h ["etc", "group"]]
  cases hr : readFileOrEmpty fsB (S2 ++ ["etc", "group"]) with
  | error e => exact rfl
  | ok content =>
    simp only [bind, Except.bind]
    by_cases hc : (rustLines content).any
        (fun l => strStarts l (name ++ ":")) = true
    · rw [if_pos hc, if_pos hc]
      exact ⟨h, hA, hB⟩
    · rw [if_neg hc, if_neg hc]
      refine ExLock_bind (lock_mkdirAll_dropLast sep h hA hB ["etc", "group"])
        (fun a b hi hA2 hB2 => ?_)
      exact lock_appendToFile sep hi hA2 hB2 ["etc", "group"] _

theorem lock_enable_openrc {fsA fsB : FS} (sep : Sep src S1 S2)
    (h : StInv src S1 S2 fsA fsB) (hA : ancOk fsA S1) (hB : ancOk fsB S2)
    (service runlevel : String) :
    ExLock src S1 S2
      (enable_openrc_service ⟨src, S1, b1, o1⟩ fsA service runlevel)
      (enable_openrc_service ⟨src, S2, b2, o2⟩ fsB service runlevel) := by
  unfold enable_openrc_service
  dsimp only
  simp only [joinPath]
  rw [List.append_assoc S1 ["etc", "runlevels"] (splitPath runlevel),
    List.append_assoc S2 ["etc", "runlevels"] (splitPath runlevel)]
  refine ExLock_bind
    (lock_mkdirAll sep h hA hB (["etc", "runlevels"] ++ splitPath runlevel))
    (fun a b hi hA2 hB2 => ?_)
  rw [List.append_assoc S1 (["etc", "runlevels"] ++ splitPath runlevel)
      (splitPath service),
    List.append_assoc S2 (["etc", "runlevels"] ++ splitPath runlevel)
      (splitPath service),
    lock_pathExists_staging hi
      ((["etc", "runlevels"] ++ splitPath runlevel) ++ splitPath service),
    lock_isSymlinkAt_staging hi
      ((["etc", "runlevels"] ++ splitPath runlevel) ++ splitPath service)]
  by_cases hc : (!b.pathExists (S2 ++ ((["etc", "runlevels"] ++
        splitPath runlevel) ++ splitPath service)) &&
      !b.isSymlinkAt (S2 ++ ((["etc", "runlevels"] ++
        splitPath runlevel) ++ splitPath service))) = true
  · rw [if_pos hc, if_pos hc]
    exact lock_symlinkNew sep hi hA2 hB2 _ _
  · rw [if_neg hc, if_neg hc]
    exact ⟨hi, hA2, hB2⟩

theorem lock_copy_init_script {fsA fsB : FS} (sep : Sep src S1 S2)
    (h : StInv src S1 S2 fsA fsB) (hA : ancOk fsA S1) (hB : ancOk fsB S2)
    (script : String) :
    ExLock src S1 S2 (copy_init_script ⟨src, S1, b1, o1⟩ fsA script)
      (copy_init_script ⟨src, S2, b2, o2⟩ fsB script) := by
  unfold copy_init_script
  dsimp only
  simp only [joinPath]
  rw [List.append_assoc src ["etc", "init.d"] (splitPath script),
    List.append_assoc S1 ["etc", "init.d"] (splitPath script),
    List.append_assoc S2 ["etc", "init.d"] (splitPath script),
    lock_pathExists_src h (["etc", "init.d"] ++ splitPath script)]
  by_cases hex : fsB.pathExists (src ++ (["etc", "init.d"] ++
      splitPath script)) = false
  · rw [if_pos hex, if_pos hex]
    exact rfl
  · rw [if_neg hex, if_neg hex]
    refine ExLock_bind
      (lock_mkdirAll_dropLast sep h hA hB (["etc", "init.d"] ++
        splitPath script)) (fun a b hi hA2 hB2 => ?_)
    refine ExLock_bind (lock_copyFileNode_src sep hi hA2 hB2 _ _)
      (fun a2 b2 hi2 hA3 hB3 => ?_)
    exact lock_makeExecutable sep hi2 hA3 hB3 _

theorem lock_copyInitScripts (sep : Sep src S1 S2) :
    ∀ (ss : List String) (fsA fsB : FS), StInv src S1 S2 fsA fsB →
      ancOk fsA S1 → ancOk fsB S2 →
      ExLock src S1 S2 (copyInitScripts ⟨src, S1, b1, o1⟩ ss fsA)
        (copyInitScripts ⟨src, S2, b2, o2⟩ ss fsB) := by
  intro ss
  induction ss with
  | nil =>
    intro fsA fsB h hA hB
    exact ⟨h, hA, hB⟩
  | cons s ss ih =>
    intro fsA fsB h hA hB
    unfold copyInitScripts
    exact ExLock_bind (lock_copy_init_script sep h hA hB s)
      (fun a b hi hA2 hB2 => ih a b hi hA2 hB2)

theorem lock_mkdirList (sep : Sep src S1 S2) :
    ∀ (ps : List String) (fsA fsB : FS), StInv src S1 S2 fsA fsB →
      ancOk fsA S1 → ancOk fsB S2 →
      ExLock src S1 S2 (mkdirList ⟨src, S1, b1, o1⟩ ps fsA)
        (mkdirList ⟨src, S2, b2, o2⟩ ps fsB) := by
  intro ps
  induction ps with
  | nil =>
    intro fsA fsB h hA hB
    exact ⟨h, hA, hB⟩
  | cons p ps ih =>
    intro fsA fsB h hA hB
    unfold mkdirList
    dsimp only
    simp only [joinPath]
    exact ExLock_bind (lock_mkdirAll sep h hA hB (splitPath p))
      (fun a b hi hA2 hB2 => ih a b hi hA2 hB2)

theorem lock_copyDepLine {fsA fsB : FS} (sep : Sep src S1 S2)
    (h : StInv src S1 S2 fsA fsB) (hA : ancOk fsA S1) (hB : ancOk fsB S2)
    (l : String) :
    ExLock src S1 S2 (copyDepLine ⟨src, S1, b1, o1⟩ fsA l)
      (copyDepLine ⟨src, S2, b2, o2⟩ fsB l) := by
  unfold copyDepLine
  cases he : extract_library_path l with
  | none => exact ⟨h, hA, hB⟩
  | some pathStr =>
    dsimp only
    rw [lock_pathExists_src h (splitPath pathStr),
      lock_pathExists_staging h (splitPath pathStr)]
    by_cases hc : (fsB.pathExists (src ++ splitPath pathStr) &&
        !fsB.pathExists (S2 ++ splitPath pathStr)) = true
    · rw [if_pos hc, if_pos hc]
      refine ExLock_bind (lock_mkdirAll_dropLast sep h hA hB
        (splitPath pathStr)) (fun a b hi hA2 hB2 => ?_)
      exact lock_copyFileNode_src sep hi hA2 hB2 (splitPath pathStr)
        (splitPath pathStr)
    · rw [if_neg hc, if_neg hc]
      exact ⟨h, hA, hB⟩

theorem lock_copyDepsList (sep : Sep src S1 S2) :
    ∀ (ls : List String) (fsA fsB : FS), StInv src S1 S2 fsA fsB →
      ancOk fsA S1 → ancOk fsB S2 →
      ExLock src S1 S2 (copyDepsList ⟨src, S1, b1, o1⟩ ls fsA)
        (copyDepsList ⟨src, S2, b2, o2⟩ ls fsB) := by
  intro ls
  induction ls with
  | nil =>
    intro fsA fsB h hA hB
    exact ⟨h, hA, hB⟩
  | cons l ls ih =>
    intro fsA fsB h hA hB
    unfold copyDepsList
    exact ExLock_bind (lock_copyDepLine sep h hA hB l)
      (fun a b hi hA2 hB2 => ih a b hi hA2 hB2)

theorem lock_copy_library_deps (ext : Externals) {fsA fsB : FS}
    (sep : Sep src S1 S2) (h : StInv src S1 S2 fsA fsB)
    (hA : ancOk fsA S1) (hB : ancOk fsB S2) (sPath : Path) :
    ExLock src S1 S2
      (copy_library_deps ext ⟨src, S1, b1, o1⟩ fsA (src ++ sPath))
      (copy_library_deps ext ⟨src, S2, b2, o2⟩ fsB (src ++ sPath)) := by
  unfold copy_library_deps
  cases hl : ext.ldd (src ++ sPath) with
  | spawnFail => exact rfl
  | run success out =>
    cases success with
    | false => exact ⟨h, hA, hB⟩
    | true => exact lock_copyDepsList sep (rustLines out) fsA fsB h hA hB

theorem find_congr {α : Type} {p q : α → Bool} (hpq : ∀ a, p a = q a) :
    ∀ l : List α, l.find? p = l.find? q := by
  intro l
  induction l with
  | nil => rfl
  | cons a t ih =>
    rw [List.find?_cons, List.find?_cons, hpq a, ih]

theorem lock_find_binary {fsA fsB : FS} (h : StInv src S1 S2 fsA fsB)
    (name : String) :
    find_binary ⟨src, S1, b1, o1⟩ fsA name =
      find_binary ⟨src, S2, b2, o2⟩ fsB name := by
  unfold find_binary
  dsimp only
  exact find_congr (fun c => lock_pathExists_src h c) _

theorem lock_binMsg {fsA fsB : FS} (h : StInv src S1 S2 fsA fsB)
    (name : String) :
    binaryNotFoundMsg ⟨src, S1, b1, o1⟩ fsA name =
      binaryNotFoundMsg ⟨src, S2, b2, o2⟩ fsB name := by
  unfold binaryNotFoundMsg
  dsimp only
  rw [lock_pathExists_src h (joinPath ["usr", "bin"] name),
    lock_pathExists_src h (joinPath ["bin"] name)]

theorem lock_copy_binary (ext : Externals) {fsA fsB : FS}
    (sep : Sep src S1 S2) (h : StInv src S1 S2 fsA fsB)
    (hA : ancOk fsA S1) (hB : ancOk fsB S2) (name destDir : String) :
    ExLock src S1 S2 (copy_binary ext ⟨src, S1, b1, o1⟩ fsA name destDir)
      (copy_binary ext ⟨src, S2, b2, o2⟩ fsB name destDir) := by
  unfold copy_binary
  rw [← lock_find_binary h name]
  cases hf : find_binary ⟨src, S1, b1, o1⟩ fsA name with
  | none => exact lock_binMsg h name
  | some srcRel =>
    dsimp only
    simp only [joinPath]
    rw [List.append_assoc S1 (splitPath destDir) (splitPath name),
      List.append_assoc S2 (splitPath destDir) (splitPath name)]
    refine ExLock_bind (lock_mkdirAll_dropLast sep h hA hB
      (splitPath destDir ++ splitPath name)) (fun a b hi hA2 hB2 => ?_)
    rw [← StInv_src_get hi srcRel]
    cases hg : a.get (src ++ srcRel) with
    | none =>
      refine ExLock_bind (lock_removeOccupant sep hi hA2 hB2 _)
        (fun a2 b2 hi2 hA3 hB3 => ?_)
      refine ExLock_bind (lock_copyFileNode_src sep hi2 hA3 hB3 srcRel _)
        (fun a3 b3 hi3 hA4 hB4 => ?_)
      refine ExLock_bind (lock_makeExecutable sep hi3 hA4 hB4 _)
        (fun a4 b4 hi4 hA5 hB5 => ?_)
      exact lock_copy_library_deps ext sep hi4 hA5 hB5 srcRel
    | some n =>
      cases n with
      | symlink t =>
        refine ExLock_bind (lock_removeOccupant sep hi hA2 hB2 _)
          (fun a2 b2 hi2 hA3 hB3 => ?_)
        exact lock_symlinkNew sep hi2 hA3 hB3 t _
      | file c m =>
        refine ExLock_bind (lock_removeOccupant sep hi hA2 hB2 _)
          (fun a2 b2 hi2 hA3 hB3 => ?_)
        refine ExLock_bind (lock_copyFileNode_src sep hi2 hA3 hB3 srcRel _)
          (fun a3 b3 hi3 hA4 hB4 => ?_)
        refine ExLock_bind (lock_makeExecutable sep hi3 hA4 hB4 _)
          (fun a4 b4 hi4 hA5 hB5 => ?_)
        exact lock_copy_library_deps ext sep hi4 hA5 hB5 srcRel
      | dir m =>
        refine ExLock_bind (lock_removeOccupant sep hi hA2 hB2 _)
          (fun a2 b2 hi2 hA3 hB3 => ?_)
        refine ExLock_bind (lock_copyFileNode_src sep hi2 hA3 hB3 srcRel _)
          (fun a3 b3 hi3 hA4 hB4 => ?_)
        refine ExLock_bind (lock_makeExecutable sep hi3 hA4 hB4 _)
          (fun a4 b4 hi4 hA5 hB5 => ?_)
        exact lock_copy_library_deps ext sep hi4 hA5 hB5 srcRel

theorem lock_runBinsAux (ext : Externals) (sep : Sep src S1 S2) :
    ∀ (names : List String) (fsA fsB : FS), StInv src S1 S2 fsA fsB →
      ancOk fsA S1 → ancOk fsB S2 →
      (runBinsAux ext ⟨src, S1, b1, o1⟩ names fsA).2 =
        (runBinsAux ext ⟨src, S2, b2, o2⟩ names fsB).2 ∧
      StInv src S1 S2 (runBinsAux ext ⟨src, S1, b1, o1⟩ names fsA).1
        (runBinsAux ext ⟨src, S2, b2, o2⟩ names fsB).1 ∧
      ancOk (runBinsAux ext ⟨src, S1, b1, o1⟩ names fsA).1 S1 ∧
      ancOk (runBinsAux ext ⟨src, S2, b2, o2⟩ names fsB).1 S2 := by
  intro names
  induction names with
  | nil =>
    intro fsA fsB h hA hB
    exact ⟨rfl, h, hA, hB⟩
  | cons n rest ih =>
    intro fsA fsB h hA hB
    have hcb := @lock_copy_binary src S1 S2 b1 o1 b2 o2 ext fsA fsB
      sep h hA hB n "usr/bin"
    simp only [runBinsAux]
    cases hca : copy_binary ext ⟨src, S1, b1, o1⟩ fsA n "usr/bin" with
    | ok a1 =>
      cases hcbb : copy_binary ext ⟨src, S2, b2, o2⟩ fsB n "usr/bin" with
      | ok bb1 =>
        rw [hca, hcbb] at hcb
        obtain ⟨hi, hA2, hB2⟩ := hcb
        exact ih a1 bb1 hi hA2 hB2
      | error e =>
        rw [hca, hcbb] at hcb
        exact hcb.elim
    | error e1 =>
      cases hcbb : copy_binary ext ⟨src, S2, b2, o2⟩ fsB n "usr/bin" with
      | ok bb1 =>
        rw [hca, hcbb] at hcb
        exact hcb.elim
      | error e2 =>
        rw [hca, hcbb] at hcb
        obtain ⟨heq, hi, hA2, hB2⟩ := ih fsA fsB h hA hB
        refine ⟨?_, hi, hA2, hB2⟩
        rw [hcb, heq]

theorem lock_runSbinsAux (ext : Externals) (sep : Sep src S1 S2) :
    ∀ (names : List String) (fsA fsB : FS), StInv src S1 S2 fsA fsB →
      ancOk fsA S1 → ancOk fsB S2 →
      (runSbinsAux ext ⟨src, S1, b1, o1⟩ names fsA).2 =
        (runSbinsAux ext ⟨src, S2, b2, o2⟩ names fsB).2 ∧
      StInv src S1 S2 (runSbinsAux ext ⟨src, S1, b1, o1⟩ names fsA).1
        (runSbinsAux ext ⟨src, S2, b2, o2⟩ names fsB).1 ∧
      ancOk (runSbinsAux ext ⟨src, S1, b1, o1⟩ names fsA).1 S1 ∧
      ancOk (runSbinsAux ext ⟨src, S2, b2, o2⟩ names fsB).1 S2 := by
  intro names
  induction names with
  | nil =>
    intro fsA fsB h hA hB
    exact ⟨rfl, h, hA, hB⟩
  | cons n rest ih =>
    intro fsA fsB h hA hB
    have hcb := @lock_copy_binary src S1 S2 b1 o1 b2 o2 ext fsA fsB
      sep h hA hB n "usr/sbin"
    simp only [runSbinsAux]
    cases hca : copy_binary ext ⟨src, S1, b1, o1⟩ fsA n "usr/sbin" with
    | ok a1 =>
      cases hcbb : copy_binary ext ⟨src, S2, b2, o2⟩ fsB n "usr/sbin" with
      | ok bb1 =>
        rw [hca, hcbb] at hcb
        obtain ⟨hi, hA2, hB2⟩ := hcb
        exact ih a1 bb1 hi hA2 hB2
      | error e =>
        rw [hca, hcbb] at hcb
        exact hcb.elim
    | error e1 =>
      cases hcbb : copy_binary ext ⟨src, S2, b2, o2⟩ fsB n "usr/sbin" with
      | ok bb1 =>
        rw [hca, hcbb] at hcb
        exact hcb.elim
      | error e2 =>
        rw [hca, hcbb] at hcb
        obtain ⟨heq, hi, hA2, hB2⟩ := ih fsA fsB h hA hB
        refine ⟨?_, hi, hA2, hB2⟩
        rw [heq]

theorem copyTreeEntries_shift {src srcP : Path} (hle : pathLe src srcP = true)
    (S xd : Path) : ∀ fs : FS,
    copyTreeEntries fs srcP (S ++ xd) =
      ((srcEntries src fs).filterMap
        (fun e => (stripRoot srcP e.1).map (fun q => (q, e.2)))).map
        (fun e => (S ++ (xd ++ e.1), e.2)) := by
  intro fs
  induction fs with
  | nil => rfl
  | cons e fs ih =>
    unfold copyTreeEntries
    unfold copyTreeEntries at ih
    rw [List.filterMap_cons, srcEntries_cons]
    cases hsr : stripRoot srcP e.1 with
    | none =>
      simp only [Option.map_none']
      by_cases hp : pathLe src e.1 = true
      · rw [if_pos (by simp [hp]), List.filterMap_cons, hsr]
        simp only [Option.map_none']
        exact ih
      · rw [if_neg (by simpa using hp)]
        exact ih
    | some r =>
      have hsrc : pathLe src e.1 = true :=
        pathLe_trans hle (pathLe_of_stripRoot hsr)
      rw [if_pos (by simp [hsrc]), List.filterMap_cons, hsr]
      simp only [Option.map_some', List.map_cons]
      rw [List.append_assoc S xd r, ih]

theorem lock_setMany_shift {src S1 S2 : Path} (sep : Sep src S1 S2) :
    ∀ (L : FS) (x : Path) (fsA fsB : FS), StInv src S1 S2 fsA fsB →
      ancOk fsA S1 → ancOk fsB S2 →
      StInv src S1 S2
        (setMany fsA (L.map (fun e => (S1 ++ (x ++ e.1), e.2))))
        (setMany fsB (L.map (fun e => (S2 ++ (x ++ e.1), e.2)))) ∧
      ancOk (setMany fsA (L.map (fun e => (S1 ++ (x ++ e.1), e.2)))) S1 ∧
      ancOk (setMany fsB (L.map (fun e => (S2 ++ (x ++ e.1), e.2)))) S2 := by
  intro L
  induction L with
  | nil =>
    intro x fsA fsB h hA hB
    exact ⟨h, hA, hB⟩
  | cons e t ih =>
    intro x fsA fsB h hA hB
    rw [List.map_cons, List.map_cons]
    simp only [setMany]
    exact ih x _ _ (StInv_set sep h (x ++ e.1) e.2)
      (ancOk_set hA (x ++ e.1) e.2) (ancOk_set hB (x ++ e.1) e.2)

theorem lock_copy_tree {src S1 S2 : Path} {fsA fsB : FS} (sep : Sep src S1 S2)
    (h : StInv src S1 S2 fsA fsB) (hA : ancOk fsA S1) (hB : ancOk fsB S2)
    (s x : Path) :
    ExLock src S1 S2 (copy_tree fsA (src ++ s) (S1 ++ x))
      (copy_tree fsB (src ++ s) (S2 ++ x)) := by
  unfold copy_tree
  rw [lock_pathExists_src h s]
  by_cases hex : fsB.pathExists (src ++ s) = false
  · rw [if_pos hex, if_pos hex]
    exact ⟨h, hA, hB⟩
  · rw [if_neg hex, if_neg hex, ← StInv_src_get h s]
    cases hg : fsA.get (src ++ s) with
    | none => exact rfl
    | some n =>
      cases n with
      | file c m =>
        refine ExLock_bind (lock_mkdirAll_dropLast sep h hA hB x)
          (fun a b hi hA2 hB2 => ?_)
        exact lock_copyFileNode_src sep hi hA2 hB2 s x
      | symlink t => exact rfl
      | dir m =>
        rw [copyTreeEntries_shift (pathLe_append src s) S1 x fsA,
          copyTreeEntries_shift (pathLe_append src s) S2 x fsB, h.1]
        obtain ⟨hi, hA2, hB2⟩ := lock_setMany_shift sep
          ((srcEntries src fsB).filterMap
            (fun e => (stripRoot (src ++ s) e.1).map (fun q => (q, e.2))))
          x fsA fsB h hA hB
        exact ⟨hi, hA2, hB2⟩

theorem lock_execute_op (ext : Externals) (sep : Sep src S1 S2) (op : Op) :
    ∀ (fsA fsB : FS), StInv src S1 S2 fsA fsB → ancOk fsA S1 → ancOk fsB S2 →
    ExLock src S1 S2 (execute_op ext ⟨src, S1, b1, o1⟩ op fsA)
      (execute_op ext ⟨src, S2, b2, o2⟩ op fsB) := by
  intro fsA fsB h hA hB
  cases op with
  | Dir path =>
    simp only [execute_op, joinPath]
    exact lock_mkdirAll sep h hA hB (splitPath path)
  | DirMode path mode =>
    simp only [execute_op, joinPath]
    exact ExLock_bind (lock_mkdirAll sep h hA hB (splitPath path))
      (fun a b hi hA2 hB2 =>
        lock_setPermissions sep hi hA2 hB2 (splitPath path) mode)
  | Dirs paths =>
    simp only [execute_op]
    exact lock_mkdirList sep paths fsA fsB h hA hB
  | WriteFile path content =>
    simp only [execute_op, joinPath]
    exact ExLock_bind (lock_mkdirAll_dropLast sep h hA hB (splitPath path))
      (fun a b hi hA2 hB2 =>
        lock_fsWrite sep hi hA2 hB2 (splitPath path) content)
  | WriteFileMode path content mode =>
    simp only [execute_op, joinPath]
    refine ExLock_bind (lock_mkdirAll_dropLast sep h hA hB (splitPath path))
      (fun a b hi hA2 hB2 => ?_)
    exact ExLock_bind (lock_fsWrite sep hi hA2 hB2 (splitPath path) content)
      (fun a2 b2 hi2 hA3 hB3 =>
        lock_setPermissions sep hi2 hA3 hB3 (splitPath path) mode)
  | Symlink link target =>
    simp only [execute_op, joinPath]
    refine ExLock_bind (lock_mkdirAll_dropLast sep h hA hB (splitPath link))
      (fun a b hi hA2 hB2 => ?_)
    refine ExLock_bind (lock_removeOccupant sep hi hA2 hB2 (splitPath link))
      (fun a2 b2 hi2 hA3 hB3 => ?_)
    exact lock_symlinkNew sep hi2 hA3 hB3 target (splitPath link)
  | CopyFile path =>
    simp only [execute_op, joinPath]
    rw [lock_pathExists_src h (splitPath path)]
    by_cases hex : fsB.pathExists (src ++ splitPath path) = false
    · rw [if_pos hex, if_pos hex]
      exact rfl
    · rw [if_neg hex, if_neg hex]
      refine ExLock_bind (lock_mkdirAll_dropLast sep h hA hB (splitPath path))
        (fun a b hi hA2 hB2 => ?_)
      exact lock_copyFileNode_src sep hi hA2 hB2 (splitPath path)
        (splitPath path)
  | CopyTree path =>
    simp only [execute_op, joinPath]
    exact lock_copy_tree sep h hA hB (splitPath path) (splitPath path)
  | Bin name =>
    simp only [execute_op]
    exact lock_copy_binary ext sep h hA hB name "usr/bin"
  | Sbin name =>
    simp only [execute_op]
    exact lock_copy_binary ext sep h hA hB name "usr/sbin"
  | Bins names =>
    simp only [execute_op]
    obtain ⟨heq, hi, hA2, hB2⟩ :=
      @lock_runBinsAux src S1 S2 b1 o1 b2 o2 ext sep names fsA fsB h hA hB
    rw [heq]
    by_cases hc :
        (runBinsAux ext ⟨src, S2, b2, o2⟩ names fsB).2.isEmpty = true
    · rw [if_pos hc, if_pos hc]
      exact ⟨hi, hA2, hB2⟩
    · rw [if_neg hc, if_neg hc]
      exact rfl
  | Sbins names =>
    simp only [execute_op]
    obtain ⟨heq, hi, hA2, hB2⟩ :=
      @lock_runSbinsAux src S1 S2 b1 o1 b2 o2 ext sep names fsA fsB h hA hB
    rw [heq]
    by_cases hc :
        (runSbinsAux ext ⟨src, S2, b2, o2⟩ names fsB).2.isEmpty = true
    · rw [if_pos hc, if_pos hc]
      exact ⟨hi, hA2, hB2⟩
    · rw [if_neg hc, if_neg hc]
      exact rfl
  | OpenrcEnable service runlevel =>
    simp only [execute_op]
    exact lock_enable_openrc sep h hA hB service runlevel
  | OpenrcScripts scripts =>
    simp only [execute_op]
    exact lock_copyInitScripts sep scripts fsA fsB h hA hB
  | OpenrcConf service content =>
    simp only [execute_op, joinPath]
    rw [List.append_assoc S1 ["etc", "conf.d"] (splitPath service),
      List.append_assoc S2 ["etc", "conf.d"] (splitPath service)]
    refine ExLock_bind (lock_mkdirAll_dropLast sep h hA hB
      (["etc", "conf.d"] ++ splitPath service)) (fun a b hi hA2 hB2 => ?_)
    exact lock_fsWrite sep hi hA2 hB2
      (["etc", "conf.d"] ++ splitPath service) content
  | User name uid gid home shell =>
    simp only [execute_op]
    exact lock_ensure_user sep h hA hB name uid gid home shell
  | Group name gid =>
    simp only [execute_op]
    exact lock_ensure_group sep h hA hB name gid
  | Custom c =>
    simp only [execute_op]
    rw [lock_subtree_src h, lock_subtree_staging h]
    cases hc : ext.custom c (subtreeAt fsB src) (subtreeAt fsB S2) with
    | ok t => exact ⟨StInv_graft sep h t, ancOk_graft hA t, ancOk_graft hB t⟩
    | error e => exact rfl

theorem lock_execOps (ext : Externals) (sep : Sep src S1 S2) (name : String) :
    ∀ (ops : List Op) (fsA fsB : FS), StInv src S1 S2 fsA fsB →
      ancOk fsA S1 → ancOk fsB S2 →
      PairLock src S1 S2 (execOps ext ⟨src, S1, b1, o1⟩ name ops fsA)
        (execOps ext ⟨src, S2, b2, o2⟩ name ops fsB) := by
  intro ops
  induction ops with
  | nil =>
    intro fsA fsB h hA hB
    exact ⟨h, hA, hB⟩
  | cons op rest ih =>
    intro fsA fsB h hA hB
    have hop := @lock_execute_op src S1 S2 b1 o1 b2 o2 ext sep op fsA fsB h hA hB
    simp only [execOps]
    cases hoa : execute_op ext ⟨src, S1, b1, o1⟩ op fsA with
    | ok a1 =>
      cases hob : execute_op ext ⟨src, S2, b2, o2⟩ op fsB with
      | ok bb1 =>
        rw [hoa, hob] at hop
        obtain ⟨hi, hA2, hB2⟩ := hop
        exact ih a1 bb1 hi hA2 hB2
      | error e =>
        rw [hoa, hob] at hop
        exact hop.elim
    | error e1 =>
      cases hob : execute_op ext ⟨src, S2, b2, o2⟩ op fsB with
      | ok bb1 =>
        rw [hoa, hob] at hop
        exact hop.elim
      | error e2 =>
        rw [hoa, hob] at hop
        subst hop
        exact rfl

theorem lock_executeComponents (ext : Externals) (sep : Sep src S1 S2) :
    ∀ (cs : List Component) (fsA fsB : FS), StInv src S1 S2 fsA fsB →
      ancOk fsA S1 → ancOk fsB S2 →
      PairLock src S1 S2 (executeComponents ext ⟨src, S1, b1, o1⟩ cs fsA)
        (executeComponents ext ⟨src, S2, b2, o2⟩ cs fsB) := by
  intro cs
  induction cs with
  | nil =>
    intro fsA fsB h hA hB
    exact ⟨h, hA, hB⟩
  | cons c cs ih =>
    intro fsA fsB h hA hB
    have hce := @lock_execOps src S1 S2 b1 o1 b2 o2 ext sep c.name c.ops
      fsA fsB h hA hB
    simp only [executeComponents, execute]
    cases hea : execOps ext ⟨src, S1, b1, o1⟩ c.name c.ops fsA with
    | mk a1 eA =>
      cases hob : execOps ext ⟨src, S2, b2, o2⟩ c.name c.ops fsB with
      | mk bb1 eB =>
        rw [hea, hob] at hce
        cases eA with
        | none =>
          cases eB with
          | none =>
            obtain ⟨hi, hA2, hB2⟩ := hce
            exact ih a1 bb1 hi hA2 hB2
          | some e2 => exact hce.elim
        | some e1 =>
          cases eB with
          | none => exact hce.elim
          | some e2 => exact hce

theorem isDirAt_of_dir {fs : FS} {p : Path} {m : Nat}
    (h : fs.get p = some (.dir m)) : FS.isDirAt fs p = true := by
  unfold FS.isDirAt
  rw [h]

theorem mkdirAllFrom_prefix_dir : ∀ (rest done : Path) (fs fs1 : FS),
    mkdirAllFrom done fs rest = .ok fs1 →
    ∀ r, r ≠ [] → pathLe r rest = true →
      ∃ m, fs1.get (done ++ r) = some (.dir m) := by
  intro rest
  induction rest with
  | nil =>
    intro done fs fs1 hok r hr hle
    cases r with
    | nil => exact absurd rfl hr
    | cons a t => simp [pathLe] at hle
  | cons c rest ih =>
    intro done fs fs1 hok r hr hle
    rw [mkdirAllFrom_cons] at hok
    cases r with
    | nil => exact absurd rfl hr
    | cons rc rtail =>
      have hrc : rc = c := by
        by_cases hq : rc = c
        · exact hq
        · simp [pathLe, hq] at hle
      subst hrc
      have htail : pathLe rtail rest = true := by
        simpa [pathLe] using hle
      cases hg : fs.get (done ++ [rc]) with
      | none =>
        rw [hg] at hok
        cases rtail with
        | nil =>
          rcases mkdirAllFrom_get hok (done ++ [rc]) with h1 | ⟨h1, _, _⟩
          · rw [FS.get_set, if_pos rfl] at h1
            exact ⟨defaultDirMode, by simpa using h1⟩
          · rw [FS.get_set, if_pos rfl] at h1
            exact absurd h1 (by simp)
        | cons r2 rt2 =>
          have := ih (done ++ [rc]) _ _ hok (r2 :: rt2) (by simp) htail
          simpa [List.append_assoc] using this
      | some n =>
        cases n with
        | dir m0 =>
          rw [hg] at hok
          cases rtail with
          | nil =>
            rcases mkdirAllFrom_get hok (done ++ [rc]) with h1 | ⟨h1, _, _⟩
            · rw [h1, hg]
              exact ⟨m0, by simp⟩
            · rw [hg] at h1
              exact absurd h1 (by simp)
          | cons r2 rt2 =>
            have := ih (done ++ [rc]) _ _ hok (r2 :: rt2) (by simp) htail
            simpa [List.append_assoc] using this
        | file cc mm => rw [hg] at hok; exact absurd hok (by simp)
        | symlink t => rw [hg] at hok; exact absurd hok (by simp)

theorem srcEntries_mkdirAllFrom {u : Path} : ∀ (rest done : Path) (fs fs1 : FS),
    mkdirAllFrom done fs rest = .ok fs1 →
    (∀ r, r ≠ [] → pathLe r rest = true → pathLe u (done ++ r) = false) →
    srcEntries u fs1 = srcEntries u fs := by
  intro rest
  induction rest with
  | nil =>
    intro done fs fs1 hok hcond
    simp [mkdirAllFrom] at hok
    rw [hok]
  | cons c rest ih =>
    intro done fs fs1 hok hcond
    rw [mkdirAllFrom_cons] at hok
    cases hg : fs.get (done ++ [c]) with
    | none =>
      rw [hg] at hok
      have hstep := ih (done ++ [c]) _ _ hok (fun r hr hle => by
        have := hcond (c :: r) (by simp) (by simp [pathLe, hle])
        simpa [List.append_assoc] using this)
      rw [hstep, srcEntries_set (hcond [c] (by simp)
        (by simp [pathLe, pathLe_refl]))]
    | some n =>
      cases n with
      | dir m =>
        rw [hg] at hok
        exact ih (done ++ [c]) _ _ hok (fun r hr hle => by
          have := hcond (c :: r) (by simp) (by simp [pathLe, hle])
          simpa [List.append_assoc] using this)
      | file cc mm => rw [hg] at hok; exact absurd hok (by simp)
      | symlink t => rw [hg] at hok; exact absurd hok (by simp)

theorem prepare_fresh {ctx : BuildContext} {fs fs1 : FS}
    (hne : ctx.staging ≠ [])
    (hfresh : ∀ q, fs.get (ctx.staging ++ q) = none)
    (hok : prepare_staging ctx fs = .ok fs1) :
    (∀ q, q ≠ [] → fs1.get (ctx.staging ++ q) = none) ∧
    fs1.get ctx.staging = some (.dir defaultDirMode) ∧
    ancOk fs1 ctx.staging ∧
    (∀ u, pathLe u ctx.staging = false →
      srcEntries u fs1 = srcEntries u fs) := by
  unfold prepare_staging at hok
  have hpe : fs.pathExists ctx.staging = false := by
    unfold FS.pathExists
    have h0 := hfresh []
    rw [List.append_nil] at h0
    rw [h0]
    rfl
  rw [hpe] at hok
  rw [if_neg (by simp)] at hok
  simp only [bind, Except.bind] at hok
  have hfresh0 : fs.get ctx.staging = none := by
    have h0 := hfresh []
    rwa [List.append_nil] at h0
  refine ⟨?_, ?_, ?_, ?_⟩
  · intro q hq
    rcases mkdirAll_get hok (ctx.staging ++ q) with h1 | ⟨_, _, _, h4⟩
    · rw [h1]
      exact hfresh q
    · rw [not_pathLe_of_append_ne_nil hq] at h4
      exact absurd h4 (by simp)
  · obtain ⟨m, hm⟩ := mkdirAll_get_last hok hne
    rcases mkdirAll_get hok ctx.staging with h1 | ⟨_, h2, _, _⟩
    · rw [h1, hfresh0] at hm
      exact absurd hm (by simp)
    · exact h2
  · intro n hn0 hn1
    obtain ⟨m, hm⟩ := mkdirAllFrom_prefix_dir ctx.staging [] fs fs1 hok
      (ctx.staging.take n)
      (by
        intro hh
        have hlen := congrArg List.length hh
        rw [List.length_take] at hlen
        simp only [List.length_nil] at hlen
        rcases Nat.min_eq_zero_iff.mp hlen with h0 | h0 <;> omega)
      (pathLe_take ctx.staging n)
    rw [show ([] : Path) ++ ctx.staging.take n = ctx.staging.take n from rfl]
      at hm
    exact isDirAt_of_dir hm
  · intro u hu
    apply srcEntries_mkdirAllFrom ctx.staging [] fs fs1 hok
    intro r hr hle
    cases hq : pathLe u ([] ++ r) with
    | false => rfl
    | true =>
      have : pathLe u ctx.staging = true :=
        pathLe_trans (by simpa using hq) hle
      rw [hu] at this
      exact absurd this (by simp)

end DetPass

/-- C9: the full registry pass is deterministic in its inputs.  Two
`build_system` runs with the same externals and component registry, over
initial states listing identical source-tree entries, into two fresh and
independently located staging directories (both incomparable with the
source root), produce extensionally identical staging subtrees: the same
relative paths carry the same nodes — same file contents, same permission
bits, same symlink targets. -/
theorem C9_registry_determinism (ext : Externals)
    (components : List Component) (src S1 S2 bd1 od1 bd2 od2 : Path)
    (fs0A fs0B r1 r2 : FS) (sep : Sep src S1 S2)
    (hfA : ∀ q, fs0A.get (S1 ++ q) = none)
    (hfB : ∀ q, fs0B.get (S2 ++ q) = none)
    (hsrc0 : srcEntries src fs0A = srcEntries src fs0B)
    (h1 : build_system ext ⟨src, S1, bd1, od1⟩ components fs0A = (r1, none))
    (h2 : build_system ext ⟨src, S2, bd2, od2⟩ components fs0B = (r2, none)) :
    subtreeAt r1 S1 = subtreeAt r2 S2 := by
  unfold build_system at h1 h2
  cases hpA : prepare_staging ⟨src, S1, bd1, od1⟩ fs0A with
  | error e =>
    rw [hpA] at h1
    dsimp only at h1
    simp at h1
  | ok fsA1 =>
    rw [hpA] at h1
    dsimp only at h1
    cases hpB : prepare_staging ⟨src, S2, bd2, od2⟩ fs0B with
    | error e =>
      rw [hpB] at h2
      dsimp only at h2
      simp at h2
    | ok fsB1 =>
      rw [hpB] at h2
      dsimp only at h2
      obtain ⟨hAfresh, hAroot, hAanc, hAsrc⟩ := prepare_fresh sep.ne1 hfA hpA
      obtain ⟨hBfresh, hBroot, hBanc, hBsrc⟩ := prepare_fresh sep.ne2 hfB hpB
      dsimp only at hAfresh hAroot hAanc hAsrc hBfresh hBroot hBanc hBsrc
      have hInv : StInv src S1 S2 fsA1 fsB1 := by
        constructor
        · rw [hAsrc src sep.a1, hBsrc src sep.a2, hsrc0]
        · intro q
          by_cases hq : q = []
          · subst hq
            rw [List.append_nil, List.append_nil, hAroot, hBroot]
          · rw [hAfresh q hq, hBfresh q hq]
      have hec := @lock_executeComponents src S1 S2 bd1 od1 bd2 od2 ext sep
        components fsA1 fsB1 hInv hAanc hBanc
      cases heA : executeComponents ext ⟨src, S1, bd1, od1⟩ components fsA1 with
      | mk fsA2 eA =>
        cases heB : executeComponents ext ⟨src, S2, bd2, od2⟩ components fsB1
            with
        | mk fsB2 eB =>
          rw [heA, heB] at hec
          rw [heA] at h1
          rw [heB] at h2
          cases eA with
          | some e =>
            dsimp only at h1
            simp at h1
          | none =>
            cases eB with
            | some e => exact hec.elim
            | none =>
              obtain ⟨hi2, hA2anc, hB2anc⟩ := hec
              dsimp only at h1 h2
              rw [show subtreeAt fsA2 src = subtreeAt fsB2 src from
                  lock_subtree_src hi2,
                show subtreeAt fsA2 S1 = subtreeAt fsB2 S2 from
                  lock_subtree_staging hi2] at h1
              cases hlic : ext.licenses (subtreeAt fsB2 src)
                  (subtreeAt fsB2 S2) with
              | error e =>
                rw [hlic] at h1
                dsimp only at h1
                simp at h1
              | ok tc =>
                cases tc with
                | mk t count =>
                  rw [hlic] at h1 h2
                  dsimp only at h1 h2
                  simp only [Prod.mk.injEq] at h1 h2
                  obtain ⟨hr1, _⟩ := h1
                  obtain ⟨hr2, _⟩ := h2
                  rw [← hr1, ← hr2]
                  funext q
                  show FS.get (graft fsA2 S1 t) (S1 ++ q) =
                    FS.get (graft fsB2 S2 t) (S2 ++ q)
                  rw [get_graft_inside, get_graft_inside]

/-- Witness for C9: a one-component registry run from the same one-file
source tree into the fresh staging directories `t1` and `t2` yields
identical staging subtrees. -/
theorem C9_witness :
    subtreeAt [((["s", "a"] : Path), Node.file "z" 420)] ["t1"] =
      subtreeAt [((["s", "a"] : Path), Node.file "z" 420)] ["t2"] := by
  have hfA : ∀ q, FS.get [((["s", "a"] : Path), Node.file "z" 420)]
      (["t1"] ++ q) = none := by
    intro q
    have hne : (["s", "a"] : Path) ≠ "t1" :: q := by
      intro hh
      injection hh with hh1 hh2
      exact absurd hh1 (by decide)
    simp [FS.get, hne]
  have hfB : ∀ q, FS.get [((["s", "a"] : Path), Node.file "z" 420)]
      (["t2"] ++ q) = none := by
    intro q
    have hne : (["s", "a"] : Path) ≠ "t2" :: q := by
      intro hh
      injection hh with hh1 hh2
      exact absurd hh1 (by decide)
    simp [FS.get, hne]
  exact C9_registry_determinism
    ⟨fun _ => LddOutcome.run false "", fun _ _ _ => Except.ok [],
      fun _ _ => Except.ok ([], 0)⟩
    [⟨"core", Phase.Filesystem, [Op.Dir "x"]⟩]
    ["s"] ["t1"] ["t2"] [] [] [] []
    [(["s", "a"], Node.file "z" 420)] [(["s", "a"], Node.file "z" 420)]
    [(["s", "a"], Node.file "z" 420)] [(["s", "a"], Node.file "z" 420)]
    ⟨by decide, by decide, by decide, by decide⟩
    hfA hfB rfl (by rfl) (by rfl)

end Acorn
